import Mathlib

/-!
# oFono SIM manager (`src/sim.c`)

A shallow embedding of the SIM manager atom of oFono and a verification of
the properties its specification states about it.

Conventions of the embedding.

* A C string (`const char *`) is a `String`: the characters before the
  terminating NUL, none of which is NUL.  `strcmp(a, b) == 0` is `a == b`,
  `strlen` is `String.length`.  Strings reach this code through D-Bus
  messages, whose size the bus caps far below `2^32` bytes, so storing a
  `strlen` result in an `unsigned int` never truncates.
* An `unsigned char` buffer is a `List Nat` of byte values.
* A `gboolean` is a `Bool`; a pointer that may be `NULL` is an `Option`.
* A D-Bus method handler returns the reply it hands back (`none` for the
  `NULL` an asynchronous handler returns) together with the new session and
  the calls it made on its collaborators, in order.
-/

namespace OfonoSim

/-! ## Password kinds (`include/sim.h`, `src/sim.c` lines 121-204) -/

/-- Modelled from the spec: `enum ofono_sim_password_type` is declared in
`include/sim.h`, which is not among the sources.  The constructors are the
enumerators used by `src/sim.c` without their `OFONO_SIM_PASSWORD_` prefix,
listed in index order: `NONE` is 0, the eight PIN-class kinds come next
(`locked_pins` has `OFONO_SIM_PASSWORD_SIM_PUK` entries, "Number of PINs"),
then the seven PUK-class kinds, and `INVALID` is the number of kinds (the
size of `pin_retries`). -/
inductive ofono_sim_password_type
  | NONE
  | SIM_PIN
  | PHSIM_PIN
  | PHFSIM_PIN
  | SIM_PIN2
  | PHNET_PIN
  | PHNETSUB_PIN
  | PHSP_PIN
  | PHCORP_PIN
  | SIM_PUK
  | PHFSIM_PUK
  | SIM_PUK2
  | PHNET_PUK
  | PHNETSUB_PUK
  | PHSP_PUK
  | PHCORP_PUK
  | INVALID
  deriving DecidableEq

open ofono_sim_password_type

/-- The table `passwd_name[]` (lines 121-138), entry `i` at position `i`. -/
def passwd_name : List (ofono_sim_password_type × String) :=
  [ (NONE, "none"),
    (SIM_PIN, "pin"),
    (PHSIM_PIN, "phone"),
    (PHFSIM_PIN, "firstphone"),
    (SIM_PIN2, "pin2"),
    (PHNET_PIN, "network"),
    (PHNETSUB_PIN, "netsub"),
    (PHSP_PIN, "service"),
    (PHCORP_PIN, "corp"),
    (SIM_PUK, "puk"),
    (PHFSIM_PUK, "firstphonepuk"),
    (SIM_PUK2, "puk2"),
    (PHNET_PUK, "networkpuk"),
    (PHNETSUB_PUK, "netsubpuk"),
    (PHSP_PUK, "servicepuk"),
    (PHCORP_PUK, "corppuk") ]

/-- The function `sim_string_to_passwd` (lines 145-155): the index of the
first table entry whose name equals `name`, `INVALID` when there is none. -/
def sim_string_to_passwd (name : String) : ofono_sim_password_type :=
  match passwd_name.find? (fun e => e.2 == name) with
  | some e => e.1
  | none => INVALID

/-- The function `password_is_pin` (lines 157-182). -/
def password_is_pin : ofono_sim_password_type → Bool
  | SIM_PIN => true
  | PHSIM_PIN => true
  | PHFSIM_PIN => true
  | SIM_PIN2 => true
  | PHNET_PIN => true
  | PHNETSUB_PIN => true
  | PHSP_PIN => true
  | PHCORP_PIN => true
  | SIM_PUK => false
  | PHFSIM_PUK => false
  | SIM_PUK2 => false
  | PHNET_PUK => false
  | PHNETSUB_PUK => false
  | PHSP_PUK => false
  | PHCORP_PUK => false
  | INVALID => false
  | NONE => false

/-- The function `puk2pin` (lines 184-204), case by case as in the source. -/
def puk2pin : ofono_sim_password_type → ofono_sim_password_type
  | SIM_PUK => SIM_PIN
  | PHFSIM_PUK => PHFSIM_PIN
  | SIM_PUK2 => SIM_PIN2
  | PHNET_PUK => PHNET_PUK
  | PHNETSUB_PUK => PHNETSUB_PIN
  | PHSP_PUK => PHSP_PIN
  | PHCORP_PUK => PHCORP_PIN
  | _ => INVALID

/-! ## Password format (`src/sim.c` lines 2384-2444) -/

/-- The C library function `strspn`: the length of the longest prefix of `s`
made of characters of `accept`. -/
def strspn (s accept : String) : Nat :=
  (s.data.takeWhile (fun c => accept.data.contains c)).length

/-- The function `is_valid_pin` (lines 2384-2401).  The test `pin == NULL`
has no counterpart: every caller passes a string taken from a message. -/
def is_valid_pin (pin : String) (min max : Nat) : Bool :=
  if pin.data.head? = none then false
  else
    let i := pin.length
    if i ≠ strspn pin "0123456789" then false
    else if min ≤ i ∧ i ≤ max then true
    else false

/-- The function `__ofono_is_valid_sim_pin` (lines 2403-2439). -/
def __ofono_is_valid_sim_pin (pin : String) : ofono_sim_password_type → Bool
  | SIM_PIN => is_valid_pin pin 4 8
  | SIM_PIN2 => is_valid_pin pin 4 8
  | PHSIM_PIN => is_valid_pin pin 4 16
  | PHFSIM_PIN => is_valid_pin pin 4 16
  | PHNET_PIN => is_valid_pin pin 4 16
  | PHNETSUB_PIN => is_valid_pin pin 4 16
  | PHSP_PIN => is_valid_pin pin 4 16
  | PHCORP_PIN => is_valid_pin pin 4 16
  | SIM_PUK => is_valid_pin pin 8 8
  | SIM_PUK2 => is_valid_pin pin 8 8
  | PHFSIM_PUK => is_valid_pin pin 8 8
  | PHNET_PUK => is_valid_pin pin 8 8
  | PHNETSUB_PUK => is_valid_pin pin 8 8
  | PHSP_PUK => is_valid_pin pin 8 8
  | PHCORP_PUK => is_valid_pin pin 8 8
  | NONE => is_valid_pin pin 0 8
  | INVALID => false

/-- The function `__ofono_is_valid_net_pin` (lines 2441-2444). -/
def __ofono_is_valid_net_pin (pin : String) : Bool :=
  is_valid_pin pin 4 4

/-! ## The session (`struct ofono_sim`, `src/sim.c` lines 54-119) -/

/-- Modelled from the spec: `enum ofono_sim_phase` of `include/sim.h`. -/
inductive ofono_sim_phase
  | PHASE_1G
  | PHASE_2G
  | PHASE_2G_PLUS
  | PHASE_3G
  | PHASE_UNKNOWN
  deriving DecidableEq

/-- Modelled from the spec: `enum ofono_sim_cphs_phase` of `include/sim.h`. -/
inductive ofono_sim_cphs_phase
  | CPHS_PHASE_NONE
  | CPHS_PHASE_1G
  | CPHS_PHASE_2G
  deriving DecidableEq

/-- Modelled from the spec: `enum ofono_sim_state` of `include/sim.h`;
`NOT_PRESENT` is the value 0 a freshly allocated session holds. -/
inductive ofono_sim_state
  | NOT_PRESENT
  | INSERTED
  | READY
  deriving DecidableEq

/-- The type `struct ofono_phone_number` (`include/types.h`): the number text
and its type octet. -/
structure ofono_phone_number where
  number : String
  type : Int
  deriving DecidableEq

/-- The type `struct service_number` (lines 116-119). -/
structure service_number where
  id : String
  ph : ofono_phone_number
  deriving DecidableEq

/-- The members of `struct ofono_sim_driver` (`include/sim.h`) that
`src/sim.c` tests against `NULL` before calling them: `true` when the driver
implements the operation. -/
structure ofono_sim_driver where
  read_imsi : Bool
  query_passwd_state : Bool
  send_passwd : Bool
  query_pin_retries : Bool
  reset_passwd : Bool
  change_passwd : Bool
  lock : Bool
  deriving DecidableEq

/-- An argument of a D-Bus message, as far as the handlers of `src/sim.c`
look into it: a string, a byte, a variant holding an array of strings, a
variant holding anything else, or an argument of any other type. -/
inductive DBusArg
  | string (s : String)
  | byte (b : Nat)
  | variant_string_array (items : List String)
  | variant_other
  | other
  deriving DecidableEq

/-- A D-Bus method call: its serial number and its arguments. -/
structure DBusMessage where
  serial : Nat
  args : List DBusArg
  deriving DecidableEq

/-- The reply to a method call: a method return (with the icon bytes for
`GetIcon`) or one of the errors of `src/dbus.c`. -/
inductive Reply
  | method_return
  | method_return_bytes (xpm : String)
  | error_invalid_args
  | error_invalid_format
  | error_not_implemented
  | error_failed
  | error_busy
  deriving DecidableEq

/-- Modelled from the spec: the elementary-file identifiers are macros of
`src/simutil.h`, which is not among the sources; they are kept symbolic.
`numbered` is an identifier read from a card file (an image data file). -/
inductive sim_file_id
  | SIM_EF_ICCID_FILEID
  | SIM_EFLI_FILEID
  | SIM_EFPL_FILEID
  | SIM_EFMSISDN_FILEID
  | SIM_EFSDN_FILEID
  | SIM_EFIMG_FILEID
  | SIM_EFPHASE_FILEID
  | SIM_EFAD_FILEID
  | SIM_EF_CPHS_INFORMATION_FILEID
  | SIM_EFSST_FILEID
  | SIM_EFUST_FILEID
  | SIM_EFEST_FILEID
  | SIM_EFADN_FILEID
  | SIM_EFBDN_FILEID
  | numbered (id : Nat)
  deriving DecidableEq

/-- Modelled from the spec: `enum ofono_sim_file_structure` of
`include/sim.h`, the two structures `src/sim.c` asks for. -/
inductive ofono_sim_file_structure
  | TRANSPARENT
  | FIXED
  deriving DecidableEq

/-- The completion handlers of `src/sim.c` that are handed to a collaborator
together with a request. -/
inductive Callback
  | sim_lock_cb
  | sim_unlock_cb
  | sim_change_pin_cb
  | sim_enter_pin_cb
  | sim_pin_query_cb
  | sim_pin_retries_query_cb
  | sim_imsi_cb
  | msisdn_set_cb
  | sim_msisdn_read_cb
  | sim_sdn_read_cb
  | sim_efimg_read_cb
  | sim_iidf_read_cb
  | sim_iidf_read_clut_cb
  | sim_iccid_read_cb
  | sim_efli_read_cb
  | sim_efpl_read_cb
  | sim_efphase_read_cb
  | sim_ad_read_cb
  | sim_cphs_information_read_cb
  | sim_efsst_read_cb
  | sim_efust_read_cb
  | sim_efest_read_cb
  | sim_efadn_info_read_cb
  | sim_efbdn_info_read_cb
  deriving DecidableEq

/-- A call the SIM manager makes on a collaborator: the card driver, the
elementary-file client (`src/simfs.c`) or the message bus. -/
inductive Call
  | driver_lock (type : ofono_sim_password_type) (enable : Bool) (passwd : String) (cb : Callback)
  | driver_change_passwd (type : ofono_sim_password_type) (old new : String) (cb : Callback)
  | driver_send_passwd (passwd : String) (cb : Callback)
  | driver_reset_passwd (puk passwd : String) (cb : Callback)
  | driver_query_passwd_state (cb : Callback)
  | driver_query_pin_retries (cb : Callback)
  | driver_read_imsi (cb : Callback)
  | sim_fs_read (id : sim_file_id) (expected_type : ofono_sim_file_structure)
      (offset num_bytes : Nat) (cb : Callback)
  | sim_fs_read_info (id : sim_file_id) (expected_type : ofono_sim_file_structure) (cb : Callback)
  | sim_fs_write (id : sim_file_id) (expected_type : ofono_sim_file_structure) (record : Nat)
      (data : List Nat) (length : Nat) (cb : Callback)
  | sim_fs_get_cached_image (id : Nat)
  | sim_fs_cache_image (xpm : String) (id : Nat)
  | g_dbus_send_message (msg : Option DBusMessage) (reply : Reply)
  | signal_property_changed (name : String) (value : String)
  | signal_array_property_changed (name : String) (value : List String)
  | signal_boolean_property_changed (name : String) (value : Bool)
  | signal_dict_property_changed (name : String) (value : List String)
  | signal_byte_dict_property_changed (name : String) (value : List (String × Int))
  | sim_fs_check_version
  | notify_state_watches (state : ofono_sim_state)
  deriving DecidableEq

/-- The type `struct ofono_sim` (lines 54-107).  The handles `state_watches`,
`simfs`, `context`, `driver_data` and `atom` point into collaborators and are
left out, except for the registration flag of the atom. -/
structure ofono_sim where
  iccid : Option String
  language_prefs : Option (List String)
  efli : Option (List Nat)
  efli_length : Nat
  pin_type : ofono_sim_password_type
  locked_pins : List Bool
  pin_retries : List Int
  phase : ofono_sim_phase
  mnc_length : Nat
  cphs_phase : ofono_sim_cphs_phase
  cphs_service_table : List Nat
  efust : Option (List Nat)
  efust_length : Nat
  efest : Option (List Nat)
  efest_length : Nat
  efsst : Option (List Nat)
  efsst_length : Nat
  fixed_dialing : Bool
  barred_dialing : Bool
  imsi : Option String
  mcc : String
  mnc : String
  own_numbers : List ofono_phone_number
  new_numbers : List ofono_phone_number
  efmsisdn_length : Nat
  efmsisdn_records : Nat
  service_numbers : List service_number
  sdn_ready : Bool
  efimg : Option (List Nat)
  efimg_length : Nat
  state : ofono_sim_state
  iidf_image : Option (List Nat)
  pending : Option DBusMessage
  driver : ofono_sim_driver
  atom_registered : Bool
  deriving DecidableEq

/-- The session `ofono_sim_create` returns (lines 2300-2338) for a driver that
probes successfully: zero-filled, phase unknown, every retry count -1. -/
def ofono_sim_create (driver : ofono_sim_driver) : ofono_sim where
  iccid := none
  language_prefs := none
  efli := none
  efli_length := 0
  pin_type := NONE
  locked_pins := List.replicate 9 false
  pin_retries := List.replicate 16 (-1)
  phase := ofono_sim_phase.PHASE_UNKNOWN
  mnc_length := 0
  cphs_phase := ofono_sim_cphs_phase.CPHS_PHASE_NONE
  cphs_service_table := [0, 0]
  efust := none
  efust_length := 0
  efest := none
  efest_length := 0
  efsst := none
  efsst_length := 0
  fixed_dialing := false
  barred_dialing := false
  imsi := none
  mcc := ""
  mnc := ""
  own_numbers := []
  new_numbers := []
  efmsisdn_length := 0
  efmsisdn_records := 0
  service_numbers := []
  sdn_ready := false
  efimg := none
  efimg_length := 0
  state := ofono_sim_state.NOT_PRESENT
  iidf_image := none
  pending := none
  driver := driver
  atom_registered := false

/-- Modelled from the spec: the USIM service-table entries `src/sim.c` asks
about, macros `SIM_UST_SERVICE_*` of `src/simutil.h`, kept symbolic. -/
inductive sim_ust_service
  | FDN
  | BDN
  | ENABLED_SERVICE_TABLE
  deriving DecidableEq

/-- Modelled from the spec: the SIM service-table entries `src/sim.c` asks
about, macros `SIM_SST_SERVICE_*` of `src/simutil.h`, kept symbolic. -/
inductive sim_sst_service
  | FDN
  | BDN
  deriving DecidableEq

/-- Modelled from the spec: the entries of the enabled-services table
`src/sim.c` asks about, macros `SIM_EST_SERVICE_*` of `src/simutil.h`, kept
symbolic. -/
inductive sim_est_service
  | FDN
  | BDN
  deriving DecidableEq

/-- What a D-Bus method handler leaves behind: the session, the reply it
returns (`none` for `NULL`) and the calls it made, in order. -/
structure Outcome where
  sim : ofono_sim
  reply : Option Reply
  calls : List Call
  deriving DecidableEq

/-- The functions of this repository that `src/sim.c` calls and whose code is
not among the sources (`src/simfs.c`, `src/common.c`, `src/simutil.c`,
`src/smsutil.c`, `src/util.c`), taken as parameters as far as their results
steer `src/sim.c`: the image cache, the return codes of the file requests, the
phone-number helpers, the record encoder, the language table, the record
decoder (the number of a record and its alphanumeric identifier, `none` for a
`NULL` identifier), the BCD decoder and the service-table tests, which are
handed the table pointer (`none` for `NULL`) and the stored length. -/
structure Collaborators where
  sim_fs_get_cached_image : Nat → Option String
  sim_fs_read : sim_file_id → Nat → Nat → Int
  sim_fs_write : sim_file_id → Nat → List Nat → Int
  valid_phone_number_format : String → Bool
  string_to_phone_number : String → ofono_phone_number
  sim_adn_build : Nat → ofono_phone_number → List Nat
  iso639_2_from_language : Nat → Option String
  sim_adn_parse : List Nat → Nat → Option (ofono_phone_number × Option String)
  phone_number_to_string : ofono_phone_number → String
  extract_bcd_number : List Nat → Nat → String
  sim_ust_is_available : Option (List Nat) → Nat → sim_ust_service → Bool
  sim_sst_is_active : Option (List Nat) → Nat → sim_sst_service → Bool
  sim_est_is_active : Option (List Nat) → Nat → sim_est_service → Bool

/-! ## Password requests (`src/sim.c` lines 651-813 and 990-1028) -/

/-- The call `dbus_message_get_args(msg, NULL, DBUS_TYPE_STRING, ..,
DBUS_TYPE_STRING, .., DBUS_TYPE_INVALID)`: the first two arguments when both
are strings. -/
def dbus_message_get_args_ss (msg : DBusMessage) : Option (String × String) :=
  match msg.args with
  | DBusArg.string a :: DBusArg.string b :: _ => some (a, b)
  | _ => none

/-- The call `dbus_message_get_args` asking for three strings. -/
def dbus_message_get_args_sss (msg : DBusMessage) : Option (String × String × String) :=
  match msg.args with
  | DBusArg.string a :: DBusArg.string b :: DBusArg.string c :: _ => some (a, b, c)
  | _ => none

/-- The call `dbus_message_get_args` asking for one byte. -/
def dbus_message_get_args_y (msg : DBusMessage) : Option Nat :=
  match msg.args with
  | DBusArg.byte b :: _ => some b
  | _ => none

/-- The function `sim_lock_or_unlock` (lines 651-688). -/
def sim_lock_or_unlock (sim : ofono_sim) (lock : Bool) (msg : DBusMessage) : Outcome :=
  if sim.driver.lock = false then ⟨sim, some Reply.error_not_implemented, []⟩
  else if sim.pending.isSome then ⟨sim, some Reply.error_busy, []⟩
  else
    match dbus_message_get_args_ss msg with
    | none => ⟨sim, some Reply.error_invalid_args, []⟩
    | some (typestr, pin) =>
      let type := sim_string_to_passwd typestr
      if password_is_pin type = false ∨ type = SIM_PIN2 then
        ⟨sim, some Reply.error_invalid_format, []⟩
      else if __ofono_is_valid_sim_pin pin type = false then
        ⟨sim, some Reply.error_invalid_format, []⟩
      else
        ⟨{ sim with pending := some msg }, none,
          [Call.driver_lock type lock pin
            (if lock then Callback.sim_lock_cb else Callback.sim_unlock_cb)]⟩

/-- The function `sim_lock_pin` (lines 690-696). -/
def sim_lock_pin (sim : ofono_sim) (msg : DBusMessage) : Outcome :=
  sim_lock_or_unlock sim true msg

/-- The function `sim_unlock_pin` (lines 698-704). -/
def sim_unlock_pin (sim : ofono_sim) (msg : DBusMessage) : Outcome :=
  sim_lock_or_unlock sim false msg

/-- The function `sim_change_pin` (lines 725-765). -/
def sim_change_pin (sim : ofono_sim) (msg : DBusMessage) : Outcome :=
  if sim.driver.change_passwd = false then ⟨sim, some Reply.error_not_implemented, []⟩
  else if sim.pending.isSome then ⟨sim, some Reply.error_busy, []⟩
  else
    match dbus_message_get_args_sss msg with
    | none => ⟨sim, some Reply.error_invalid_args, []⟩
    | some (typestr, old, new) =>
      let type := sim_string_to_passwd typestr
      if password_is_pin type = false then
        ⟨sim, some Reply.error_invalid_format, []⟩
      else if __ofono_is_valid_sim_pin old type = false then
        ⟨sim, some Reply.error_invalid_format, []⟩
      else if __ofono_is_valid_sim_pin new type = false then
        ⟨sim, some Reply.error_invalid_format, []⟩
      else if new == old then
        ⟨sim, some Reply.method_return, []⟩
      else
        ⟨{ sim with pending := some msg }, none,
          [Call.driver_change_passwd type old new Callback.sim_change_pin_cb]⟩

/-- The function `sim_enter_pin` (lines 782-813). -/
def sim_enter_pin (sim : ofono_sim) (msg : DBusMessage) : Outcome :=
  if sim.driver.send_passwd = false then ⟨sim, some Reply.error_not_implemented, []⟩
  else if sim.pending.isSome then ⟨sim, some Reply.error_busy, []⟩
  else
    match dbus_message_get_args_ss msg with
    | none => ⟨sim, some Reply.error_invalid_args, []⟩
    | some (typestr, pin) =>
      let type := sim_string_to_passwd typestr
      if type = NONE ∨ type ≠ sim.pin_type then
        ⟨sim, some Reply.error_invalid_format, []⟩
      else if __ofono_is_valid_sim_pin pin type = false then
        ⟨sim, some Reply.error_invalid_format, []⟩
      else
        ⟨{ sim with pending := some msg }, none,
          [Call.driver_send_passwd pin Callback.sim_enter_pin_cb]⟩

/-- The function `sim_reset_pin` (lines 990-1028). -/
def sim_reset_pin (sim : ofono_sim) (msg : DBusMessage) : Outcome :=
  if sim.driver.reset_passwd = false then ⟨sim, some Reply.error_not_implemented, []⟩
  else if sim.pending.isSome then ⟨sim, some Reply.error_busy, []⟩
  else
    match dbus_message_get_args_sss msg with
    | none => ⟨sim, some Reply.error_invalid_args, []⟩
    | some (typestr, puk, pin) =>
      let type := sim_string_to_passwd typestr
      if type = NONE ∨ type ≠ sim.pin_type then
        ⟨sim, some Reply.error_invalid_format, []⟩
      else if __ofono_is_valid_sim_pin puk type = false then
        ⟨sim, some Reply.error_invalid_format, []⟩
      else
        let type := puk2pin type
        if __ofono_is_valid_sim_pin pin type = false then
          ⟨sim, some Reply.error_invalid_format, []⟩
        else
          ⟨{ sim with pending := some msg }, none,
            [Call.driver_reset_passwd puk pin Callback.sim_enter_pin_cb]⟩

/-! ## Icons (`src/sim.c` lines 815-988 and 1965-1974) -/

/-- The function `__ofono_dbus_pending_reply` (`src/dbus.c`) applied to the
pending slot of the session: the reply is sent for the message the slot holds
and the slot is cleared. -/
def __ofono_dbus_pending_reply (sim : ofono_sim) (reply : Reply) : ofono_sim × List Call :=
  ({ sim with pending := none }, [Call.g_dbus_send_message sim.pending reply])

/-- The function `sim_get_image_cb` (lines 815-846). -/
def sim_get_image_cb (sim : ofono_sim) (id : Nat) (xpm : Option String) (cache : Bool) :
    ofono_sim × List Call :=
  match xpm with
  | none => __ofono_dbus_pending_reply sim Reply.error_failed
  | some x =>
    let r := __ofono_dbus_pending_reply sim (Reply.method_return_bytes x)
    if cache then (r.1, r.2 ++ [Call.sim_fs_cache_image x id]) else r

/-- The function `ofono_sim_read_bytes` (lines 1965-1974): the return code and
the request handed to the file client, none when `num_bytes` is 0. -/
def ofono_sim_read_bytes (c : Collaborators) (id : sim_file_id) (offset num_bytes : Nat)
    (cb : Callback) : Int × List Call :=
  if num_bytes = 0 then (-1, [])
  else
    (c.sim_fs_read id offset num_bytes,
      [Call.sim_fs_read id ofono_sim_file_structure.TRANSPARENT offset num_bytes cb])

/-- The function `sim_get_image` (lines 931-961); `none` when a descriptor
byte is read outside the `efimg` buffer. -/
def sim_get_image (c : Collaborators) (sim : ofono_sim) (id : Nat) :
    Option (ofono_sim × List Call) :=
  match c.sim_fs_get_cached_image id with
  | some image =>
    let r := sim_get_image_cb sim id (some image) false
    some (r.1, Call.sim_fs_get_cached_image id :: r.2)
  | none =>
    if sim.efimg_length ≤ id * 9 then
      let r := sim_get_image_cb sim id none false
      some (r.1, Call.sim_fs_get_cached_image id :: r.2)
    else do
      let buf ← sim.efimg
      let b3 ← buf[id * 9 + 3]?
      let b4 ← buf[id * 9 + 4]?
      let b5 ← buf[id * 9 + 5]?
      let b6 ← buf[id * 9 + 6]?
      let b7 ← buf[id * 9 + 7]?
      let b8 ← buf[id * 9 + 8]?
      let iidf_id := (b3 <<< 8 ||| b4) % 2 ^ 16
      let iidf_offset := (b5 <<< 8 ||| b6) % 2 ^ 16
      let iidf_len := (b7 <<< 8 ||| b8) % 2 ^ 16
      let r := ofono_sim_read_bytes c (sim_file_id.numbered iidf_id) iidf_offset iidf_len
        Callback.sim_iidf_read_cb
      some (sim, Call.sim_fs_get_cached_image id :: r.2)

/-- The function `sim_get_icon` (lines 963-988). -/
def sim_get_icon (c : Collaborators) (sim : ofono_sim) (msg : DBusMessage) : Option Outcome :=
  match dbus_message_get_args_y msg with
  | none => some ⟨sim, some Reply.error_invalid_args, []⟩
  | some id =>
    if id = 0 then some ⟨sim, some Reply.error_invalid_args, []⟩
    else if sim.pending.isSome then some ⟨sim, some Reply.error_busy, []⟩
    else if sim.efimg = none then some ⟨sim, some Reply.error_not_implemented, []⟩
    else
      (sim_get_image c { sim with pending := some msg } (id - 1)).map
        (fun r => ⟨r.1, none, r.2⟩)

/-! ## Subscriber numbers, write path (`src/sim.c` lines 441-585) -/

/-- The type `struct msisdn_set_request` (lines 109-114), without its back
pointer to the session. -/
structure msisdn_set_request where
  pending : Int
  failed : Int
  msg : Option DBusMessage
  deriving DecidableEq

/-- The function `sim_own_numbers_update` (lines 1216-1221). -/
def sim_own_numbers_update : List Call :=
  [Call.sim_fs_read sim_file_id.SIM_EFMSISDN_FILEID ofono_sim_file_structure.FIXED 0 0
    Callback.sim_msisdn_read_cb]

/-- The function `msisdn_set_done` (lines 441-456): the reply to the request
message, then the re-read of the subscriber numbers. -/
def msisdn_set_done (req : msisdn_set_request) : List Call :=
  Call.g_dbus_send_message req.msg
      (if req.failed ≠ 0 then Reply.error_failed else Reply.method_return) ::
    sim_own_numbers_update

/-- The loop of `set_own_numbers` (lines 487-506), `n` records from `record`
on; `none` when the buffer is written outside its bounds (the record length
is below 14 and a slot is cleared). -/
def set_own_numbers_records (c : Collaborators) (sim : ofono_sim) :
    Nat → Nat → List ofono_phone_number → msisdn_set_request → List Call →
      Option (msisdn_set_request × List Call)
  | 0, _, _, req, calls => some (req, calls)
  | n + 1, record, new_numbers, req, calls =>
    let efmsisdn : Option (List Nat × List ofono_phone_number) :=
      match new_numbers with
      | number :: rest => some (c.sim_adn_build sim.efmsisdn_length number, rest)
      | [] =>
        if sim.efmsisdn_length < 14 then none
        else some ((List.replicate sim.efmsisdn_length 0xff).set (sim.efmsisdn_length - 14) 1, [])
    match efmsisdn with
    | none => none
    | some (data, rest) =>
      let call := Call.sim_fs_write sim_file_id.SIM_EFMSISDN_FILEID
        ofono_sim_file_structure.FIXED record data sim.efmsisdn_length Callback.msisdn_set_cb
      let req :=
        if c.sim_fs_write sim_file_id.SIM_EFMSISDN_FILEID record data = 0 then
          { req with pending := req.pending + 1 }
        else
          { req with failed := req.failed + 1 }
      set_own_numbers_records c sim n (record + 1) rest req (calls ++ [call])

/-- The function `set_own_numbers` (lines 471-512): `none` when the buffer is
written outside its bounds, otherwise the value returned, the request when it
is still waiting for write completions, and the calls made. -/
def set_own_numbers (c : Collaborators) (sim : ofono_sim)
    (new_numbers : List ofono_phone_number) (msg : DBusMessage) :
    Option (Bool × Option msisdn_set_request × List Call) :=
  if new_numbers.length > sim.efmsisdn_records then some (false, none, [])
  else
    match set_own_numbers_records c sim sim.efmsisdn_records 1 new_numbers
        ⟨0, 0, some msg⟩ [] with
    | none => none
    | some (req, calls) =>
      if req.pending = 0 then some (true, none, calls ++ msisdn_set_done req)
      else some (true, some req, calls)

/-- The function `sim_set_property` (lines 514-585). -/
def sim_set_property (c : Collaborators) (sim : ofono_sim) (msg : DBusMessage) :
    Option Outcome :=
  match msg.args with
  | DBusArg.string name :: rest =>
    if name == "SubscriberNumbers" then
      if sim.efmsisdn_length = 0 then some ⟨sim, some Reply.error_busy, []⟩
      else
        match rest with
        | DBusArg.variant_string_array items :: _ =>
          if items.all c.valid_phone_number_format then
            match set_own_numbers c sim (items.map c.string_to_phone_number) msg with
            | none => none
            | some (set_ok, _, calls) =>
              if set_ok then some ⟨sim, none, calls⟩
              else some ⟨sim, some Reply.error_invalid_args, calls⟩
          else some ⟨sim, some Reply.error_invalid_args, []⟩
        | _ => some ⟨sim, some Reply.error_invalid_args, []⟩
    else some ⟨sim, some Reply.error_invalid_args, []⟩
  | _ => some ⟨sim, some Reply.error_invalid_args, []⟩

/-! ## Language preferences (`src/sim.c` lines 1624-1876) -/

/-- The GLib function `g_ascii_isalpha` on a byte value. -/
def g_ascii_isalpha (b : Nat) : Bool :=
  (65 ≤ b && b ≤ 90) || (97 ≤ b && b ≤ 122)

/-- The GLib function `g_ascii_tolower` on a byte value. -/
def g_ascii_tolower (b : Nat) : Nat :=
  if 65 ≤ b ∧ b ≤ 90 then b + 32 else b

/-- The GLib call `g_ascii_strdown(str, len)` on the `len` bytes `bytes`: a
copy made by `g_strndup`, which stops at the first NUL byte, with every
upper-case ASCII letter replaced by its lower-case letter. -/
def g_ascii_strdown (bytes : List Nat) : String :=
  String.mk ((bytes.takeWhile (fun b => b ≠ 0)).map (fun b => Char.ofNat (g_ascii_tolower b)))

/-- The function `sim_efli_read_cb` (lines 1692-1703): `g_memdup` returns
`NULL` for an empty buffer, and the length is stored in an `unsigned char`. -/
def sim_efli_read_cb (sim : ofono_sim) (ok : Bool) (data : List Nat) : ofono_sim :=
  if ok = false then sim
  else
    { sim with
      efli := if data.length = 0 then none else some data,
      efli_length := data.length % 2 ^ 8 }

/-- The loop of `sim_efli_format` (lines 1713-1727), `n` pairs from index `i`
on; `none` when a byte is read outside the buffer. -/
def sim_efli_format_pairs (ef : List Nat) : Nat → Nat → Option Bool
  | 0, _ => some true
  | n + 1, i =>
    match ef[i]? with
    | none => none
    | some a =>
      let unused : Option Bool :=
        if a = 0xff then (ef[i + 1]?).map (fun b => decide (b = 0xff)) else some false
      match unused with
      | none => none
      | some true => sim_efli_format_pairs ef n (i + 2)
      | some false =>
        if g_ascii_isalpha a = false then some false
        else
          match ef[i + 1]? with
          | none => none
          | some b =>
            if g_ascii_isalpha b = false then some false
            else sim_efli_format_pairs ef n (i + 2)

/-- The function `sim_efli_format` (lines 1705-1730). -/
def sim_efli_format (ef : List Nat) (length : Nat) : Option Bool :=
  if length % 2 = 1 then some false
  else sim_efli_format_pairs ef ((length + 1) / 2) 0

/-- The loop of `parse_language_list` (lines 1737-1747), `n` pairs from index
`i` on, prepending to `ret`; `none` when a byte is read outside the buffer.
The second byte of a pair is not read when the first is above 0x7f. -/
def parse_language_list_pairs (ef : List Nat) : Nat → Nat → List String → Option (List String)
  | 0, _, ret => some ret
  | n + 1, i, ret =>
    match ef[i]? with
    | none => none
    | some a =>
      if a > 0x7f then parse_language_list_pairs ef n (i + 2) ret
      else
        match ef[i + 1]? with
        | none => none
        | some b =>
          if b > 0x7f then parse_language_list_pairs ef n (i + 2) ret
          else parse_language_list_pairs ef n (i + 2) (g_ascii_strdown [a, b] :: ret)

/-- The function `parse_language_list` (lines 1732-1753): the loop runs for
`i = 0, 2, ..` below `length`, then the list is reversed. -/
def parse_language_list (ef : List Nat) (length : Nat) : Option (List String) :=
  (parse_language_list_pairs ef ((length + 1) / 2) 0 []).map List.reverse

/-- The loop of `parse_eflp` (lines 1761-1766), `n` bytes from index `i` on. -/
def parse_eflp_bytes (c : Collaborators) (eflp : List Nat) :
    Nat → Nat → List String → Option (List String)
  | 0, _, ret => some ret
  | n + 1, i, ret =>
    match eflp[i]? with
    | none => none
    | some b =>
      match c.iso639_2_from_language b with
      | none => parse_eflp_bytes c eflp n (i + 1) ret
      | some code => parse_eflp_bytes c eflp n (i + 1) (code :: ret)

/-- The function `parse_eflp` (lines 1755-1772). -/
def parse_eflp (c : Collaborators) (eflp : List Nat) (length : Nat) : Option (List String) :=
  (parse_eflp_bytes c eflp length 0 []).map List.reverse

/-- The function `concat_lang_prefs` (lines 1774-1803): `NULL` when both lists
are empty; otherwise the entries of `a`, then each entry of `b` for which the
scan of `a` raised no duplicate flag. -/
def concat_lang_prefs (a b : List String) : Option (List String) :=
  if a.length + b.length = 0 then none
  else
    let ret := a.foldl (fun ret l => ret ++ [l]) []
    some (b.foldl
      (fun ret l =>
        let duplicate := a.foldl (fun d k => if k == l then true else d) false
        if duplicate then ret else ret ++ [l])
      ret)

/-- The function `sim_initialize_after_pin` (lines 1624-1641). -/
def sim_initialize_after_pin : List Call :=
  [ Call.sim_fs_read sim_file_id.SIM_EFPHASE_FILEID ofono_sim_file_structure.TRANSPARENT 0 0
      Callback.sim_efphase_read_cb,
    Call.sim_fs_read sim_file_id.SIM_EFAD_FILEID ofono_sim_file_structure.TRANSPARENT 0 0
      Callback.sim_ad_read_cb,
    Call.sim_fs_read sim_file_id.SIM_EF_CPHS_INFORMATION_FILEID
      ofono_sim_file_structure.TRANSPARENT 0 0 Callback.sim_cphs_information_read_cb ]

/-- The function `sim_pin_check` (lines 1682-1690). -/
def sim_pin_check (sim : ofono_sim) : List Call :=
  if sim.driver.query_passwd_state = false then sim_initialize_after_pin
  else [Call.driver_query_passwd_state Callback.sim_pin_query_cb]

/-- The function `sim_efpl_read_cb` (lines 1805-1876), on the completion of
the EFpl read with the bytes `data` (`length` is their number); `none` when a
byte is read outside a buffer. -/
def sim_efpl_read_cb (c : Collaborators) (sim : ofono_sim) (ok : Bool) (data : List Nat) :
    Option (ofono_sim × List Call) :=
  let efpl : Option (List String) :=
    if ok = false ∨ data.length < 2 then some []
    else parse_language_list data data.length
  let efli : Option (Bool × List String) :=
    match sim.efli with
    | some ef =>
      if sim.efli_length > 0 then
        match sim_efli_format ef sim.efli_length with
        | none => none
        | some true => (parse_language_list ef sim.efli_length).map (fun l => (true, l))
        | some false => (parse_eflp c ef sim.efli_length).map (fun l => (false, l))
      else some (true, [])
    | none => some (true, [])
  match efpl, efli with
  | some efpl, some (efli_format, efli) =>
    let language_prefs : Option (Option (List String)) :=
      if efli_format then
        if sim.efli_length ≥ 2 then
          match sim.efli with
          | none => none
          | some ef =>
            match ef[0]? with
            | none => none
            | some b0 =>
              if b0 = 0xff then
                match ef[1]? with
                | none => none
                | some b1 =>
                  if b1 = 0xff then some (concat_lang_prefs [] efpl)
                  else some (concat_lang_prefs efli efpl)
              else some (concat_lang_prefs efli efpl)
        else some (concat_lang_prefs efli efpl)
      else some (concat_lang_prefs efpl efli)
    match language_prefs with
    | none => none
    | some language_prefs =>
      let sim1 := { sim with language_prefs := language_prefs }
      let sim2 := if sim1.efli.isSome then { sim1 with efli := none, efli_length := 0 } else sim1
      let signal :=
        match language_prefs with
        | some l => [Call.signal_array_property_changed "PreferredLanguages" l]
        | none => []
      some (sim2, signal ++ sim_pin_check sim2)
  | _, _ => none

/-! ## Subscriber numbers, completions (`src/sim.c` lines 458-469 and 1054-1134) -/

/-- The function `msisdn_set_cb` (lines 458-469): the request, `none` once it
is freed by `msisdn_set_done`, and the calls made. -/
def msisdn_set_cb (ok : Bool) (req : msisdn_set_request) :
    Option msisdn_set_request × List Call :=
  let req := if ok = false then { req with failed := req.failed + 1 } else req
  let req := { req with pending := req.pending - 1 }
  if req.pending = 0 then (none, msisdn_set_done req) else (some req, [])

/-- The function `numbers_list_equal` (lines 1054-1074). -/
def numbers_list_equal : List ofono_phone_number → List ofono_phone_number → Bool
  | [], [] => true
  | [], _ :: _ => false
  | _ :: _, [] => false
  | num_a :: a, num_b :: b =>
    if (num_a.number == num_b.number) = false ∨ num_a.type ≠ num_b.type then false
    else numbers_list_equal a b

/-- The function `get_own_numbers` (lines 206-226). -/
def get_own_numbers (c : Collaborators) (own_numbers : List ofono_phone_number) :
    List String :=
  own_numbers.map c.phone_number_to_string

/-- The part of `sim_msisdn_read_cb` from the label `check` on (lines
1106-1133), reached when all records are retrieved or the read failed. -/
def sim_msisdn_read_cb_check (c : Collaborators) (sim : ofono_sim) : ofono_sim × List Call :=
  let new_numbers := sim.new_numbers.reverse
  if numbers_list_equal new_numbers sim.own_numbers = false then
    ({ sim with own_numbers := new_numbers, new_numbers := [] },
      [Call.signal_array_property_changed "SubscriberNumbers" (get_own_numbers c new_numbers)])
  else ({ sim with new_numbers := [] }, [])

/-- The function `sim_msisdn_read_cb` (lines 1076-1134), on the completion of
one record; lengths and record numbers are never negative. -/
def sim_msisdn_read_cb (c : Collaborators) (sim : ofono_sim) (ok : Bool)
    (length record : Nat) (data : List Nat) (record_length : Nat) : ofono_sim × List Call :=
  if ok = false then sim_msisdn_read_cb_check c sim
  else if record_length < 14 ∨ length < record_length then (sim, [])
  else
    let total := length / record_length
    let sim := { sim with
      efmsisdn_length := record_length % 2 ^ 8,
      efmsisdn_records := total % 2 ^ 8 }
    let sim :=
      match c.sim_adn_parse data record_length with
      | some (ph, _) => { sim with new_numbers := ph :: sim.new_numbers }
      | none => sim
    if record ≠ total then (sim, [])
    else sim_msisdn_read_cb_check c sim

/-! ## Service directory (`src/sim.c` lines 281-301 and 1136-1214) -/

/-- The function `get_service_numbers` (lines 281-301): identifier and number
of each entry, one after the other. -/
def get_service_numbers (c : Collaborators) : List service_number → List String
  | [] => []
  | num :: l => num.id :: c.phone_number_to_string num.ph :: get_service_numbers c l

/-- The part of `sim_sdn_read_cb` from the label `check` on (lines
1197-1213). -/
def sim_sdn_read_cb_check (c : Collaborators) (sim : ofono_sim) : ofono_sim × List Call :=
  if sim.service_numbers ≠ [] then
    let service_numbers := sim.service_numbers.reverse
    ({ sim with service_numbers := service_numbers, sdn_ready := true },
      [Call.signal_dict_property_changed "ServiceNumbers"
        (get_service_numbers c service_numbers)])
  else (sim, [])

/-- The function `sim_sdn_read_cb` (lines 1144-1214), on the completion of one
record.  The lookup `g_slist_find_custom` with `service_number_compare` (lines
1136-1142) finds an entry whose identifier equals `alpha`; the error logged
for a duplicate is not a call on a collaborator. -/
def sim_sdn_read_cb (c : Collaborators) (sim : ofono_sim) (ok : Bool)
    (length record : Nat) (data : List Nat) (record_length : Nat) : ofono_sim × List Call :=
  if ok = false then sim_sdn_read_cb_check c sim
  else if record_length < 14 ∨ length < record_length then (sim, [])
  else
    let total := length / record_length
    let sim :=
      match c.sim_adn_parse data record_length with
      | none => sim
      | some (ph, alpha) =>
        let alpha : Option String :=
          match alpha with
          | some a => if a.data.head? = none then none else some a
          | none => none
        let alpha : String :=
          match alpha with
          | none => c.phone_number_to_string ph
          | some a => a
        if sim.service_numbers ≠ [] ∧
            (sim.service_numbers.find? (fun sdn => sdn.id == alpha)).isSome then sim
        else { sim with service_numbers := ⟨alpha, ph⟩ :: sim.service_numbers }
    if record ≠ total then (sim, [])
    else sim_sdn_read_cb_check c sim

/-! ## Presence and bring-up (`src/sim.c` lines 1264-1332, 1505-1622, 1878-1950, 2069-2240, 2340-2367) -/

/-- The function `sim_ready` (lines 1264-1277), the state watch the session
registers for itself. -/
def sim_ready (new_state : ofono_sim_state) : List Call :=
  if new_state ≠ ofono_sim_state.READY then []
  else
    sim_own_numbers_update ++
      [ Call.sim_fs_read sim_file_id.SIM_EFSDN_FILEID ofono_sim_file_structure.FIXED 0 0
          Callback.sim_sdn_read_cb,
        Call.sim_fs_read sim_file_id.SIM_EFIMG_FILEID ofono_sim_file_structure.FIXED 0 0
          Callback.sim_efimg_read_cb ]

/-- The function `sim_set_ready` (lines 2219-2240).  The watch list exists
from `ofono_sim_register` to `sim_unregister`; walking it when the atom is not
registered dereferences `NULL`, which is `none`.  The watches of other atoms
are one call, followed by the calls of the session's own watch `sim_ready`. -/
def sim_set_ready (sim : ofono_sim) : Option (ofono_sim × List Call) :=
  if sim.state ≠ ofono_sim_state.INSERTED then some (sim, [])
  else if sim.atom_registered = false then none
  else
    some ({ sim with state := ofono_sim_state.READY },
      [Call.sim_fs_check_version, Call.notify_state_watches ofono_sim_state.READY] ++
        sim_ready ofono_sim_state.READY)

/-- The function `sim_imsi_cb` (lines 1279-1321).  The country code is the
first `OFONO_MAX_MCC_LENGTH` = 3 characters of the IMSI and the network code
the next `mnc_length`; `none` when the IMSI has fewer than 3 characters (the
copy starts past its end) or `mnc_length` exceeds `OFONO_MAX_MNC_LENGTH` = 3
(the copy overruns `mnc`). -/
def sim_imsi_cb (sim : ofono_sim) (ok : Bool) (imsi : String) :
    Option (ofono_sim × List Call) :=
  if ok = false then some (sim, [])
  else
    let sim := { sim with imsi := some imsi }
    let signal := [Call.signal_property_changed "SubscriberIdentity" imsi]
    let codes : Option (ofono_sim × List Call) :=
      if sim.mnc_length ≠ 0 then
        if imsi.length < 3 ∨ sim.mnc_length > 3 then none
        else
          let mcc := String.mk (imsi.data.take 3)
          let mnc := String.mk ((imsi.data.drop 3).take sim.mnc_length)
          some ({ sim with mcc := mcc, mnc := mnc },
            [ Call.signal_property_changed "MobileCountryCode" mcc,
              Call.signal_property_changed "MobileNetworkCode" mnc ])
      else some (sim, [])
    match codes with
    | none => none
    | some (sim, signals) =>
      match sim_set_ready sim with
      | none => none
      | some (sim, calls) => some (sim, signal ++ signals ++ calls)

/-- The function `sim_retrieve_imsi` (lines 1323-1332). -/
def sim_retrieve_imsi (sim : ofono_sim) : List Call :=
  if sim.driver.read_imsi = false then []
  else [Call.driver_read_imsi Callback.sim_imsi_cb]

/-- The function `sim_efust_read_cb` (lines 1505-1545). -/
def sim_efust_read_cb (c : Collaborators) (sim : ofono_sim) (ok : Bool) (data : List Nat) :
    ofono_sim × List Call :=
  if ok = false then (sim, sim_retrieve_imsi sim)
  else if data.length < 1 then (sim, sim_retrieve_imsi sim)
  else
    let sim := { sim with efust := some data, efust_length := data.length % 2 ^ 8 }
    if c.sim_ust_is_available sim.efust sim.efust_length
          sim_ust_service.ENABLED_SERVICE_TABLE ∨
        c.sim_ust_is_available sim.efust sim.efust_length sim_ust_service.FDN ∨
        c.sim_ust_is_available sim.efust sim.efust_length sim_ust_service.BDN then
      (sim, [Call.sim_fs_read sim_file_id.SIM_EFEST_FILEID
        ofono_sim_file_structure.TRANSPARENT 0 0 Callback.sim_efest_read_cb])
    else (sim, sim_retrieve_imsi sim)

/-- The function `sim_cphs_information_read_cb` (lines 1547-1564). -/
def sim_cphs_information_read_cb (sim : ofono_sim) (ok : Bool) (data : List Nat) :
    ofono_sim :=
  let sim := { sim with cphs_phase := ofono_sim_cphs_phase.CPHS_PHASE_NONE }
  if ok = false ∨ data.length < 3 then sim
  else
    match data with
    | b0 :: b1 :: b2 :: _ =>
      { sim with
        cphs_phase :=
          if b0 = 0x01 then ofono_sim_cphs_phase.CPHS_PHASE_1G
          else if b0 ≥ 0x02 then ofono_sim_cphs_phase.CPHS_PHASE_2G
          else sim.cphs_phase,
        cphs_service_table := [b1, b2] }
    | _ => sim

/-- The function `sim_ad_read_cb` (lines 1566-1586). -/
def sim_ad_read_cb (sim : ofono_sim) (ok : Bool) (data : List Nat) : ofono_sim :=
  if ok = false then sim
  else if data.length < 4 then sim
  else
    match data[3]? with
    | none => sim
    | some b3 =>
      let new_mnc_length := b3 % 16
      if new_mnc_length < 2 ∨ new_mnc_length > 3 then sim
      else { sim with mnc_length := new_mnc_length }

/-- The function `sim_efphase_read_cb` (lines 1588-1622). -/
def sim_efphase_read_cb (sim : ofono_sim) (ok : Bool) (data : List Nat) :
    ofono_sim × List Call :=
  if ok = false ∨ data.length ≠ 1 then
    ({ sim with phase := ofono_sim_phase.PHASE_3G },
      [Call.sim_fs_read sim_file_id.SIM_EFUST_FILEID ofono_sim_file_structure.TRANSPARENT 0 0
        Callback.sim_efust_read_cb])
  else
    let phase : Option ofono_sim_phase :=
      match data[0]? with
      | some 0 => some ofono_sim_phase.PHASE_1G
      | some 2 => some ofono_sim_phase.PHASE_2G
      | some 3 => some ofono_sim_phase.PHASE_2G_PLUS
      | _ => none
    match phase with
    | none => (sim, [])
    | some phase =>
      ({ sim with phase := phase },
        [Call.sim_fs_read sim_file_id.SIM_EFSST_FILEID ofono_sim_file_structure.TRANSPARENT 0 0
          Callback.sim_efsst_read_cb])

/-- The function `sim_iccid_read_cb` (lines 1878-1899): the decoded text, cut
at 20 characters by `iccid[20] = 0`. -/
def sim_iccid_read_cb (c : Collaborators) (sim : ofono_sim) (ok : Bool) (data : List Nat) :
    ofono_sim × List Call :=
  if ok = false ∨ data.length < 10 then (sim, [])
  else
    let iccid := String.mk ((c.extract_bcd_number data data.length).data.take 20)
    ({ sim with iccid := some iccid }, [Call.signal_property_changed "CardIdentifier" iccid])

/-- The function `sim_initialize` (lines 1901-1950). -/
def sim_initialize : List Call :=
  [ Call.sim_fs_read sim_file_id.SIM_EF_ICCID_FILEID ofono_sim_file_structure.TRANSPARENT 0 0
      Callback.sim_iccid_read_cb,
    Call.sim_fs_read sim_file_id.SIM_EFLI_FILEID ofono_sim_file_structure.TRANSPARENT 0 0
      Callback.sim_efli_read_cb,
    Call.sim_fs_read sim_file_id.SIM_EFPL_FILEID ofono_sim_file_structure.TRANSPARENT 0 0
      Callback.sim_efpl_read_cb ]

/-- The function `sim_inserted_update` (lines 2069-2079). -/
def sim_inserted_update (sim : ofono_sim) : List Call :=
  [Call.signal_boolean_property_changed "Present"
    (decide (sim.state ≠ ofono_sim_state.NOT_PRESENT))]

/-- The function `sim_free_state` (lines 2081-2151), assignment by assignment:
a length is reset together with its buffer, when the buffer is not `NULL`. -/
def sim_free_state (sim : ofono_sim) : ofono_sim :=
  { sim with
    iccid := none
    imsi := none
    mcc := ""
    mnc := ""
    own_numbers := []
    service_numbers := []
    efli := none
    efli_length := if sim.efli.isSome then 0 else sim.efli_length
    language_prefs := none
    efust := none
    efust_length := if sim.efust.isSome then 0 else sim.efust_length
    efest := none
    efest_length := if sim.efest.isSome then 0 else sim.efest_length
    efsst := none
    efsst_length := if sim.efsst.isSome then 0 else sim.efsst_length
    mnc_length := 0
    efimg := none
    efimg_length := if sim.efimg.isSome then 0 else sim.efimg_length
    iidf_image := none
    fixed_dialing := false
    barred_dialing := false }

/-- The function `ofono_sim_inserted_notify` (lines 2153-2181).  The state
watches run with a state that is not `READY`, for which `sim_ready` does
nothing. -/
def ofono_sim_inserted_notify (sim : ofono_sim) (inserted : Bool) : ofono_sim × List Call :=
  let state : Option ofono_sim_state :=
    if inserted = true ∧ sim.state = ofono_sim_state.NOT_PRESENT then
      some ofono_sim_state.INSERTED
    else if inserted = false ∧ sim.state ≠ ofono_sim_state.NOT_PRESENT then
      some ofono_sim_state.NOT_PRESENT
    else none
  match state with
  | none => (sim, [])
  | some state =>
    let sim := { sim with state := state }
    if sim.atom_registered = false then (sim, [])
    else
      let calls := sim_inserted_update sim ++ [Call.notify_state_watches sim.state] ++
        sim_ready sim.state
      if inserted then (sim, calls ++ sim_initialize)
      else (sim_free_state sim, calls)

/-- The function `ofono_sim_register` (lines 2340-2367), when the interface
registers: the watch list, the file client and the context are created, and a
card that is already there is brought up. -/
def ofono_sim_register (sim : ofono_sim) : ofono_sim × List Call :=
  let sim := { sim with atom_registered := true }
  if sim.state ≠ ofono_sim_state.NOT_PRESENT then (sim, sim_initialize) else (sim, [])

/-! ## Properties (`src/sim.c` lines 140-143 and 228-404) -/

/-- The value of an entry of the property dictionary. -/
inductive Property
  | boolean (value : Bool)
  | string (value : String)
  | string_array (value : List String)
  | string_dict (value : List String)
  | byte_dict (value : List (String × Int))
  deriving DecidableEq

/-- The function `sim_passwd_name` (lines 140-143): the table entry of the
kind, `none` for `INVALID`, whose index lies past the table. -/
def sim_passwd_name (type : ofono_sim_password_type) : Option String :=
  (passwd_name.find? (fun e => e.1 = type)).map (fun e => e.2)

/-- The function `get_locked_pins` (lines 228-254): the names of the table
entries 1 .. `OFONO_SIM_PASSWORD_SIM_PUK - 1` that are marked locked. -/
def get_locked_pins (sim : ofono_sim) : List String :=
  (List.range' 1 8).filterMap
    (fun i => if sim.locked_pins.getD i false then passwd_name[i]?.map (fun e => e.2) else none)

/-- The function `get_pin_retries` (lines 256-279): name and count of the
entries 1 .. `OFONO_SIM_PASSWORD_INVALID - 1` whose count is not -1. -/
def get_pin_retries (sim : ofono_sim) : List (String × Int) :=
  (List.range' 1 15).filterMap
    (fun i =>
      if sim.pin_retries.getD i (-1) = -1 then none
      else passwd_name[i]?.map (fun e => (e.2, sim.pin_retries.getD i (-1))))

/-- The function `sim_get_properties` (lines 309-404): the entries of the
dictionary it returns, in order; `none` when the name of the required
password is read past the table. -/
def sim_get_properties (c : Collaborators) (sim : ofono_sim) :
    Option (List (String × Property)) :=
  let present := decide (sim.state ≠ ofono_sim_state.NOT_PRESENT)
  if present = false then some [("Present", Property.boolean present)]
  else
    match sim_passwd_name sim.pin_type with
    | none => none
    | some pin_name =>
      some (
        [("Present", Property.boolean present)] ++
        (match sim.iccid with
          | some iccid => [("CardIdentifier", Property.string iccid)]
          | none => []) ++
        (match sim.imsi with
          | some imsi => [("SubscriberIdentity", Property.string imsi)]
          | none => []) ++
        [ ("FixedDialing", Property.boolean sim.fixed_dialing),
          ("BarredDialing", Property.boolean sim.barred_dialing) ] ++
        (if sim.mcc ≠ "" ∧ sim.mnc ≠ "" then
          [ ("MobileCountryCode", Property.string sim.mcc),
            ("MobileNetworkCode", Property.string sim.mnc) ]
          else []) ++
        [ ("SubscriberNumbers", Property.string_array (get_own_numbers c sim.own_numbers)),
          ("LockedPins", Property.string_array (get_locked_pins sim)) ] ++
        (if sim.service_numbers ≠ [] ∧ sim.sdn_ready = true then
          [("ServiceNumbers",
            Property.string_dict (get_service_numbers c sim.service_numbers))]
          else []) ++
        (match sim.language_prefs with
          | some language_prefs =>
            [("PreferredLanguages", Property.string_array language_prefs)]
          | none => []) ++
        [ ("PinRequired", Property.string pin_name),
          ("Retries", Property.byte_dict (get_pin_retries sim)) ])

/-! ## Icon descriptors (`src/sim.c` lines 1223-1262) -/

/-- The function `sim_efimg_read_cb` (lines 1223-1262), on the completion of
one record, when the allocation succeeds (`g_try_malloc0` returns `NULL` for a
size of 0).  It is `none` when `length` is divided by a `record_length` of 0
and when the nine descriptor bytes are read outside the record or written
outside the table. -/
def sim_efimg_read_cb (sim : ofono_sim) (ok : Bool) (length record : Nat) (data : List Nat)
    (record_length : Nat) : Option ofono_sim :=
  if ok = false then some sim
  else if record_length = 0 then none
  else
    let num_records := length / record_length
    if record_length < 10 ∨ (record_length % 9 ≠ 2 ∧ record_length % 9 ≠ 1) then some sim
    else
      let table : Option (List Nat × Nat) :=
        match sim.efimg with
        | some efimg => some (efimg, sim.efimg_length)
        | none =>
          if num_records * 9 = 0 then none
          else some (List.replicate (num_records * 9) 0, (num_records * 9) % 2 ^ 16)
      match table with
      | none => some sim
      | some (efimg, efimg_length) =>
        if record = 0 ∨ efimg.length < (record - 1) * 9 + 9 ∨ data.length < 10 then none
        else
          some { sim with
            efimg := some (efimg.take ((record - 1) * 9) ++ (data.drop 1).take 9 ++
              efimg.drop ((record - 1) * 9 + 9)),
            efimg_length := efimg_length }

/-! ## Dialing restrictions (`src/sim.c` lines 1334-1503) -/

/-- Modelled from the spec: the validity flag of a file status byte,
enumerator `SIM_FILE_STATUS_VALID` of `src/simutil.h` (bit 0 of the byte). -/
def SIM_FILE_STATUS_VALID : Nat := 0x01

/-- The function `sim_fdn_enabled` (lines 1334-1347). -/
def sim_fdn_enabled (sim : ofono_sim) : ofono_sim × List Call :=
  ({ sim with fixed_dialing := true },
    [Call.signal_boolean_property_changed "FixedDialing" true])

/-- The function `sim_bdn_enabled` (lines 1349-1362). -/
def sim_bdn_enabled (sim : ofono_sim) : ofono_sim × List Call :=
  ({ sim with barred_dialing := true },
    [Call.signal_boolean_property_changed "BarredDialing" true])

/-- The function `sim_efbdn_info_read_cb` (lines 1364-1380). -/
def sim_efbdn_info_read_cb (sim : ofono_sim) (ok : Bool) (file_status : Nat) :
    ofono_sim × List Call :=
  let r : ofono_sim × List Call :=
    if ok = false then (sim, [])
    else if file_status &&& SIM_FILE_STATUS_VALID ≠ 0 then sim_bdn_enabled sim
    else (sim, [])
  if r.1.fixed_dialing ≠ true ∧ r.1.barred_dialing ≠ true then
    (r.1, r.2 ++ sim_retrieve_imsi r.1)
  else r

/-- The function `check_bdn_status` (lines 1382-1399): its result and the
request it makes. -/
def check_bdn_status (c : Collaborators) (sim : ofono_sim) : Bool × List Call :=
  if c.sim_sst_is_active sim.efsst sim.efsst_length sim_sst_service.BDN then
    (true, [Call.sim_fs_read_info sim_file_id.SIM_EFBDN_FILEID ofono_sim_file_structure.FIXED
      Callback.sim_efbdn_info_read_cb])
  else (false, [])

/-- The function `sim_efadn_info_read_cb` (lines 1401-1419): fixed dialing is
enabled when the read succeeded and the validity flag of the status byte is
clear. -/
def sim_efadn_info_read_cb (c : Collaborators) (sim : ofono_sim) (ok : Bool)
    (file_status : Nat) : ofono_sim × List Call :=
  let r : ofono_sim × List Call :=
    if ok = false then (sim, [])
    else if file_status &&& SIM_FILE_STATUS_VALID = 0 then sim_fdn_enabled sim
    else (sim, [])
  let bdn := check_bdn_status c r.1
  if bdn.1 ≠ true then
    if r.1.fixed_dialing ≠ true ∧ r.1.barred_dialing ≠ true then
      (r.1, r.2 ++ bdn.2 ++ sim_retrieve_imsi r.1)
    else (r.1, r.2 ++ bdn.2)
  else (r.1, r.2 ++ bdn.2)

/-- The function `sim_efsst_read_cb` (lines 1421-1457). -/
def sim_efsst_read_cb (c : Collaborators) (sim : ofono_sim) (ok : Bool) (data : List Nat) :
    ofono_sim × List Call :=
  if ok = false then (sim, sim_retrieve_imsi sim)
  else if data.length < 2 then (sim, sim_retrieve_imsi sim)
  else
    let sim := { sim with efsst := some data, efsst_length := data.length % 2 ^ 8 }
    if c.sim_sst_is_active sim.efsst sim.efsst_length sim_sst_service.FDN then
      (sim, [Call.sim_fs_read_info sim_file_id.SIM_EFADN_FILEID ofono_sim_file_structure.FIXED
        Callback.sim_efadn_info_read_cb])
    else
      let bdn := check_bdn_status c sim
      if bdn.1 = true then (sim, bdn.2)
      else (sim, bdn.2 ++ sim_retrieve_imsi sim)

/-- The function `sim_efest_read_cb` (lines 1459-1503). -/
def sim_efest_read_cb (c : Collaborators) (sim : ofono_sim) (ok : Bool) (data : List Nat) :
    ofono_sim × List Call :=
  let r : ofono_sim × List Call :=
    if ok = false then (sim, [])
    else if data.length < 1 then (sim, [])
    else
      let sim := { sim with efest := some data, efest_length := data.length % 2 ^ 8 }
      let fdn : ofono_sim × List Call :=
        if c.sim_ust_is_available sim.efust sim.efust_length sim_ust_service.FDN ∧
            c.sim_est_is_active sim.efest sim.efest_length sim_est_service.FDN then
          sim_fdn_enabled sim
        else (sim, [])
      if c.sim_ust_is_available fdn.1.efust fdn.1.efust_length sim_ust_service.BDN ∧
          c.sim_est_is_active fdn.1.efest fdn.1.efest_length sim_est_service.BDN then
        ((sim_bdn_enabled fdn.1).1, fdn.2 ++ (sim_bdn_enabled fdn.1).2)
      else fdn
  if r.1.fixed_dialing ≠ true ∧ r.1.barred_dialing ≠ true then
    (r.1, r.2 ++ sim_retrieve_imsi r.1)
  else r

/-! ## Password state (`src/sim.c` lines 406-439, 766-780 and 1643-1680) -/

/-- Modelled from the spec: the integer value of an enumerator of
`enum ofono_sim_password_type`, its position in the declaration. -/
def password_index : ofono_sim_password_type → Nat
  | NONE => 0
  | SIM_PIN => 1
  | PHSIM_PIN => 2
  | PHFSIM_PIN => 3
  | SIM_PIN2 => 4
  | PHNET_PIN => 5
  | PHNETSUB_PIN => 6
  | PHSP_PIN => 7
  | PHCORP_PIN => 8
  | SIM_PUK => 9
  | PHFSIM_PUK => 10
  | SIM_PUK2 => 11
  | PHNET_PUK => 12
  | PHNETSUB_PUK => 13
  | PHSP_PUK => 14
  | PHCORP_PUK => 15
  | INVALID => 16

/-- The function `sim_pin_retries_query_cb` (lines 406-431), with the
`OFONO_SIM_PASSWORD_INVALID` = 16 counts the driver reports; `none` when the
driver hands over fewer. -/
def sim_pin_retries_query_cb (sim : ofono_sim) (ok : Bool) (retries : List Int) :
    Option (ofono_sim × List Call) :=
  if ok = false then some (sim, [])
  else if retries.length < 16 then none
  else if retries.take 16 = sim.pin_retries then some (sim, [])
  else
    let sim := { sim with pin_retries := retries.take 16 }
    some (sim, [Call.signal_byte_dict_property_changed "Retries" (get_pin_retries sim)])

/-- The function `sim_pin_retries_check` (lines 433-439). -/
def sim_pin_retries_check (sim : ofono_sim) : List Call :=
  if sim.driver.query_pin_retries = false then []
  else [Call.driver_query_pin_retries Callback.sim_pin_retries_query_cb]

/-- The function `sim_enter_pin_cb` (lines 766-780). -/
def sim_enter_pin_cb (sim : ofono_sim) (ok : Bool) : ofono_sim × List Call :=
  let reply := if ok = false then Reply.error_failed else Reply.method_return
  let r := __ofono_dbus_pending_reply sim reply
  (r.1, r.2 ++ sim_pin_check r.1)

/-- The store `sim->locked_pins[pin_type] = TRUE` of `sim_pin_query_cb` (line
1667): `none` when the index lies outside the table `locked_pins`. -/
def set_locked_pin (locked_pins : List Bool) (pin_type : ofono_sim_password_type) :
    Option (List Bool) :=
  if password_index pin_type < locked_pins.length then
    some (locked_pins.set (password_index pin_type) true)
  else none

/-- The function `sim_pin_query_cb` (lines 1643-1680).  It is `none` when the
name of the reported kind is read past the table `passwd_name` and when the
locked flag is stored outside the table `locked_pins`.  After the label
`checkdone` the local `pin_type` is looked at, which by then holds the paired
kind of a PUK-class kind. -/
def sim_pin_query_cb (sim : ofono_sim) (ok : Bool) (pin_type : ofono_sim_password_type) :
    Option (ofono_sim × List Call) :=
  if ok = false then
    some (sim, if pin_type = NONE then sim_initialize_after_pin else [])
  else
    let changed : Option (ofono_sim × List Call × ofono_sim_password_type) :=
      if sim.pin_type ≠ pin_type then
        let sim := { sim with pin_type := pin_type }
        match sim_passwd_name pin_type with
        | none => none
        | some pin_name =>
          let pin_type :=
            if pin_type ≠ NONE ∧ password_is_pin pin_type = false then puk2pin pin_type
            else pin_type
          let signal := [Call.signal_property_changed "PinRequired" pin_name]
          if pin_type ≠ INVALID then
            match set_locked_pin sim.locked_pins pin_type with
            | none => none
            | some locked_pins => some ({ sim with locked_pins := locked_pins }, signal, pin_type)
          else some (sim, signal, pin_type)
      else some (sim, [], pin_type)
    match changed with
    | none => none
    | some (sim, calls, pin_type) =>
      some (sim, calls ++ sim_pin_retries_check sim ++
        if pin_type = NONE then sim_initialize_after_pin else [])

/-! ## A concrete driver and concrete collaborators -/

/-- A driver that implements every operation. -/
def full_driver : ofono_sim_driver :=
  ⟨true, true, true, true, true, true, true⟩

/-- Collaborators that accept every request: an empty image cache, file
requests that are always queued, every text taken as a phone number of type
129, records encoded as their length in 0xff bytes, and a language table
holding German (0) and English (1).  A record is decoded from its first two
bytes: the first is the one character of the number (0xff for a record that
does not parse), the second the one character of the identifier (0 for an
empty identifier).  A number is printed as its text, no BCD digit is decoded
and no USIM service is listed.  In the SIM service table and in the
enabled-services table, fixed dialing is bit 0 and barred dialing bit 1 of the
first byte. -/
def accepting_collaborators : Collaborators where
  sim_fs_get_cached_image := fun _ => none
  sim_fs_read := fun _ _ _ => 0
  sim_fs_write := fun _ _ _ => 0
  valid_phone_number_format := fun _ => true
  string_to_phone_number := fun s => ⟨s, 129⟩
  sim_adn_build := fun length _ => List.replicate length 0xff
  iso639_2_from_language := fun lang =>
    if lang = 0 then some "de" else if lang = 1 then some "en" else none
  sim_adn_parse := fun data _ =>
    match data with
    | number :: alpha :: _ =>
      if number = 0xff then none
      else some (⟨String.mk [Char.ofNat number], 129⟩,
        some (if alpha = 0 then "" else String.mk [Char.ofNat alpha]))
    | _ => none
  phone_number_to_string := fun ph => ph.number
  extract_bcd_number := fun _ _ => ""
  sim_ust_is_available := fun _ _ _ => false
  sim_sst_is_active := fun efsst _ service =>
    match efsst, service with
    | some (b :: _), sim_sst_service.FDN => b % 2 = 1
    | some (b :: _), sim_sst_service.BDN => b / 2 % 2 = 1
    | _, _ => false
  sim_est_is_active := fun efest _ service =>
    match efest, service with
    | some (b :: _), sim_est_service.FDN => b % 2 = 1
    | some (b :: _), sim_est_service.BDN => b / 2 % 2 = 1
    | _, _ => false

/-! ## The password policy in the words of the specification (section 4.1) -/

/-- The PIN-class kinds of the specification. -/
def pin_class : List ofono_sim_password_type :=
  [SIM_PIN, SIM_PIN2, PHSIM_PIN, PHFSIM_PIN, PHNET_PIN, PHNETSUB_PIN, PHSP_PIN, PHCORP_PIN]

/-- The PUK-class kinds of the specification. -/
def puk_class : List ofono_sim_password_type :=
  [SIM_PUK, SIM_PUK2, PHFSIM_PUK, PHNET_PUK, PHNETSUB_PUK, PHSP_PUK, PHCORP_PUK]

/-- The PIN-class kind a PUK-class kind unblocks, as the specification pairs
them; `none` for a kind that is not PUK-class. -/
def paired_pin : ofono_sim_password_type → Option ofono_sim_password_type
  | SIM_PUK => some SIM_PIN
  | SIM_PUK2 => some SIM_PIN2
  | PHFSIM_PUK => some PHFSIM_PIN
  | PHNET_PUK => some PHNET_PIN
  | PHNETSUB_PUK => some PHNETSUB_PIN
  | PHSP_PUK => some PHSP_PIN
  | PHCORP_PUK => some PHCORP_PIN
  | _ => none

/-- A text made of decimal digits only. -/
def all_digits (s : String) : Prop :=
  ∀ c ∈ s.data, c.isDigit = true

instance (s : String) : Decidable (all_digits s) :=
  inferInstanceAs (Decidable (∀ c ∈ s.data, c.isDigit = true))

/-- The shortest text the specification allows for a PIN-class or PUK-class
kind: 4 for a PIN-class kind, 8 for a PUK-class kind. -/
def min_length (k : ofono_sim_password_type) : Nat :=
  if k ∈ puk_class then 8 else 4

/-- The longest text the specification allows for a PIN-class or PUK-class
kind: 8 for pin and pin2, 16 for the other PIN-class kinds, 8 for a PUK-class
kind. -/
def max_length (k : ofono_sim_password_type) : Nat :=
  if k = SIM_PIN ∨ k = SIM_PIN2 then 8
  else if k ∈ puk_class then 8
  else 16

/-- A text valid for a PIN-class or PUK-class kind in the words of the
specification: digits only, of a length in the range of the kind. -/
def valid_text (s : String) (k : ofono_sim_password_type) : Prop :=
  all_digits s ∧ min_length k ≤ s.length ∧ s.length ≤ max_length k

instance (s : String) (k : ofono_sim_password_type) : Decidable (valid_text s k) :=
  inferInstanceAs (Decidable (all_digits s ∧ min_length k ≤ s.length ∧ s.length ≤ max_length k))

/-! ## Language resolution in the words of the specification (section 4.4) -/

/-- The pair-list format: an even number of bytes, every two-byte pair being
either 0xFFFF or two alphabetic characters. -/
def pair_list_format : List Nat → Bool
  | [] => true
  | [_] => false
  | a :: b :: rest =>
    ((a = 0xff ∧ b = 0xff) ∨ (g_ascii_isalpha a = true ∧ g_ascii_isalpha b = true)) ∧
      pair_list_format rest

/-- The codes of a pair list, in file order: one per two-byte pair of 7-bit
bytes, in lower case; a pair with a byte above 0x7f, such as the unused slot
0xFFFF, gives none. -/
def pair_list_codes : List Nat → List String
  | a :: b :: rest =>
    if a > 0x7f ∨ b > 0x7f then pair_list_codes rest
    else g_ascii_strdown [a, b] :: pair_list_codes rest
  | _ => []

/-- The codes of a legacy file, in file order: each byte mapped through the
fixed language table, unmapped bytes skipped. -/
def legacy_codes (c : Collaborators) (ef : List Nat) : List String :=
  ef.filterMap c.iso639_2_from_language

/-- The codes of `first` followed by the codes of `second` not among them. -/
def merge_codes (first second : List String) : List String :=
  first ++ second.filter (fun code => code ∉ first)

/-- The EFli bytes a session holds: the first `efli_length` bytes of the
buffer `efli`, none when the buffer is `NULL`. -/
def stored_efli (sim : ofono_sim) : List Nat :=
  match sim.efli with
  | some buf => buf.take sim.efli_length
  | none => []

/-- The merge rule of the specification, file A being the EFli bytes `efli`
and `efpl_codes` the codes of file B: if file A is a pair list, its codes come
first, unless its first pair is exactly 0xFFFF, in which case file B alone is
used; if file A is in legacy format, file B comes first and the
legacy-derived codes of file A follow. -/
def resolve_languages (c : Collaborators) (efli : List Nat) (efpl_codes : List String) :
    List String :=
  if pair_list_format efli then
    if efli.take 2 = [0xff, 0xff] then efpl_codes
    else merge_codes (pair_list_codes efli) efpl_codes
  else merge_codes efpl_codes (legacy_codes c efli)

/-- A two-byte pair the pair-list format allows: the unused slot 0xFFFF or two
ASCII alphabetic characters. -/
def unused_or_alpha (a b : Nat) : Prop :=
  (a = 0xff ∧ b = 0xff) ∨ (g_ascii_isalpha a = true ∧ g_ascii_isalpha b = true)

instance (a b : Nat) : Decidable (unused_or_alpha a b) :=
  inferInstanceAs (Decidable
    ((a = 0xff ∧ b = 0xff) ∨ (g_ascii_isalpha a = true ∧ g_ascii_isalpha b = true)))

/-- The codes of a list in first-seen order, each kept once. -/
def first_seen : List String → List String
  | [] => []
  | x :: rest => x :: (first_seen rest).filter (fun code => code ≠ x)

/-- A language code as the specification describes it: exactly two lowercase
alphabetic characters. -/
def two_lowercase_letters (s : String) : Prop :=
  s.length = 2 ∧ ∀ ch ∈ s.data, ch.isLower = true

instance (s : String) : Decidable (two_lowercase_letters s) :=
  inferInstanceAs (Decidable (s.length = 2 ∧ ∀ ch ∈ s.data, ch.isLower = true))

/-- The pairs `parse_language_list` takes as codes are letters: every two-byte
pair whose bytes are both at most 0x7f consists of two ASCII alphabetic
characters.  A pair with a byte above 0x7f is skipped by the parser and a
single last byte is no pair. -/
def taken_pairs_alphabetic : List Nat → Bool
  | a :: b :: rest =>
    (a > 0x7f ∨ b > 0x7f ∨ (g_ascii_isalpha a = true ∧ g_ascii_isalpha b = true)) ∧
      taken_pairs_alphabetic rest
  | _ => true

/-! ## Subscriber numbers in the words of the specification (section 4.5) -/

/-- The list `sim_msisdn_read_cb` has assembled once the record `data` is
taken in: the numbers parsed so far, in record order. -/
def assembled_numbers (c : Collaborators) (sim : ofono_sim) (data : List Nat)
    (record_length : Nat) : List ofono_phone_number :=
  match c.sim_adn_parse data record_length with
  | some (ph, _) => (ph :: sim.new_numbers).reverse
  | none => sim.new_numbers.reverse

/-- The cleared record of the specification: `length` bytes, all 0xFF except
the byte at offset `length - 14`, which is 1. -/
def cleared_record (length : Nat) : List Nat :=
  (List.range length).map (fun offset => if offset = length - 14 then 1 else 0xff)

/-- The write the specification expects for the record `record`: the encoding
of the supplied number when there is one for this slot, the cleared record
otherwise. -/
def record_write (c : Collaborators) (sim : ofono_sim) (record : Nat)
    (number : Option ofono_phone_number) : Call :=
  Call.sim_fs_write sim_file_id.SIM_EFMSISDN_FILEID ofono_sim_file_structure.FIXED record
    (match number with
      | some number => c.sim_adn_build sim.efmsisdn_length number
      | none => cleared_record sim.efmsisdn_length)
    sim.efmsisdn_length Callback.msisdn_set_cb

/-- The writes the specification expects from a set-numbers request: one for
each record 1, 2, .. up to the capacity of the card, in increasing order, the
`i`-th carrying the `i`-th supplied number. -/
def expected_writes (c : Collaborators) (sim : ofono_sim)
    (numbers : List ofono_phone_number) : List Call :=
  (List.range sim.efmsisdn_records).map (fun i => record_write c sim (i + 1) numbers[i]?)

/-- A write the file client has queued: a response will come for it. -/
def write_queued (c : Collaborators) : Call → Bool
  | Call.sim_fs_write id _ record data _ _ => c.sim_fs_write id record data = 0
  | _ => false

/-- The write responses `oks` delivered, in order, to a request: what is left
of the request and the calls made.  No response comes once the request is
answered and freed. -/
def msisdn_set_responses :
    Option msisdn_set_request → List Bool → Option msisdn_set_request × List Call
  | req, [] => (req, [])
  | none, _ :: _ => (none, [])
  | some req, ok :: oks =>
    ((msisdn_set_responses (msisdn_set_cb ok req).1 oks).1,
      (msisdn_set_cb ok req).2 ++ (msisdn_set_responses (msisdn_set_cb ok req).1 oks).2)

/-- A set-numbers request followed by the write responses `oks`: all the calls
made, in order. -/
def set_numbers_with_responses (c : Collaborators) (sim : ofono_sim)
    (numbers : List ofono_phone_number) (msg : DBusMessage) (oks : List Bool) :
    Option (List Call) :=
  match set_own_numbers c sim numbers msg with
  | none => none
  | some (_, req, calls) => some (calls ++ (msisdn_set_responses req oks).2)

/-! ## Service directory in the words of the specification (section 4.6) -/

/-- The entry a service-directory record gives when it parses: its number,
under its alphanumeric identifier, or under the formatted text of the number
when the identifier is empty or absent. -/
def sdn_entry (c : Collaborators) (record_length : Nat) (data : List Nat) :
    Option service_number :=
  match c.sim_adn_parse data record_length with
  | none => none
  | some (ph, none) => some ⟨c.phone_number_to_string ph, ph⟩
  | some (ph, some alpha) =>
    if alpha = "" then some ⟨c.phone_number_to_string ph, ph⟩ else some ⟨alpha, ph⟩

/-- The entries kept from `entries`, in order, after the entries `kept`: an
entry is dropped when its identifier equals that of an earlier kept entry. -/
def keep_first_identifiers : List service_number → List service_number → List service_number
  | kept, [] => kept
  | kept, entry :: rest =>
    if kept.any (fun earlier => earlier.id == entry.id) then keep_first_identifiers kept rest
    else keep_first_identifiers (kept ++ [entry]) rest

/-- One service-directory read delivering the records `records` in order,
numbered from `record` on: the session and the calls made. -/
def sdn_read (c : Collaborators) (length record_length : Nat) :
    ofono_sim → Nat → List (List Nat) → ofono_sim × List Call
  | sim, _, [] => (sim, [])
  | sim, record, data :: rest =>
    ((sdn_read c length record_length
        (sim_sdn_read_cb c sim true length record data record_length).1 (record + 1) rest).1,
      (sim_sdn_read_cb c sim true length record data record_length).2 ++
        (sdn_read c length record_length
          (sim_sdn_read_cb c sim true length record data record_length).1 (record + 1) rest).2)

/-- The kept entries once one more record is taken in. -/
def sdn_step (c : Collaborators) (record_length : Nat) (kept : List service_number)
    (data : List Nat) : List service_number :=
  match sdn_entry c record_length data with
  | none => kept
  | some entry =>
    if kept.any (fun earlier => earlier.id == entry.id) then kept else kept ++ [entry]

/-! ## Runs of the session -/

/-- What reaches the session from outside: the registration of the atom, a
presence notification of the driver, the completion of a request the session
made, with the values the completion carries, or a request to enter a
password or to reset one. -/
inductive Event
  | register
  | inserted_notify (inserted : Bool)
  | iccid_read (ok : Bool) (data : List Nat)
  | efli_read (ok : Bool) (data : List Nat)
  | efpl_read (ok : Bool) (data : List Nat)
  | efphase_read (ok : Bool) (data : List Nat)
  | ad_read (ok : Bool) (data : List Nat)
  | cphs_information_read (ok : Bool) (data : List Nat)
  | efust_read (ok : Bool) (data : List Nat)
  | imsi (ok : Bool) (imsi : String)
  | msisdn_read (ok : Bool) (length record : Nat) (data : List Nat) (record_length : Nat)
  | sdn_read (ok : Bool) (length record : Nat) (data : List Nat) (record_length : Nat)
  | efimg_read (ok : Bool) (length record : Nat) (data : List Nat) (record_length : Nat)
  | pin_query (ok : Bool) (pin_type : ofono_sim_password_type)
  | pin_retries_query (ok : Bool) (retries : List Int)
  | efsst_read (ok : Bool) (data : List Nat)
  | efest_read (ok : Bool) (data : List Nat)
  | efadn_info_read (ok : Bool) (file_status : Nat)
  | efbdn_info_read (ok : Bool) (file_status : Nat)
  | enter_pin (msg : DBusMessage)
  | reset_pin (msg : DBusMessage)
  | enter_pin_cb (ok : Bool)
  deriving DecidableEq

/-- The handler of `src/sim.c` an event runs: the session it leaves and the
calls it makes, `none` when the handler leaves the defined behaviour of C. -/
def handle (c : Collaborators) (sim : ofono_sim) : Event → Option (ofono_sim × List Call)
  | Event.register => some (ofono_sim_register sim)
  | Event.inserted_notify inserted => some (ofono_sim_inserted_notify sim inserted)
  | Event.iccid_read ok data => some (sim_iccid_read_cb c sim ok data)
  | Event.efli_read ok data => some (sim_efli_read_cb sim ok data, [])
  | Event.efpl_read ok data => sim_efpl_read_cb c sim ok data
  | Event.efphase_read ok data => some (sim_efphase_read_cb sim ok data)
  | Event.ad_read ok data => some (sim_ad_read_cb sim ok data, [])
  | Event.cphs_information_read ok data => some (sim_cphs_information_read_cb sim ok data, [])
  | Event.efust_read ok data => some (sim_efust_read_cb c sim ok data)
  | Event.imsi ok imsi => sim_imsi_cb sim ok imsi
  | Event.msisdn_read ok length record data record_length =>
    some (sim_msisdn_read_cb c sim ok length record data record_length)
  | Event.sdn_read ok length record data record_length =>
    some (sim_sdn_read_cb c sim ok length record data record_length)
  | Event.efimg_read ok length record data record_length =>
    (sim_efimg_read_cb sim ok length record data record_length).map (fun sim => (sim, []))
  | Event.pin_query ok pin_type => sim_pin_query_cb sim ok pin_type
  | Event.pin_retries_query ok retries => sim_pin_retries_query_cb sim ok retries
  | Event.efsst_read ok data => some (sim_efsst_read_cb c sim ok data)
  | Event.efest_read ok data => some (sim_efest_read_cb c sim ok data)
  | Event.efadn_info_read ok file_status => some (sim_efadn_info_read_cb c sim ok file_status)
  | Event.efbdn_info_read ok file_status => some (sim_efbdn_info_read_cb sim ok file_status)
  | Event.enter_pin msg => some ((sim_enter_pin sim msg).sim, (sim_enter_pin sim msg).calls)
  | Event.reset_pin msg => some ((sim_reset_pin sim msg).sim, (sim_reset_pin sim msg).calls)
  | Event.enter_pin_cb ok => some (sim_enter_pin_cb sim ok)

/-- The request an event completes: the completion handler it was made with,
and whether this completion is the last one of the request (a record read
completes once for each record). -/
def completes : Event → Option (Callback × Bool)
  | Event.register => none
  | Event.inserted_notify _ => none
  | Event.iccid_read _ _ => some (Callback.sim_iccid_read_cb, true)
  | Event.efli_read _ _ => some (Callback.sim_efli_read_cb, true)
  | Event.efpl_read _ _ => some (Callback.sim_efpl_read_cb, true)
  | Event.efphase_read _ _ => some (Callback.sim_efphase_read_cb, true)
  | Event.ad_read _ _ => some (Callback.sim_ad_read_cb, true)
  | Event.cphs_information_read _ _ => some (Callback.sim_cphs_information_read_cb, true)
  | Event.efust_read _ _ => some (Callback.sim_efust_read_cb, true)
  | Event.imsi _ _ => some (Callback.sim_imsi_cb, true)
  | Event.msisdn_read ok length record _ record_length =>
    some (Callback.sim_msisdn_read_cb, ok = false ∨ record = length / record_length)
  | Event.sdn_read ok length record _ record_length =>
    some (Callback.sim_sdn_read_cb, ok = false ∨ record = length / record_length)
  | Event.efimg_read ok length record _ record_length =>
    some (Callback.sim_efimg_read_cb, ok = false ∨ record = length / record_length)
  | Event.pin_query _ _ => some (Callback.sim_pin_query_cb, true)
  | Event.pin_retries_query _ _ => some (Callback.sim_pin_retries_query_cb, true)
  | Event.efsst_read _ _ => some (Callback.sim_efsst_read_cb, true)
  | Event.efest_read _ _ => some (Callback.sim_efest_read_cb, true)
  | Event.efadn_info_read _ _ => some (Callback.sim_efadn_info_read_cb, true)
  | Event.efbdn_info_read _ _ => some (Callback.sim_efbdn_info_read_cb, true)
  | Event.enter_pin _ => none
  | Event.reset_pin _ => none
  | Event.enter_pin_cb _ => some (Callback.sim_enter_pin_cb, true)

/-- The completion a call will bring: the handler given to a driver
operation, or to a file request that the file client queued. -/
def awaited (c : Collaborators) : Call → Option Callback
  | Call.driver_lock _ _ _ cb => some cb
  | Call.driver_change_passwd _ _ _ cb => some cb
  | Call.driver_send_passwd _ cb => some cb
  | Call.driver_reset_passwd _ _ cb => some cb
  | Call.driver_query_passwd_state cb => some cb
  | Call.driver_query_pin_retries cb => some cb
  | Call.driver_read_imsi cb => some cb
  | Call.sim_fs_read id _ offset num_bytes cb =>
    if c.sim_fs_read id offset num_bytes = 0 then some cb else none
  | Call.sim_fs_read_info _ _ cb => some cb
  | Call.sim_fs_write id _ record data _ cb =>
    if c.sim_fs_write id record data = 0 then some cb else none
  | _ => none

/-- A session in the middle of a run: its state and the completions its
requests still await. -/
structure Run where
  sim : ofono_sim
  outstanding : List Callback
  deriving DecidableEq

/-- One step of a run: a completion is taken only when a request awaits it; the
handler runs, and the requests it makes are awaited from then on.  Nothing is
cancelled when the card is removed. -/
def step (c : Collaborators) (r : Run) (e : Event) : Option Run :=
  match completes e with
  | some (cb, last) =>
    if cb ∈ r.outstanding then
      (handle c r.sim e).map (fun h =>
        ⟨h.1, (if last then r.outstanding.erase cb else r.outstanding) ++
          h.2.filterMap (awaited c)⟩)
    else none
  | none =>
    (handle c r.sim e).map (fun h => ⟨h.1, r.outstanding ++ h.2.filterMap (awaited c)⟩)

/-- A run: the events taken one after the other, from a session on. -/
def run (c : Collaborators) : Run → List Event → Option Run
  | r, [] => some r
  | r, e :: rest =>
    match step c r e with
    | none => none
    | some r => run c r rest

/-- A driver that implements every operation except the query of the password
state. -/
def driver_without_passwd_query : ofono_sim_driver :=
  { full_driver with query_passwd_state := false }

/-- The bring-up of a card on which every file read fails and the IMSI is
retrieved, event by event, from the insertion to the state Ready and the
failed read of the subscriber numbers. -/
def bring_up_events : List Event :=
  [ Event.inserted_notify true,
    Event.iccid_read false [],
    Event.efli_read false [],
    Event.efpl_read false [],
    Event.efphase_read false [],
    Event.ad_read false [],
    Event.cphs_information_read false [],
    Event.efust_read false [],
    Event.imsi true "001010123456789",
    Event.msisdn_read false 0 0 [] 0 ]

/-- A run in which a first card with a service directory of one record is
brought up and removed, and a second card with a service directory of two
records is brought up; the run stops after the first of these two records. -/
def second_card_events : List Event :=
  [Event.register] ++ bring_up_events ++
  [ Event.sdn_read true 14 1 [0x31, 0x41] 14,
    Event.efimg_read false 0 0 [] 0,
    Event.inserted_notify false ] ++
  bring_up_events ++
  [ Event.sdn_read true 28 1 [0x32, 0x42] 14 ]

/-- A run that brings a card to the state Ready: the CPHS information file is
read, the other files are not, and the service directory has one record. -/
def ready_session_events : List Event :=
  [ Event.register,
    Event.inserted_notify true,
    Event.iccid_read false [],
    Event.efli_read false [],
    Event.efpl_read false [],
    Event.efphase_read false [],
    Event.ad_read false [],
    Event.cphs_information_read true [0x02, 0x0f, 0x3c],
    Event.efust_read false [],
    Event.imsi true "001010123456789",
    Event.msisdn_read false 0 0 [] 0,
    Event.sdn_read true 14 1 [0x31, 0x41] 14,
    Event.efimg_read false 0 0 [] 0 ]

/-- The state changes the session may make: insertion, readiness, removal. -/
def allowed_transitions : List (ofono_sim_state × ofono_sim_state) :=
  [ (ofono_sim_state.NOT_PRESENT, ofono_sim_state.INSERTED),
    (ofono_sim_state.INSERTED, ofono_sim_state.READY),
    (ofono_sim_state.INSERTED, ofono_sim_state.NOT_PRESENT),
    (ofono_sim_state.READY, ofono_sim_state.NOT_PRESENT) ]

/-- A run in which a legacy card whose service table marks fixed dialing
active is removed while the file information of EFadn is awaited, and a second
card is inserted: the late completion reports EFadn invalidated, and the
bring-up of the second card, on which every file read fails, goes on to the
retrieval of the IMSI. -/
def late_fixed_dialing_events : List Event :=
  [ Event.register,
    Event.inserted_notify true,
    Event.iccid_read false [],
    Event.efli_read false [],
    Event.efpl_read false [],
    Event.efphase_read true [2],
    Event.ad_read false [],
    Event.cphs_information_read false [],
    Event.efsst_read true [0x01, 0x00],
    Event.inserted_notify false,
    Event.inserted_notify true,
    Event.efadn_info_read true 0x00,
    Event.iccid_read false [],
    Event.efli_read false [],
    Event.efpl_read false [],
    Event.efphase_read false [],
    Event.ad_read false [],
    Event.cphs_information_read false [],
    Event.efust_read false [] ]

/-- The completions of the bring-up: the reads of the card serial number and
of the language files, the query of the password state, the reads of the
phase, of the administrative data, of the CPHS information and of the service
tables, the file-information reads and the retrieval of the IMSI. -/
def bring_up_completion : Event → Bool
  | Event.iccid_read _ _ => true
  | Event.efli_read _ _ => true
  | Event.efpl_read _ _ => true
  | Event.pin_query _ _ => true
  | Event.efphase_read _ _ => true
  | Event.ad_read _ _ => true
  | Event.cphs_information_read _ _ => true
  | Event.efsst_read _ _ => true
  | Event.efust_read _ _ => true
  | Event.efest_read _ _ => true
  | Event.efadn_info_read _ _ => true
  | Event.efbdn_info_read _ _ => true
  | Event.imsi _ _ => true
  | _ => false

/-- The failed completions of the bring-up whose handler stores nothing: all
of them but the EFpl, phase and CPHS information reads, whose handlers store a
value when the read failed as well. -/
def failed_without_store : Event → Bool
  | Event.iccid_read false _ => true
  | Event.efli_read false _ => true
  | Event.pin_query false _ => true
  | Event.ad_read false _ => true
  | Event.efsst_read false _ => true
  | Event.efust_read false _ => true
  | Event.efest_read false _ => true
  | Event.efadn_info_read false _ => true
  | Event.efbdn_info_read false _ => true
  | Event.imsi false _ => true
  | _ => false

/-! ## Lemmas on the password format -/

theorem contains_digits_eq_isDigit (c : Char) :
    ("0123456789".data.contains c) = c.isDigit := by
  by_cases h : c.isDigit = true
  · rw [h]
    have h2 : 48 ≤ c.toNat ∧ c.toNat ≤ 57 := by
      simp [Char.isDigit, Char.toNat, UInt32.le_def, Fin.le_def] at h ⊢
      exact h
    obtain ⟨h1, h3⟩ := h2
    have hc : c = Char.ofNat c.toNat := (Char.ofNat_toNat c).symm
    rw [hc]
    interval_cases c.toNat <;> decide
  · have hf : c.isDigit = false := by simpa using h
    rw [hf]
    apply Bool.eq_false_iff.mpr
    intro hmem
    apply h
    have hm : c ∈ ['0', '1', '2', '3', '4', '5', '6', '7', '8', '9'] :=
      List.elem_iff.mp hmem
    simp only [List.mem_cons, List.mem_singleton, List.not_mem_nil, or_false] at hm
    rcases hm with rfl | rfl | rfl | rfl | rfl | rfl | rfl | rfl | rfl | rfl <;> decide

theorem takeWhile_length_eq_iff {α : Type} (p : α → Bool) (l : List α) :
    (l.takeWhile p).length = l.length ↔ ∀ x ∈ l, p x = true := by
  induction l with
  | nil => simp
  | cons a t ih =>
    by_cases ha : p a = true
    · simp [List.takeWhile_cons, ha, ih]
    · simp [List.takeWhile_cons, ha]

theorem strspn_digits_eq_length_iff (s : String) :
    s.length = strspn s "0123456789" ↔ all_digits s := by
  unfold strspn all_digits
  rw [eq_comm, show s.length = s.data.length from rfl, takeWhile_length_eq_iff]
  constructor
  · intro h c hc
    rw [← contains_digits_eq_isDigit]
    exact h c hc
  · intro h c hc
    rw [contains_digits_eq_isDigit]
    exact h c hc

/-- What `is_valid_pin` accepts: the non-empty all-digit texts of a length
between `min` and `max`. -/
theorem is_valid_pin_iff (pin : String) (min max : Nat) :
    is_valid_pin pin min max = true ↔
      pin.length ≠ 0 ∧ all_digits pin ∧ min ≤ pin.length ∧ pin.length ≤ max := by
  have hlen : pin.length = pin.data.length := rfl
  have hd := strspn_digits_eq_length_iff pin
  unfold is_valid_pin
  simp only []
  split_ifs with h1 h2 h3
  · have h0 : pin.data = [] := by
      cases hp : pin.data with
      | nil => rfl
      | cons a t => simp [hp] at h1
    constructor
    · intro h
      exact absurd h (by simp)
    · intro h
      exact absurd (by simp [hlen, h0]) h.1
  · constructor
    · intro h
      exact absurd h (by simp)
    · intro h
      exact absurd (hd.mpr h.2.1) h2
  · have hne : pin.length ≠ 0 := by
      intro h
      apply h1
      have : pin.data = [] := List.length_eq_zero.mp (hlen ▸ h)
      simp [this]
    constructor
    · intro _
      exact ⟨hne, hd.mp (not_not.mp h2), h3.1, h3.2⟩
    · intro _
      rfl
  · constructor
    · intro h
      exact absurd h (by simp)
    · intro h
      exact absurd ⟨h.2.2.1, h.2.2.2⟩ h3

/-- On the PIN-class and PUK-class kinds `__ofono_is_valid_sim_pin` accepts
exactly the texts the specification calls valid. -/
theorem is_valid_sim_pin_iff_valid_text (k : ofono_sim_password_type) (s : String)
    (hk : k ∈ pin_class ∨ k ∈ puk_class) :
    __ofono_is_valid_sim_pin s k = true ↔ valid_text s k := by
  have key : ∀ lo hi : Nat, 0 < lo →
      (is_valid_pin s lo hi = true ↔ (all_digits s ∧ lo ≤ s.length ∧ s.length ≤ hi)) := by
    intro lo hi hlo
    rw [is_valid_pin_iff]
    constructor
    · intro h
      exact h.2
    · intro h
      exact ⟨by omega, h⟩
  unfold valid_text
  cases k <;> simp [pin_class, puk_class] at hk <;>
    simp only [__ofono_is_valid_sim_pin] <;>
    rw [key _ _ (by decide)] <;>
    simp [min_length, max_length, puk_class]

theorem password_is_pin_iff_pin_class (k : ofono_sim_password_type) :
    password_is_pin k = true ↔ k ∈ pin_class := by
  cases k <;> decide

/-- A kind is found again from its name in the table `passwd_name`. -/
theorem sim_string_to_passwd_of_name (k : ofono_sim_password_type) (name : String)
    (h : (k, name) ∈ passwd_name) : sim_string_to_passwd name = k := by
  simp only [passwd_name, List.mem_cons, List.mem_singleton, Prod.mk.injEq,
    List.not_mem_nil, or_false] at h
  rcases h with h | h | h | h | h | h | h | h | h | h | h | h | h | h | h | h <;>
    obtain ⟨rfl, rfl⟩ := h <;> decide

/-- The write loop of `set_own_numbers` does not look at the pending slot. -/
theorem set_own_numbers_records_pending (c : Collaborators) (sim : ofono_sim)
    (p : Option DBusMessage) (n : Nat) :
    ∀ (record : Nat) (numbers : List ofono_phone_number) (req : msisdn_set_request)
      (calls : List Call),
      set_own_numbers_records c { sim with pending := p } n record numbers req calls =
        set_own_numbers_records c sim n record numbers req calls := by
  induction n with
  | zero => intro record numbers req calls; rfl
  | succ n ih =>
    intro record numbers req calls
    cases numbers with
    | nil =>
      simp only [set_own_numbers_records]
      split_ifs with h
      · rfl
      · exact ih _ _ _ _
    | cons a t =>
      simp only [set_own_numbers_records]
      exact ih _ _ _ _

theorem set_own_numbers_pending (c : Collaborators) (sim : ofono_sim)
    (p : Option DBusMessage) (numbers : List ofono_phone_number) (msg : DBusMessage) :
    set_own_numbers c { sim with pending := p } numbers msg =
      set_own_numbers c sim numbers msg := by
  unfold set_own_numbers
  rw [set_own_numbers_records_pending]

/-! ## Lemmas on the language decoders -/

theorem getElem?_append_cons_length (pre rest : List Nat) (a : Nat) :
    (pre ++ a :: rest)[pre.length]? = some a := by
  rw [List.getElem?_append_right (Nat.le_refl _)]
  simp

theorem getElem?_append_cons_cons_length (pre rest : List Nat) (a b : Nat) :
    (pre ++ a :: b :: rest)[pre.length + 1]? = some b := by
  rw [List.getElem?_append_right (by omega)]
  simp

/-- On `2 * n` bytes starting at index `pre.length` the loop of
`parse_language_list` reads inside the buffer and prepends the codes of the
pair list, last first. -/
theorem parse_language_list_pairs_eq (n : Nat) :
    ∀ (pre rest post : List Nat) (ret : List String), rest.length = 2 * n →
      parse_language_list_pairs (pre ++ (rest ++ post)) n pre.length ret =
        some ((pair_list_codes rest).reverse ++ ret) := by
  induction n with
  | zero =>
    intro pre rest post ret h
    have : rest = [] := List.length_eq_zero.mp (by omega)
    subst this
    simp [parse_language_list_pairs, pair_list_codes]
  | succ n ih =>
    intro pre rest post ret h
    match rest, h with
    | a :: b :: rest2, h =>
      have hl : rest2.length = 2 * n := by simp at h; omega
      have hpre : pre ++ (a :: b :: rest2 ++ post) = (pre ++ [a, b]) ++ (rest2 ++ post) := by
        simp
      have hlen : pre.length + 2 = (pre ++ [a, b]).length := by simp
      simp only [parse_language_list_pairs, List.cons_append, getElem?_append_cons_length,
        getElem?_append_cons_cons_length]
      by_cases ha : a > 0x7f
      · simp only [ha, if_true]
        rw [← List.cons_append, ← List.cons_append, hpre, hlen, ih _ _ _ _ hl]
        simp [pair_list_codes, ha]
      · by_cases hb : b > 0x7f
        · simp only [ha, hb, if_true, if_false]
          rw [← List.cons_append, ← List.cons_append, hpre, hlen, ih _ _ _ _ hl]
          simp [pair_list_codes, hb]
        · simp only [ha, hb, if_false]
          rw [← List.cons_append, ← List.cons_append, hpre, hlen, ih _ _ _ _ hl]
          simp [pair_list_codes, ha, hb]

/-- On an even length within the buffer `parse_language_list` returns the
codes of the first `length` bytes. -/
theorem parse_language_list_take (ef : List Nat) (length : Nat)
    (hle : length ≤ ef.length) (h : length % 2 = 0) :
    parse_language_list ef length = some (pair_list_codes (ef.take length)) := by
  have hn : (ef.take length).length = 2 * ((length + 1) / 2) := by
    rw [List.length_take]
    omega
  have := parse_language_list_pairs_eq ((length + 1) / 2) [] (ef.take length)
    (ef.drop length) [] hn
  simp only [List.nil_append, List.length_nil, List.append_nil, List.take_append_drop] at this
  simp [parse_language_list, this]

theorem parse_language_list_even (ef : List Nat) (h : ef.length % 2 = 0) :
    parse_language_list ef ef.length = some (pair_list_codes ef) := by
  have := parse_language_list_take ef ef.length (Nat.le_refl _) h
  simpa using this

theorem pair_list_format_even : ∀ (ef : List Nat), pair_list_format ef = true →
    ef.length % 2 = 0
  | [], _ => rfl
  | [_], h => by simp [pair_list_format] at h
  | a :: b :: rest, h => by
    have hr : pair_list_format rest = true := by
      simp only [pair_list_format, decide_eq_true_eq] at h
      exact h.2
    have := pair_list_format_even rest hr
    simp only [List.length_cons]
    omega

/-- On `2 * n` bytes starting at index `pre.length` the loop of
`sim_efli_format` reads inside the buffer and decides the pair-list format. -/
theorem sim_efli_format_pairs_eq (n : Nat) :
    ∀ (pre rest post : List Nat), rest.length = 2 * n →
      sim_efli_format_pairs (pre ++ (rest ++ post)) n pre.length =
        some (pair_list_format rest) := by
  induction n with
  | zero =>
    intro pre rest post h
    have : rest = [] := List.length_eq_zero.mp (by omega)
    subst this
    simp [sim_efli_format_pairs, pair_list_format]
  | succ n ih =>
    intro pre rest post h
    match rest, h with
    | a :: b :: rest2, h =>
      have hl : rest2.length = 2 * n := by simp at h; omega
      have hpre : pre ++ (a :: b :: rest2 ++ post) = (pre ++ [a, b]) ++ (rest2 ++ post) := by
        simp
      have hlen : pre.length + 2 = (pre ++ [a, b]).length := by simp
      have hff : g_ascii_isalpha 0xff = false := by decide
      simp only [sim_efli_format_pairs, List.cons_append, getElem?_append_cons_length,
        getElem?_append_cons_cons_length]
      by_cases ha : a = 0xff
      · by_cases hb : b = 0xff
        · subst ha hb
          simp only [if_true, Option.map_some', decide_True]
          rw [← List.cons_append, ← List.cons_append, hpre, hlen, ih _ _ _ hl]
          simp [pair_list_format]
        · subst ha
          simp [hb, hff, pair_list_format]
      · by_cases haa : g_ascii_isalpha a = true
        · by_cases hbb : g_ascii_isalpha b = true
          · simp only [ha, if_false, haa, hbb]
            rw [← List.cons_append, ← List.cons_append, hpre, hlen, ih _ _ _ hl]
            simp [pair_list_format, ha, haa, hbb]
          · simp [ha, haa, hbb, pair_list_format]
        · simp [ha, haa, pair_list_format]

/-- Within the buffer `sim_efli_format` decides the pair-list format of the
first `length` bytes. -/
theorem sim_efli_format_take (ef : List Nat) (length : Nat) (hle : length ≤ ef.length) :
    sim_efli_format ef length = some (pair_list_format (ef.take length)) := by
  unfold sim_efli_format
  have hlt : (ef.take length).length = length := by
    rw [List.length_take]
    omega
  by_cases h : length % 2 = 1
  · have hf : pair_list_format (ef.take length) = false := by
      rw [← Bool.not_eq_true]
      intro ht
      have := pair_list_format_even _ ht
      omega
    simp [h, hf]
  · have hn : (ef.take length).length = 2 * ((length + 1) / 2) := by omega
    have := sim_efli_format_pairs_eq ((length + 1) / 2) [] (ef.take length)
      (ef.drop length) hn
    simp only [List.nil_append, List.length_nil, List.take_append_drop] at this
    simp [h, this]

theorem sim_efli_format_eq (ef : List Nat) :
    sim_efli_format ef ef.length = some (pair_list_format ef) := by
  have := sim_efli_format_take ef ef.length (Nat.le_refl _)
  simpa using this

/-- The loop of `parse_eflp` reads inside the buffer and prepends the
legacy-derived codes, last first. -/
theorem parse_eflp_bytes_eq (c : Collaborators) (post : List Nat) :
    ∀ (rest pre : List Nat) (ret : List String),
      parse_eflp_bytes c (pre ++ (rest ++ post)) rest.length pre.length ret =
        some ((legacy_codes c rest).reverse ++ ret)
  | [], pre, ret => by simp [parse_eflp_bytes, legacy_codes]
  | b :: rest, pre, ret => by
    have hpre : pre ++ (b :: rest ++ post) = (pre ++ [b]) ++ (rest ++ post) := by simp
    have hlen : pre.length + 1 = (pre ++ [b]).length := by simp
    simp only [List.length_cons, parse_eflp_bytes, List.cons_append,
      getElem?_append_cons_length]
    cases hc : c.iso639_2_from_language b with
    | none =>
      simp only []
      rw [← List.cons_append, hpre, hlen, parse_eflp_bytes_eq c post rest]
      simp [legacy_codes, hc]
    | some code =>
      simp only []
      rw [← List.cons_append, hpre, hlen, parse_eflp_bytes_eq c post rest]
      simp [legacy_codes, hc]

/-- Within the buffer `parse_eflp` returns the legacy-derived codes of the
first `length` bytes. -/
theorem parse_eflp_take (c : Collaborators) (ef : List Nat) (length : Nat)
    (hle : length ≤ ef.length) :
    parse_eflp c ef length = some (legacy_codes c (ef.take length)) := by
  have hlt : (ef.take length).length = length := by
    rw [List.length_take]
    omega
  have := parse_eflp_bytes_eq c (ef.drop length) (ef.take length) [] []
  simp only [List.nil_append, List.length_nil, List.append_nil, List.take_append_drop,
    hlt] at this
  simp [parse_eflp, this]

theorem parse_eflp_eq (c : Collaborators) (ef : List Nat) :
    parse_eflp c ef ef.length = some (legacy_codes c ef) := by
  have := parse_eflp_take c ef ef.length (Nat.le_refl _)
  simpa using this

theorem foldl_append_singleton (a : List String) :
    ∀ init : List String, a.foldl (fun ret l => ret ++ [l]) init = init ++ a := by
  induction a with
  | nil => intro init; simp
  | cons x t ih => intro init; simp [ih]

theorem duplicate_flag_eq (l : String) (a : List String) :
    ∀ d : Bool, a.foldl (fun d k => if k == l then true else d) d = (d || decide (l ∈ a)) := by
  induction a with
  | nil => intro d; simp
  | cons x t ih =>
    intro d
    rw [List.foldl_cons, ih]
    by_cases hx : x = l
    · subst hx
      simp
    · have hb : (x == l) = false := by simpa using hx
      have hx2 : ¬ l = x := fun h => hx h.symm
      simp [hb, hx2]

theorem foldl_skip_duplicates (a b : List String) :
    ∀ init : List String,
      b.foldl
        (fun ret l =>
          let duplicate := a.foldl (fun d k => if k == l then true else d) false
          if duplicate then ret else ret ++ [l])
        init = init ++ b.filter (fun code => code ∉ a) := by
  have hfun : (fun (ret : List String) (l : String) =>
        let duplicate := a.foldl (fun d k => if k == l then true else d) false
        if duplicate then ret else ret ++ [l]) =
      (fun ret l => if l ∈ a then ret else ret ++ [l]) := by
    funext ret l
    simp only [duplicate_flag_eq, Bool.false_or, decide_eq_true_eq]
  rw [hfun]
  induction b with
  | nil => intro init; simp
  | cons x t ih =>
    intro init
    rw [List.foldl_cons, ih]
    by_cases hx : x ∈ a
    · simp [hx, List.filter_cons]
    · simp [hx, List.filter_cons]

/-- The array `concat_lang_prefs` builds, `NULL` read as the empty list, is
the first list followed by the entries of the second not among the first. -/
theorem concat_lang_prefs_getD (a b : List String) :
    (concat_lang_prefs a b).getD [] = merge_codes a b := by
  unfold concat_lang_prefs merge_codes
  by_cases h : a.length + b.length = 0
  · have ha : a = [] := List.length_eq_zero.mp (by omega)
    have hb : b = [] := List.length_eq_zero.mp (by omega)
    subst ha hb
    simp
  · simp only [h, if_false, Option.getD_some, foldl_append_singleton, List.nil_append]
    exact foldl_skip_duplicates a b a

/-- The language list `sim_efpl_read_cb` stores, for a session whose EFli
length lies within its buffer, once the EFpl bytes are known to give the codes
`codes`: the handler returns, and the list is the one the merge rule of the
specification gives for the stored EFli bytes. -/
theorem sim_efpl_read_cb_language_prefs_of (c : Collaborators) (sim : ofono_sim)
    (data : List Nat) (ok : Bool) (codes : List String)
    (hinv : match sim.efli with
      | some buf => sim.efli_length ≤ buf.length
      | none => sim.efli_length = 0)
    (hefpl : (if ok = false ∨ data.length < 2 then some []
      else parse_language_list data data.length) = some codes) :
    (sim_efpl_read_cb c sim ok data).map (fun r => r.1.language_prefs.getD []) =
      some (resolve_languages c (stored_efli sim) codes) := by
  have hempty : ∀ E : List String, resolve_languages c [] E = E := by
    intro E
    simp [resolve_languages, pair_list_format, pair_list_codes, merge_codes]
  unfold sim_efpl_read_cb stored_efli
  simp only [hefpl]
  cases hefli : sim.efli with
  | none =>
    rw [hefli] at hinv
    simp only [] at hinv
    simp [hinv, hempty, concat_lang_prefs_getD, merge_codes]
  | some buf =>
    rw [hefli] at hinv
    simp only [] at hinv
    by_cases hpos : 0 < sim.efli_length
    · simp only [hpos, gt_iff_lt, if_true, sim_efli_format_take buf _ hinv]
      unfold resolve_languages
      by_cases hf : pair_list_format (buf.take sim.efli_length) = true
      · have heven := pair_list_format_even _ hf
        have hlt : (buf.take sim.efli_length).length = sim.efli_length := by
          rw [List.length_take]
          omega
        rw [hlt] at heven
        have h2 : sim.efli_length ≥ 2 := by omega
        simp only [hf, if_true, parse_language_list_take buf _ hinv heven, Option.map_some',
          h2]
        match buf, hinv with
        | a :: b :: rest, _ =>
          have htake : List.take 2 (List.take sim.efli_length (a :: b :: rest)) = [a, b] := by
            rw [List.take_take]
            simp [Nat.min_eq_left h2]
          rw [htake]
          by_cases ha : a = 0xff
          · by_cases hb : b = 0xff
            · subst ha hb
              simp [concat_lang_prefs_getD, merge_codes]
            · simp [ha, hb, concat_lang_prefs_getD]
          · simp [ha, concat_lang_prefs_getD]
        | [_], hi =>
          simp at hi
          omega
        | [], hi =>
          simp at hi
          omega
      · have hf2 : pair_list_format (buf.take sim.efli_length) = false := by simpa using hf
        simp [hf2, parse_eflp_take c buf _ hinv, concat_lang_prefs_getD]
    · have h0 : sim.efli_length = 0 := by omega
      simp [h0, hempty, concat_lang_prefs_getD, merge_codes]

theorem paired_pin_mem_pin_class (k p : ofono_sim_password_type)
    (h : paired_pin k = some p) : p ∈ pin_class := by
  cases k <;> simp [paired_pin] at h <;> subst h <;> decide

/-- What `sim_reset_pin` does with a request of three strings when the
capability is present and nothing is pending, test by test. -/
theorem sim_reset_pin_eq (sim : ofono_sim) (serial : Nat) (typestr puk pin : String)
    (hcap : sim.driver.reset_passwd = true) (hpend : sim.pending = none)
    (hty : sim_string_to_passwd typestr = sim.pin_type) :
    sim_reset_pin sim ⟨serial, [DBusArg.string typestr, DBusArg.string puk, DBusArg.string pin]⟩ =
      if sim.pin_type = NONE ∨ __ofono_is_valid_sim_pin puk sim.pin_type = false ∨
          __ofono_is_valid_sim_pin pin (puk2pin sim.pin_type) = false then
        ⟨sim, some Reply.error_invalid_format, []⟩
      else
        ⟨{ sim with
            pending := some ⟨serial,
              [DBusArg.string typestr, DBusArg.string puk, DBusArg.string pin]⟩ },
          none, [Call.driver_reset_passwd puk pin Callback.sim_enter_pin_cb]⟩ := by
  simp only [sim_reset_pin, hcap, hpend, dbus_message_get_args_sss, hty]
  by_cases h1 : sim.pin_type = NONE
  · simp [h1]
  · by_cases h2 : __ofono_is_valid_sim_pin puk sim.pin_type = false
    · simp [h1, h2]
    · by_cases h3 : __ofono_is_valid_sim_pin pin (puk2pin sim.pin_type) = false
      · simp [h1, h2, h3]
      · simp [h1, h2, h3]

/-- The pair-list format, pair by pair. -/
theorem pair_list_format_iff : ∀ (l : List Nat),
    pair_list_format l = true ↔
      (l.length % 2 = 0 ∧
        ∀ i, 2 * i + 1 < l.length → unused_or_alpha (l.getD (2 * i) 0) (l.getD (2 * i + 1) 0))
  | [] => by simp [pair_list_format]
  | [_] => by simp [pair_list_format]
  | a :: b :: rest => by
    have ih := pair_list_format_iff rest
    simp only [pair_list_format, decide_eq_true_eq, List.length_cons]
    rw [ih]
    constructor
    · rintro ⟨hab, hlen, hr⟩
      refine ⟨by omega, fun i hi => ?_⟩
      cases i with
      | zero => exact hab
      | succ j =>
        have hj := hr j (by omega)
        have e1 : 2 * (j + 1) = (2 * j + 1) + 1 := by omega
        rw [e1]
        simpa [List.getD_cons_succ] using hj
    · rintro ⟨hlen, hall⟩
      refine ⟨hall 0 (by omega), by omega, fun j hj => ?_⟩
      have h := hall (j + 1) (by omega)
      have e1 : 2 * (j + 1) = (2 * j + 1) + 1 := by omega
      rw [e1] at h
      simpa [List.getD_cons_succ] using h

theorem getD_take_of_lt (l : List Nat) (n j : Nat) (h : j < n) :
    (l.take n).getD j 0 = l.getD j 0 := by
  simp [List.getD_eq_getElem?_getD, List.getElem?_take, h]

/-! ## Lemmas on the merged language list -/

theorem first_seen_mem (l : List String) : ∀ x, x ∈ first_seen l ↔ x ∈ l := by
  induction l with
  | nil => intro x; simp [first_seen]
  | cons a t ih =>
    intro x
    simp only [first_seen, List.mem_cons, List.mem_filter, ih, ne_eq, decide_not,
      Bool.not_eq_true', decide_eq_false_iff_not]
    constructor
    · rintro (h | ⟨h, -⟩)
      · exact Or.inl h
      · exact Or.inr h
    · rintro (h | h)
      · exact Or.inl h
      · by_cases hx : x = a
        · exact Or.inl hx
        · exact Or.inr ⟨h, hx⟩

theorem isLower_tolower_of_isalpha (x : Nat) (h : g_ascii_isalpha x = true) :
    (Char.ofNat (g_ascii_tolower x)).isLower = true := by
  have hx : (65 ≤ x ∧ x ≤ 90) ∨ (97 ≤ x ∧ x ≤ 122) := by
    simpa [g_ascii_isalpha] using h
  rcases hx with ⟨h1, h2⟩ | ⟨h1, h2⟩
  · interval_cases x <;> decide
  · interval_cases x <;> decide

theorem g_ascii_strdown_two_lowercase (a b : Nat)
    (ha : g_ascii_isalpha a = true) (hb : g_ascii_isalpha b = true) :
    two_lowercase_letters (g_ascii_strdown [a, b]) := by
  have ha0 : a ≠ 0 := by
    rintro rfl
    simp [g_ascii_isalpha] at ha
  have hb0 : b ≠ 0 := by
    rintro rfl
    simp [g_ascii_isalpha] at hb
  unfold two_lowercase_letters g_ascii_strdown
  simp only [List.takeWhile_cons, ha0, hb0, ne_eq, not_false_eq_true, decide_True, if_true,
    List.takeWhile_nil, List.map_cons, List.map_nil]
  refine ⟨rfl, ?_⟩
  intro ch hch
  simp only [List.mem_cons, List.mem_singleton, List.not_mem_nil, or_false] at hch
  rcases hch with rfl | rfl
  · exact isLower_tolower_of_isalpha a ha
  · exact isLower_tolower_of_isalpha b hb

/-- The codes of a file in pair-list format are two lowercase letters each. -/
theorem pair_list_codes_two_lowercase : ∀ (l : List Nat), pair_list_format l = true →
    ∀ x ∈ pair_list_codes l, two_lowercase_letters x
  | [], _ => by simp [pair_list_codes]
  | [_], _ => by simp [pair_list_codes]
  | a :: b :: rest, h => by
    simp only [pair_list_format, decide_eq_true_eq] at h
    obtain ⟨hab, hr⟩ := h
    have ih := pair_list_codes_two_lowercase rest hr
    intro x hx
    simp only [pair_list_codes] at hx
    split_ifs at hx with hc
    · exact ih x hx
    · rw [List.mem_cons] at hx
      rcases hx with rfl | hx
      · rcases hab with ⟨rfl, rfl⟩ | ⟨ha, hb⟩
        · exact absurd (Or.inl (by decide)) hc
        · exact g_ascii_strdown_two_lowercase a b ha hb
      · exact ih x hx

/-! ## Lemmas on the subscriber numbers -/

theorem numbers_list_equal_iff_eq : ∀ (a b : List ofono_phone_number),
    numbers_list_equal a b = true ↔ a = b
  | [], [] => by simp [numbers_list_equal]
  | [], _ :: _ => by simp [numbers_list_equal]
  | _ :: _, [] => by simp [numbers_list_equal]
  | x :: a, y :: b => by
    have ih := numbers_list_equal_iff_eq a b
    obtain ⟨xn, xt⟩ := x
    obtain ⟨yn, yt⟩ := y
    simp only [numbers_list_equal, List.cons.injEq, ofono_phone_number.mk.injEq]
    by_cases hn : xn = yn
    · by_cases ht : xt = yt
      · simp [hn, ht, ih]
      · simp [hn, ht]
    · simp [hn]

theorem forall₂_number_type_iff_eq : ∀ (a b : List ofono_phone_number),
    List.Forall₂ (fun x y => x.number = y.number ∧ x.type = y.type) a b ↔ a = b
  | [], [] => by simp
  | [], _ :: _ => by simp
  | _ :: _, [] => by simp
  | x :: a, y :: b => by
    have ih := forall₂_number_type_iff_eq a b
    obtain ⟨xn, xt⟩ := x
    obtain ⟨yn, yt⟩ := y
    simp only [List.forall₂_cons, ih, List.cons.injEq, ofono_phone_number.mk.injEq]

theorem cleared_record_eq (length : Nat) :
    (List.replicate length 0xff).set (length - 14) 1 = cleared_record length := by
  apply List.ext_getElem
  · simp [cleared_record]
  · intro i h1 _
    simp only [cleared_record, List.getElem_set, List.getElem_replicate, List.getElem_map,
      List.getElem_range]
    by_cases hi : length - 14 = i
    · simp [hi]
    · have hi2 : ¬ i = length - 14 := fun e => hi e.symm
      simp [hi, hi2]

/-- The write loop of `set_own_numbers`, from the record `record` on, for a
record length of at least 14: it returns, makes the expected write for each
record, counts the queued writes in `pending` and the others in `failed`. -/
theorem set_own_numbers_records_eq (c : Collaborators) (sim : ofono_sim)
    (h14 : 14 ≤ sim.efmsisdn_length) (n : Nat) :
    ∀ (record : Nat) (numbers : List ofono_phone_number) (req : msisdn_set_request)
      (calls : List Call),
      set_own_numbers_records c sim n record numbers req calls =
        some
          (⟨req.pending + ((((List.range n).map
                (fun i => record_write c sim (record + i) numbers[i]?)).countP
                  (write_queued c) : Nat) : Int),
              req.failed + ((((List.range n).map
                (fun i => record_write c sim (record + i) numbers[i]?)).countP
                  (fun call => !write_queued c call) : Nat) : Int),
              req.msg⟩,
            calls ++ (List.range n).map
              (fun i => record_write c sim (record + i) numbers[i]?)) := by
  induction n with
  | zero =>
    intro record numbers req calls
    simp [set_own_numbers_records]
  | succ n ih =>
    intro record numbers req calls
    have hnl : ¬ sim.efmsisdn_length < 14 := by omega
    have hrange : (List.range (n + 1)).map
        (fun i => record_write c sim (record + i) numbers[i]?) =
        record_write c sim record numbers[0]? ::
          (List.range n).map (fun i => record_write c sim (record + 1 + i) numbers.tail[i]?) := by
      rw [List.range_succ_eq_map, List.map_cons, List.map_map]
      congr 1
      apply List.map_congr_left
      intro i _
      simp only [Function.comp, Nat.succ_eq_add_one]
      rw [show record + (i + 1) = record + 1 + i by omega]
      cases numbers <;> simp
    rw [hrange]
    cases numbers with
    | nil =>
      simp only [set_own_numbers_records, hnl, if_false, cleared_record_eq]
      rw [ih]
      simp only [record_write, write_queued, List.getElem?_nil, List.tail_nil, List.countP_cons]
      by_cases hq : c.sim_fs_write sim_file_id.SIM_EFMSISDN_FILEID record
          (cleared_record sim.efmsisdn_length) = 0
      · simp [hq]
        omega
      · simp [hq]
        omega
    | cons a t =>
      simp only [set_own_numbers_records]
      rw [ih]
      simp only [record_write, write_queued, List.getElem?_cons_zero, List.tail_cons,
        List.countP_cons]
      by_cases hq : c.sim_fs_write sim_file_id.SIM_EFMSISDN_FILEID record
          (c.sim_adn_build sim.efmsisdn_length a) = 0
      · simp [hq]
        omega
      · simp [hq]
        omega

theorem expected_writes_eq (c : Collaborators) (sim : ofono_sim)
    (numbers : List ofono_phone_number) :
    (List.range sim.efmsisdn_records).map
        (fun i => record_write c sim (1 + i) numbers[i]?) = expected_writes c sim numbers := by
  unfold expected_writes
  apply List.map_congr_left
  intro i _
  rw [Nat.add_comm]

theorem countP_queued_add (c : Collaborators) (l : List Call) :
    l.countP (write_queued c) + l.countP (fun call => !write_queued c call) = l.length := by
  induction l with
  | nil => rfl
  | cons a t ih =>
    simp only [List.countP_cons, List.length_cons]
    cases write_queued c a <;> simp <;> omega

/-- What `set_own_numbers` returns for a record length of at least 14 and a
list that fits the card: the expected writes, the request still waiting when a
write was queued, the reply at once otherwise. -/
theorem set_own_numbers_eq (c : Collaborators) (sim : ofono_sim)
    (numbers : List ofono_phone_number) (msg : DBusMessage)
    (h14 : 14 ≤ sim.efmsisdn_length) (hn : numbers.length ≤ sim.efmsisdn_records) :
    set_own_numbers c sim numbers msg =
      if (expected_writes c sim numbers).countP (write_queued c) = 0 then
        some (true, none, expected_writes c sim numbers ++
          msisdn_set_done
            ⟨0, (((expected_writes c sim numbers).countP
              (fun call => !write_queued c call) : Nat) : Int), some msg⟩)
      else
        some (true,
          some ⟨(((expected_writes c sim numbers).countP (write_queued c) : Nat) : Int),
            (((expected_writes c sim numbers).countP
              (fun call => !write_queued c call) : Nat) : Int), some msg⟩,
          expected_writes c sim numbers) := by
  have hgt : ¬ numbers.length > sim.efmsisdn_records := by omega
  unfold set_own_numbers
  rw [if_neg hgt, set_own_numbers_records_eq c sim h14, expected_writes_eq]
  simp only [Int.zero_add, List.nil_append]
  by_cases hk : (expected_writes c sim numbers).countP (write_queued c) = 0
  · simp [hk]
  · have hk2 : ¬ (((expected_writes c sim numbers).countP (write_queued c) : Nat) : Int) = 0 := by
      omega
    simp [hk, hk2]

/-- The write responses delivered to a request that waits for `pending`
of them: nothing is sent before the last one, which sends the reply and
issues the re-read. -/
theorem msisdn_set_responses_eq : ∀ (oks : List Bool) (req : msisdn_set_request),
    0 < req.pending → (oks.length : Int) ≤ req.pending →
    msisdn_set_responses (some req) oks =
      if (oks.length : Int) = req.pending then
        (none, msisdn_set_done
          ⟨0, req.failed + ((oks.countP (fun ok => !ok) : Nat) : Int), req.msg⟩)
      else
        (some ⟨req.pending - (oks.length : Int),
          req.failed + ((oks.countP (fun ok => !ok) : Nat) : Int), req.msg⟩, [])
  | [], req, hpos, _ => by
    have : ¬ ((([] : List Bool).length : Nat) : Int) = req.pending := by
      simp only [List.length_nil, Int.Nat.cast_ofNat_Int]
      omega
    rw [if_neg this]
    simp [msisdn_set_responses]
  | ok :: oks, req, hpos, hle => by
    simp only [List.length_cons, Nat.cast_add, Nat.cast_one] at hle ⊢
    by_cases h1 : req.pending = 1
    · have h0 : oks = [] := List.length_eq_zero.mp (by omega)
      subst h0
      cases ok <;> simp [msisdn_set_responses, msisdn_set_cb, h1]
    · have hne : ¬ req.pending - 1 = 0 := by omega
      have ih := msisdn_set_responses_eq oks
        ⟨req.pending - 1, if ok = false then req.failed + 1 else req.failed, req.msg⟩
        (by show 0 < req.pending - 1; omega) (by show (oks.length : Int) ≤ req.pending - 1; omega)
      have hcb : msisdn_set_cb ok req =
          (some ⟨req.pending - 1, if ok = false then req.failed + 1 else req.failed, req.msg⟩,
            []) := by
        cases ok <;> simp [msisdn_set_cb, hne]
      simp only [msisdn_set_responses, hcb, ih, List.nil_append]
      by_cases hl : (oks.length : Int) = req.pending - 1
      · have hl2 : (oks.length : Int) + 1 = req.pending := by omega
        rw [if_pos hl, if_pos hl2]
        cases ok
        · simp only [List.countP_cons, Bool.not_false, if_true, Nat.cast_add, Nat.cast_one]
          rw [Int.add_assoc, Int.add_comm 1]
        · simp [List.countP_cons]
      · have hl2 : ¬ (oks.length : Int) + 1 = req.pending := by omega
        rw [if_neg hl, if_neg hl2]
        have hp : req.pending - 1 - (oks.length : Int) = req.pending - ((oks.length : Int) + 1) := by
          omega
        cases ok
        · simp only [List.countP_cons, Bool.not_false, if_true, Nat.cast_add, Nat.cast_one]
          rw [Int.add_assoc, Int.add_comm 1, hp]
        · simp [List.countP_cons, hp]

theorem expected_writes_length (c : Collaborators) (sim : ofono_sim)
    (numbers : List ofono_phone_number) :
    (expected_writes c sim numbers).length = sim.efmsisdn_records := by
  simp [expected_writes]

theorem countP_not_eq_zero_iff_all (oks : List Bool) :
    oks.countP (fun ok => !ok) = 0 ↔ oks.all (fun ok => ok) = true := by
  induction oks with
  | nil => simp
  | cons a t ih =>
    cases a
    · simp [List.countP_cons]
    · simp [List.countP_cons]

/-! ## Lemmas on the service directory -/

theorem find?_reverse_isSome_eq_any (l : List service_number) (alpha : String) :
    ((l.reverse.find? (fun sdn => sdn.id == alpha)).isSome) =
      l.any (fun earlier => earlier.id == alpha) := by
  rw [Bool.eq_iff_iff, List.find?_isSome, List.any_eq_true]
  simp only [List.mem_reverse]

/-- The list `sim_sdn_read_cb` holds after taking in a record, before the
label `check`, is the list of kept entries, last first. -/
theorem sim_sdn_read_cb_step (c : Collaborators) (sim : ofono_sim)
    (length record record_length : Nat) (data : List Nat) (kept : List service_number)
    (h14 : 14 ≤ record_length) (hlen : record_length ≤ length)
    (hs : sim.service_numbers = kept.reverse) :
    sim_sdn_read_cb c sim true length record data record_length =
      if record ≠ length / record_length then
        ({ sim with service_numbers := (sdn_step c record_length kept data).reverse }, [])
      else
        sim_sdn_read_cb_check c
          { sim with service_numbers := (sdn_step c record_length kept data).reverse } := by
  have hg : ¬ (record_length < 14 ∨ length < record_length) := by omega
  have hsim : sim = { sim with service_numbers := kept.reverse } := by
    rw [← hs]
  have key : (match c.sim_adn_parse data record_length with
      | none => sim
      | some (ph, alpha) =>
        let alpha : Option String :=
          match alpha with
          | some a => if a.data.head? = none then none else some a
          | none => none
        let alpha : String :=
          match alpha with
          | none => c.phone_number_to_string ph
          | some a => a
        if sim.service_numbers ≠ [] ∧
            (sim.service_numbers.find? (fun sdn => sdn.id == alpha)).isSome then sim
        else { sim with service_numbers := ⟨alpha, ph⟩ :: sim.service_numbers }) =
      { sim with service_numbers := (sdn_step c record_length kept data).reverse } := by
    unfold sdn_step sdn_entry
    cases hp : c.sim_adn_parse data record_length with
    | none => exact hsim
    | some r =>
      obtain ⟨ph, alpha⟩ := r
      have hstep : ∀ id : String,
          (if sim.service_numbers ≠ [] ∧
              (sim.service_numbers.find? (fun sdn => sdn.id == id)).isSome then sim
            else { sim with service_numbers := ⟨id, ph⟩ :: sim.service_numbers }) =
          { sim with service_numbers :=
            (if kept.any (fun earlier => earlier.id == id) then kept
              else kept ++ [⟨id, ph⟩]).reverse } := by
        intro id
        rw [hs, find?_reverse_isSome_eq_any]
        by_cases hany : kept.any (fun earlier => earlier.id == id) = true
        · have hne : kept.reverse ≠ [] := by
            intro h
            have : kept = [] := by simpa using h
            subst this
            simp at hany
          rw [if_pos ⟨hne, hany⟩, if_pos hany]
          exact hsim
        · rw [if_neg (fun h => hany h.2), if_neg hany]
          simp
      cases alpha with
      | none => exact hstep _
      | some a =>
        by_cases ha : a = ""
        · subst ha
          simpa using hstep (c.phone_number_to_string ph)
        · have hd : ¬ a.data.head? = none := by
            intro h
            apply ha
            have : a.data = [] := by
              cases hda : a.data with
              | nil => rfl
              | cons x t => simp [hda] at h
            exact String.ext this
          simp only [hd, if_false, ha]
          exact hstep a
  unfold sim_sdn_read_cb
  simp only [Bool.true_eq_false, if_false, hg]
  rw [key]

theorem foldl_sdn_step_eq (c : Collaborators) (record_length : Nat) :
    ∀ (records : List (List Nat)) (kept : List service_number),
      records.foldl (sdn_step c record_length) kept =
        keep_first_identifiers kept (records.filterMap (sdn_entry c record_length))
  | [], kept => by simp [keep_first_identifiers]
  | data :: rest, kept => by
    rw [List.foldl_cons, foldl_sdn_step_eq c record_length rest]
    unfold sdn_step
    cases he : sdn_entry c record_length data with
    | none => simp [List.filterMap_cons, he]
    | some entry =>
      simp only [List.filterMap_cons, he, keep_first_identifiers]
      by_cases hany : kept.any (fun earlier => earlier.id == entry.id) = true
      · simp [hany]
      · simp [hany]

/-- One read of the service directory, record by record: the session after
the last record is the one the label `check` leaves from the kept entries. -/
theorem sdn_read_eq (c : Collaborators) (length record_length : Nat)
    (h14 : 14 ≤ record_length) (hlen : record_length ≤ length) :
    ∀ (records : List (List Nat)) (sim : ofono_sim) (kept : List service_number)
      (record : Nat),
      records ≠ [] → record + records.length = length / record_length + 1 →
      sim.service_numbers = kept.reverse →
      sdn_read c length record_length sim record records =
        sim_sdn_read_cb_check c
          { sim with
            service_numbers := (records.foldl (sdn_step c record_length) kept).reverse }
  | [], _, _, _, hne, _, _ => absurd rfl hne
  | [data], sim, kept, record, _, hrec, hs => by
    have hr : ¬ record ≠ length / record_length := by
      simp only [List.length_singleton] at hrec
      omega
    rw [sdn_read, sim_sdn_read_cb_step c sim length record record_length data kept
      h14 hlen hs, if_neg hr]
    simp only [sdn_read, List.append_nil, List.foldl_cons, List.foldl_nil]
  | data :: d2 :: rest, sim, kept, record, _, hrec, hs => by
    have hr : record ≠ length / record_length := by
      simp only [List.length_cons] at hrec
      omega
    have ih := sdn_read_eq c length record_length h14 hlen (d2 :: rest)
      { sim with service_numbers := (sdn_step c record_length kept data).reverse }
      (sdn_step c record_length kept data) (record + 1) (by simp)
      (by simp only [List.length_cons] at hrec ⊢; omega) rfl
    rw [sdn_read, sim_sdn_read_cb_step c sim length record record_length data kept
      h14 hlen hs, if_pos hr]
    simp only [List.nil_append]
    rw [ih, List.foldl_cons]
    rfl

theorem keep_first_identifiers_nodup :
    ∀ (entries kept : List service_number), (kept.map (fun e => e.id)).Nodup →
      ((keep_first_identifiers kept entries).map (fun e => e.id)).Nodup
  | [], kept, h => by simpa [keep_first_identifiers] using h
  | entry :: rest, kept, h => by
    simp only [keep_first_identifiers]
    by_cases hany : kept.any (fun earlier => earlier.id == entry.id) = true
    · rw [if_pos hany]
      exact keep_first_identifiers_nodup rest kept h
    · rw [if_neg hany]
      apply keep_first_identifiers_nodup rest
      rw [List.map_append, List.nodup_append]
      refine ⟨h, by simp, ?_⟩
      intro x hx hy
      simp only [List.map_cons, List.map_nil, List.mem_singleton] at hy
      subst hy
      apply hany
      rw [List.any_eq_true]
      obtain ⟨e, he, hid⟩ := List.mem_map.mp hx
      exact ⟨e, he, by simpa using hid⟩

theorem keep_first_identifiers_sublist :
    ∀ (entries kept : List service_number),
      ∃ added, keep_first_identifiers kept entries = kept ++ added ∧ added.Sublist entries
  | [], kept => ⟨[], by simp [keep_first_identifiers]⟩
  | entry :: rest, kept => by
    simp only [keep_first_identifiers]
    by_cases hany : kept.any (fun earlier => earlier.id == entry.id) = true
    · rw [if_pos hany]
      obtain ⟨added, h1, h2⟩ := keep_first_identifiers_sublist rest kept
      exact ⟨added, h1, h2.cons _⟩
    · rw [if_neg hany]
      obtain ⟨added, h1, h2⟩ := keep_first_identifiers_sublist rest (kept ++ [entry])
      exact ⟨entry :: added, by simpa using h1, h2.cons₂ _⟩

theorem keep_first_identifiers_cover :
    ∀ (entries kept : List service_number) (e : service_number), e ∈ kept ++ entries →
      ∃ k ∈ keep_first_identifiers kept entries, k.id = e.id
  | [], kept, e, he => ⟨e, by simpa [keep_first_identifiers] using he, rfl⟩
  | entry :: rest, kept, e, he => by
    simp only [keep_first_identifiers]
    by_cases hany : kept.any (fun earlier => earlier.id == entry.id) = true
    · rw [if_pos hany]
      rw [List.mem_append, List.mem_cons] at he
      rcases he with h | rfl | h
      · exact keep_first_identifiers_cover rest kept e (List.mem_append_left _ h)
      · obtain ⟨x, hx, hid⟩ := List.any_eq_true.mp hany
        obtain ⟨k, hk, hkid⟩ := keep_first_identifiers_cover rest kept x
          (List.mem_append_left _ hx)
        exact ⟨k, hk, by rw [hkid]; simpa using hid⟩
      · exact keep_first_identifiers_cover rest kept e (List.mem_append_right _ h)
    · rw [if_neg hany]
      apply keep_first_identifiers_cover rest (kept ++ [entry]) e
      rw [List.mem_append, List.mem_cons] at he
      simp only [List.mem_append, List.mem_singleton]
      rcases he with h | h | h
      · exact Or.inl (Or.inl h)
      · exact Or.inl (Or.inr h)
      · exact Or.inr h

/-! ## Lemmas on the session state -/

theorem sim_set_ready_state (sim : ofono_sim) (r : ofono_sim × List Call)
    (h : sim_set_ready sim = some r) :
    r.1.state = sim.state ∨
      (sim.state = ofono_sim_state.INSERTED ∧ r.1.state = ofono_sim_state.READY) := by
  unfold sim_set_ready at h
  by_cases h1 : sim.state ≠ ofono_sim_state.INSERTED
  · rw [if_pos h1] at h
    cases h
    exact Or.inl rfl
  · rw [if_neg h1] at h
    by_cases h2 : sim.atom_registered = false
    · rw [if_pos h2] at h
      cases h
    · rw [if_neg h2] at h
      cases h
      exact Or.inr ⟨not_not.mp h1, rfl⟩

theorem sim_imsi_cb_state (sim : ofono_sim) (ok : Bool) (imsi : String)
    (r : ofono_sim × List Call) (h : sim_imsi_cb sim ok imsi = some r) :
    r.1.state = sim.state ∨
      (sim.state = ofono_sim_state.INSERTED ∧ r.1.state = ofono_sim_state.READY) := by
  unfold sim_imsi_cb at h
  by_cases h1 : ok = false
  · rw [if_pos h1] at h
    cases h
    exact Or.inl rfl
  · rw [if_neg h1] at h
    simp only at h
    split at h
    · cases h
    · rename_i sim1 signals hcodes
      have hs : sim1.state = sim.state := by
        split_ifs at hcodes <;> cases hcodes <;> rfl
      split at h
      · cases h
      · rename_i sim2 calls hready
        cases h
        have := sim_set_ready_state sim1 (sim2, calls) hready
        rw [hs] at this
        exact this

theorem ofono_sim_inserted_notify_state (sim : ofono_sim) (inserted : Bool) :
    (ofono_sim_inserted_notify sim inserted).1.state =
      if inserted = true ∧ sim.state = ofono_sim_state.NOT_PRESENT then
        ofono_sim_state.INSERTED
      else if inserted = false ∧ sim.state ≠ ofono_sim_state.NOT_PRESENT then
        ofono_sim_state.NOT_PRESENT
      else sim.state := by
  unfold ofono_sim_inserted_notify
  by_cases h1 : inserted = true ∧ sim.state = ofono_sim_state.NOT_PRESENT
  · simp only [if_pos h1]
    split_ifs <;> rfl
  · simp only [if_neg h1]
    by_cases h2 : inserted = false ∧ sim.state ≠ ofono_sim_state.NOT_PRESENT
    · simp only [if_pos h2]
      split_ifs <;> rfl
    · simp only [if_neg h2]

theorem sim_efpl_read_cb_state (c : Collaborators) (sim : ofono_sim) (ok : Bool)
    (data : List Nat) (r : ofono_sim × List Call) (h : sim_efpl_read_cb c sim ok data = some r) :
    r.1.state = sim.state := by
  unfold sim_efpl_read_cb at h
  simp only at h
  split at h
  · split at h
    · cases h
    · cases h
      show (if _ then _ else _ : ofono_sim).state = sim.state
      split_ifs <;> rfl
  · cases h

theorem sim_msisdn_read_cb_state (c : Collaborators) (sim : ofono_sim) (ok : Bool)
    (length record : Nat) (data : List Nat) (record_length : Nat) :
    (sim_msisdn_read_cb c sim ok length record data record_length).1.state = sim.state := by
  unfold sim_msisdn_read_cb sim_msisdn_read_cb_check
  simp only
  split_ifs <;> first | rfl | (split <;> rfl)

theorem sim_sdn_read_cb_state (c : Collaborators) (sim : ofono_sim) (ok : Bool)
    (length record : Nat) (data : List Nat) (record_length : Nat) :
    (sim_sdn_read_cb c sim ok length record data record_length).1.state = sim.state := by
  unfold sim_sdn_read_cb sim_sdn_read_cb_check
  simp only
  split_ifs <;> first | rfl | (split <;> first | rfl | (split_ifs <;> rfl))

theorem sim_efimg_read_cb_state (sim : ofono_sim) (ok : Bool)
    (length record : Nat) (data : List Nat) (record_length : Nat) (r : ofono_sim)
    (h : sim_efimg_read_cb sim ok length record data record_length = some r) :
    r.state = sim.state := by
  unfold sim_efimg_read_cb at h
  simp only at h
  split_ifs at h <;> first | (cases h; rfl) | (split at h <;> first | (cases h; rfl) | (split_ifs at h; cases h; rfl))

theorem sim_pin_query_cb_state (sim : ofono_sim) (ok : Bool)
    (pin_type : ofono_sim_password_type) (r : ofono_sim × List Call)
    (h : sim_pin_query_cb sim ok pin_type = some r) : r.1.state = sim.state := by
  unfold sim_pin_query_cb at h
  by_cases hok : ok = false
  · rw [if_pos hok] at h
    cases h
    rfl
  · rw [if_neg hok] at h
    simp only at h
    split at h
    · cases h
    · rename_i sim1 calls pin_type1 hch
      cases h
      show sim1.state = sim.state
      repeat' (first | (cases hch; rfl) | cases hch | split at hch)

theorem sim_set_ready_eq (sim : ofono_sim) (r : ofono_sim × List Call)
    (h : sim_set_ready sim = some r) :
    r.1 = sim ∨
      (sim.state = ofono_sim_state.INSERTED ∧
        r.1 = { sim with state := ofono_sim_state.READY }) := by
  unfold sim_set_ready at h
  by_cases h1 : sim.state ≠ ofono_sim_state.INSERTED
  · rw [if_pos h1] at h
    cases h
    exact Or.inl rfl
  · rw [if_neg h1] at h
    by_cases h2 : sim.atom_registered = false
    · rw [if_pos h2] at h
      cases h
    · rw [if_neg h2] at h
      cases h
      exact Or.inr ⟨not_not.mp h1, rfl⟩

theorem sim_imsi_cb_ready (sim : ofono_sim) (ok : Bool) (imsi : String)
    (r : ofono_sim × List Call) (h : sim_imsi_cb sim ok imsi = some r) :
    r.1.state = sim.state ∨
      (ok = true ∧ sim.state = ofono_sim_state.INSERTED ∧
        r.1.state = ofono_sim_state.READY ∧ r.1.imsi = some imsi) := by
  unfold sim_imsi_cb at h
  by_cases h1 : ok = false
  · rw [if_pos h1] at h
    cases h
    exact Or.inl rfl
  · rw [if_neg h1] at h
    simp only at h
    split at h
    · cases h
    · rename_i sim1 signals hcodes
      have hs : sim1.state = sim.state ∧ sim1.imsi = some imsi := by
        split_ifs at hcodes <;> cases hcodes <;> exact ⟨rfl, rfl⟩
      split at h
      · cases h
      · rename_i sim2 calls hready
        cases h
        rcases sim_set_ready_eq sim1 (sim2, calls) hready with h2 | ⟨h2, h3⟩
        · left
          show sim2.state = sim.state
          have h2 : sim2 = sim1 := h2
          rw [h2, hs.1]
        · right
          have h3 : sim2 = { sim1 with state := ofono_sim_state.READY } := h3
          refine ⟨by simpa using h1, ?_, ?_, ?_⟩
          · rw [← hs.1]
            exact h2
          · show sim2.state = _
            rw [h3]
          · show sim2.imsi = _
            rw [h3]
            exact hs.2

theorem handle_state_cases (c : Collaborators) (sim : ofono_sim) (e : Event)
    (r : ofono_sim × List Call) (h : handle c sim e = some r) :
    r.1.state = sim.state ∨
      (∃ inserted, e = Event.inserted_notify inserted ∧
        (sim.state, r.1.state) ∈ allowed_transitions ∧
        r.1.state ≠ ofono_sim_state.READY) ∨
      (∃ imsi, e = Event.imsi true imsi ∧ sim.state = ofono_sim_state.INSERTED ∧
        r.1.state = ofono_sim_state.READY ∧ r.1.imsi = some imsi) := by
  cases e with
  | register =>
    cases h
    left
    unfold ofono_sim_register
    simp only
    split_ifs <;> rfl
  | inserted_notify inserted =>
    cases h
    rw [ofono_sim_inserted_notify_state]
    cases hs : sim.state <;> cases inserted <;> simp [allowed_transitions]
  | iccid_read ok data =>
    cases h
    left
    unfold sim_iccid_read_cb
    split_ifs <;> rfl
  | efli_read ok data =>
    cases h
    left
    unfold sim_efli_read_cb
    split_ifs <;> rfl
  | efpl_read ok data => exact Or.inl (sim_efpl_read_cb_state c sim ok data r h)
  | efphase_read ok data =>
    cases h
    left
    unfold sim_efphase_read_cb
    simp only
    split_ifs <;> first | rfl | (split <;> rfl)
  | ad_read ok data =>
    cases h
    left
    unfold sim_ad_read_cb
    split_ifs <;> first | rfl | (split <;> first | rfl | (simp only; split_ifs <;> rfl))
  | cphs_information_read ok data =>
    cases h
    left
    unfold sim_cphs_information_read_cb
    simp only
    split_ifs <;> first | rfl | (split <;> rfl)
  | efust_read ok data =>
    cases h
    left
    unfold sim_efust_read_cb
    simp only
    split_ifs <;> rfl
  | imsi ok imsi =>
    rcases sim_imsi_cb_ready sim ok imsi r h with h1 | ⟨h0, h1, h2, h3⟩
    · exact Or.inl h1
    · subst h0
      exact Or.inr (Or.inr ⟨imsi, rfl, h1, h2, h3⟩)
  | msisdn_read ok length record data record_length =>
    cases h
    exact Or.inl (sim_msisdn_read_cb_state c sim ok length record data record_length)
  | sdn_read ok length record data record_length =>
    cases h
    exact Or.inl (sim_sdn_read_cb_state c sim ok length record data record_length)
  | efimg_read ok length record data record_length =>
    simp only [handle, Option.map_eq_some'] at h
    obtain ⟨s, hs, rfl⟩ := h
    exact Or.inl (sim_efimg_read_cb_state sim ok length record data record_length s hs)
  | pin_query ok pin_type => exact Or.inl (sim_pin_query_cb_state sim ok pin_type r h)
  | pin_retries_query ok retries =>
    left
    simp only [handle, sim_pin_retries_query_cb] at h
    split_ifs at h <;> cases h <;> rfl
  | efsst_read ok data =>
    cases h
    left
    unfold sim_efsst_read_cb
    simp only
    split_ifs <;> rfl
  | efest_read ok data =>
    cases h
    left
    unfold sim_efest_read_cb sim_fdn_enabled sim_bdn_enabled
    simp only
    split_ifs <;> rfl
  | efadn_info_read ok file_status =>
    cases h
    left
    unfold sim_efadn_info_read_cb sim_fdn_enabled
    simp only
    split_ifs <;> rfl
  | efbdn_info_read ok file_status =>
    cases h
    left
    unfold sim_efbdn_info_read_cb sim_bdn_enabled
    simp only
    split_ifs <;> rfl
  | enter_pin msg =>
    cases h
    left
    unfold sim_enter_pin
    simp only
    repeat' (first | rfl | split)
  | reset_pin msg =>
    cases h
    left
    unfold sim_reset_pin
    simp only
    repeat' (first | rfl | split)
  | enter_pin_cb ok =>
    cases h
    left
    rfl

theorem handle_state (c : Collaborators) (sim : ofono_sim) (e : Event)
    (r : ofono_sim × List Call) (h : handle c sim e = some r) :
    r.1.state = sim.state ∨ (sim.state, r.1.state) ∈ allowed_transitions := by
  rcases handle_state_cases c sim e r h with h1 | ⟨_, _, h1, _⟩ | ⟨_, _, h1, h2, _⟩
  · exact Or.inl h1
  · exact Or.inr h1
  · right
    rw [h1, h2]
    simp [allowed_transitions]

theorem handle_mnc_length (c : Collaborators) (sim : ofono_sim) (e : Event)
    (r : ofono_sim × List Call) (h : handle c sim e = some r) :
    r.1.mnc_length = sim.mnc_length ∨ r.1.mnc_length = 0 ∨ r.1.mnc_length = 2 ∨
      r.1.mnc_length = 3 := by
  cases e with
  | register =>
    cases h
    left
    unfold ofono_sim_register
    repeat' (first | rfl | split | simp only)
  | inserted_notify inserted =>
    cases h
    unfold ofono_sim_inserted_notify sim_free_state
    simp only
    repeat' (first | exact Or.inl rfl | exact Or.inr (Or.inl rfl) | split)
  | iccid_read ok data =>
    cases h
    left
    unfold sim_iccid_read_cb
    repeat' (first | rfl | split)
  | efli_read ok data =>
    cases h
    left
    unfold sim_efli_read_cb
    repeat' (first | rfl | split)
  | efpl_read ok data =>
    left
    simp only [handle] at h
    unfold sim_efpl_read_cb at h
    simp only at h
    split at h
    · split at h
      · cases h
      · cases h
        show (if _ then _ else _ : ofono_sim).mnc_length = sim.mnc_length
        split_ifs <;> rfl
    · cases h
  | efphase_read ok data =>
    cases h
    left
    unfold sim_efphase_read_cb
    repeat' (first | rfl | split)
  | ad_read ok data =>
    cases h
    unfold sim_ad_read_cb
    split_ifs
    · exact Or.inl rfl
    · exact Or.inl rfl
    · split
      · exact Or.inl rfl
      · rename_i b3 _
        simp only
        split_ifs with hb
        · exact Or.inl rfl
        · right
          right
          show b3 % 16 = 2 ∨ b3 % 16 = 3
          omega
  | cphs_information_read ok data =>
    cases h
    left
    unfold sim_cphs_information_read_cb
    repeat' (first | rfl | split)
  | efust_read ok data =>
    cases h
    left
    unfold sim_efust_read_cb
    repeat' (first | rfl | split | simp only)
  | imsi ok imsi =>
    left
    simp only [handle] at h
    unfold sim_imsi_cb at h
    by_cases h1 : ok = false
    · rw [if_pos h1] at h
      cases h
      rfl
    · rw [if_neg h1] at h
      simp only at h
      split at h
      · cases h
      · rename_i sim1 signals hcodes
        have hs : sim1.mnc_length = sim.mnc_length := by
          split_ifs at hcodes <;> cases hcodes <;> rfl
        split at h
        · cases h
        · rename_i sim2 calls hready
          cases h
          show sim2.mnc_length = sim.mnc_length
          rcases sim_set_ready_eq sim1 (sim2, calls) hready with h2 | ⟨_, h2⟩
          · have h2 : sim2 = sim1 := h2
            rw [h2, hs]
          · have h2 : sim2 = { sim1 with state := ofono_sim_state.READY } := h2
            rw [h2]
            exact hs
  | msisdn_read ok length record data record_length =>
    cases h
    left
    unfold sim_msisdn_read_cb sim_msisdn_read_cb_check
    repeat' (first | rfl | split | simp only)
  | sdn_read ok length record data record_length =>
    cases h
    left
    unfold sim_sdn_read_cb sim_sdn_read_cb_check
    repeat' (first | rfl | split | simp only)
  | efimg_read ok length record data record_length =>
    left
    simp only [handle, Option.map_eq_some'] at h
    obtain ⟨s, hs, rfl⟩ := h
    show s.mnc_length = sim.mnc_length
    unfold sim_efimg_read_cb at hs
    repeat' (first | (cases hs; rfl) | cases hs | split at hs | simp only at hs)
  | pin_query ok pin_type =>
    left
    simp only [handle] at h
    unfold sim_pin_query_cb at h
    by_cases hok : ok = false
    · rw [if_pos hok] at h
      cases h
      rfl
    · rw [if_neg hok] at h
      simp only at h
      split at h
      · cases h
      · rename_i sim1 calls pin_type1 hch
        cases h
        show sim1.mnc_length = sim.mnc_length
        repeat' (first | (cases hch; rfl) | cases hch | split at hch)
  | pin_retries_query ok retries =>
    left
    simp only [handle, sim_pin_retries_query_cb] at h
    split_ifs at h <;> cases h <;> rfl
  | efsst_read ok data =>
    cases h
    left
    unfold sim_efsst_read_cb
    repeat' (first | rfl | split | simp only)
  | efest_read ok data =>
    cases h
    left
    unfold sim_efest_read_cb sim_fdn_enabled sim_bdn_enabled
    repeat' (first | rfl | split | simp only)
  | efadn_info_read ok file_status =>
    cases h
    left
    unfold sim_efadn_info_read_cb sim_fdn_enabled
    repeat' (first | rfl | split | simp only)
  | efbdn_info_read ok file_status =>
    cases h
    left
    unfold sim_efbdn_info_read_cb sim_bdn_enabled
    repeat' (first | rfl | split | simp only)
  | enter_pin msg =>
    cases h
    left
    unfold sim_enter_pin
    repeat' (first | rfl | split | simp only)
  | reset_pin msg =>
    cases h
    left
    unfold sim_reset_pin
    repeat' (first | rfl | split | simp only)
  | enter_pin_cb ok =>
    cases h
    left
    rfl

/-- A property of the session that every handler keeps holds at the end of
every run that starts with it. -/
theorem run_invariant (c : Collaborators) (P : ofono_sim → Prop)
    (hstep : ∀ sim e r, P sim → handle c sim e = some r → P r.1) :
    ∀ (events : List Event) (r0 r : Run), P r0.sim → run c r0 events = some r → P r.sim := by
  intro events
  induction events with
  | nil =>
    intro r0 r h0 h
    simp only [run, Option.some.injEq] at h
    rw [← h]
    exact h0
  | cons e rest ih =>
    intro r0 r h0 h
    simp only [run] at h
    split at h
    · cases h
    · rename_i r1 hstep1
      refine ih r1 r ?_ h
      have hx : ∃ x, handle c r0.sim e = some x ∧ r1.sim = x.1 := by
        unfold step at hstep1
        cases hc : completes e with
        | none =>
          rw [hc] at hstep1
          cases hh : handle c r0.sim e with
          | none =>
            rw [hh] at hstep1
            simp at hstep1
          | some x =>
            rw [hh] at hstep1
            simp only [Option.map_some', Option.some.injEq] at hstep1
            exact ⟨x, rfl, by rw [← hstep1]⟩
        | some cl =>
          rw [hc] at hstep1
          simp only at hstep1
          by_cases hm : cl.1 ∈ r0.outstanding
          · rw [if_pos hm] at hstep1
            cases hh : handle c r0.sim e with
            | none =>
              rw [hh] at hstep1
              simp at hstep1
            | some x =>
              rw [hh] at hstep1
              simp only [Option.map_some', Option.some.injEq] at hstep1
              exact ⟨x, rfl, by rw [← hstep1]⟩
          · rw [if_neg hm] at hstep1
            cases hstep1
      obtain ⟨x, hx, hr⟩ := hx
      rw [hr]
      exact hstep _ _ _ h0 hx

/-! ## Lemmas on buffers of odd length -/

/-- On a buffer of odd length the loop of `parse_language_list` reaches the
last byte as the first byte of a pair; it reads the byte after it, outside the
buffer, unless the last byte is above 0x7f. -/
theorem parse_language_list_pairs_odd (ef : List Nat) :
    ∀ (n i : Nat) (ret : List String), ef.length = i + 2 * n + 1 →
      (parse_language_list_pairs ef (n + 1) i ret).isSome =
        decide (ef.getD (ef.length - 1) 0 > 0x7f) := by
  intro n
  induction n with
  | zero =>
    intro i ret h
    have hi : i < ef.length := by omega
    have h1 : ef[i]? = some (ef.getD i 0) := by
      rw [List.getD_eq_getElem?_getD, List.getElem?_eq_getElem hi]
      rfl
    have h2 : ef[i + 1]? = none := List.getElem?_eq_none (by omega)
    have h3 : ef.length - 1 = i := by omega
    rw [h3]
    unfold parse_language_list_pairs
    rw [h1]
    generalize ef.getD i 0 = a
    simp only
    by_cases ha : a > 0x7f
    · rw [if_pos ha]
      simp [parse_language_list_pairs, ha]
    · rw [if_neg ha, h2]
      simp [ha]
  | succ n ih =>
    intro i ret h
    have hi : i < ef.length := by omega
    have hi1 : i + 1 < ef.length := by omega
    have h1 : ef[i]? = some ef[i] := List.getElem?_eq_getElem hi
    have h2 : ef[i + 1]? = some ef[i + 1] := List.getElem?_eq_getElem hi1
    have hn : ef.length = (i + 2) + 2 * n + 1 := by omega
    rw [parse_language_list_pairs, h1]
    simp only [h2]
    split_ifs <;> exact ih (i + 2) _ hn

theorem parse_language_list_odd (ef : List Nat) (h : ef.length % 2 = 1) :
    (parse_language_list ef ef.length).isSome =
      decide (ef.getD (ef.length - 1) 0 > 0x7f) := by
  have hn : ef.length = 0 + 2 * ((ef.length + 1) / 2 - 1) + 1 := by omega
  have hs : (ef.length + 1) / 2 = ((ef.length + 1) / 2 - 1) + 1 := by omega
  unfold parse_language_list
  rw [Option.isSome_map', hs]
  exact parse_language_list_pairs_odd ef _ 0 [] hn

/-! ## Lemmas on the network codes -/

theorem sim_imsi_cb_codes (sim : ofono_sim) (imsi : String) (r : ofono_sim × List Call)
    (h : sim_imsi_cb sim true imsi = some r) :
    (sim.mnc_length = 0 → r.1.mcc = sim.mcc ∧ r.1.mnc = sim.mnc) ∧
    (sim.mnc_length ≠ 0 →
      r.1.mcc = String.mk (imsi.data.take 3) ∧
      r.1.mnc = String.mk ((imsi.data.drop 3).take sim.mnc_length)) := by
  unfold sim_imsi_cb at h
  rw [if_neg (by decide)] at h
  simp only at h
  split at h
  · cases h
  · rename_i sim1 signals hcodes
    have hs : (sim.mnc_length = 0 → sim1.mcc = sim.mcc ∧ sim1.mnc = sim.mnc) ∧
        (sim.mnc_length ≠ 0 →
          sim1.mcc = String.mk (imsi.data.take 3) ∧
          sim1.mnc = String.mk ((imsi.data.drop 3).take sim.mnc_length)) := by
      by_cases h0 : sim.mnc_length ≠ 0
      · rw [if_pos h0] at hcodes
        split_ifs at hcodes
        cases hcodes
        exact ⟨fun h => absurd h h0, fun _ => ⟨rfl, rfl⟩⟩
      · rw [if_neg h0] at hcodes
        cases hcodes
        exact ⟨fun _ => ⟨rfl, rfl⟩, fun h => absurd h h0⟩
    split at h
    · cases h
    · rename_i sim2 calls hready
      cases h
      have h2 : sim2.mcc = sim1.mcc ∧ sim2.mnc = sim1.mnc := by
        rcases sim_set_ready_eq sim1 (sim2, calls) hready with h2 | ⟨_, h2⟩
        · have h2 : sim2 = sim1 := h2
          rw [h2]
          exact ⟨rfl, rfl⟩
        · have h2 : sim2 = { sim1 with state := ofono_sim_state.READY } := h2
          rw [h2]
          exact ⟨rfl, rfl⟩
      show (_ → sim2.mcc = _ ∧ sim2.mnc = _) ∧ (_ → sim2.mcc = _ ∧ sim2.mnc = _)
      rw [h2.1, h2.2]
      exact hs

theorem sim_imsi_cb_returns (sim : ofono_sim) (imsi : String)
    (hmnc : sim.mnc_length ≤ 3) (himsi : 3 ≤ imsi.length)
    (hreg : sim.state = ofono_sim_state.INSERTED → sim.atom_registered = true) :
    ∃ r, sim_imsi_cb sim true imsi = some r := by
  unfold sim_imsi_cb sim_set_ready
  rw [if_neg (by decide)]
  simp only
  have hbad : ¬ (imsi.length < 3 ∨ sim.mnc_length > 3) := by omega
  by_cases h0 : sim.mnc_length ≠ 0
  · rw [if_pos h0, if_neg hbad]
    simp only
    by_cases hs : sim.state ≠ ofono_sim_state.INSERTED
    · rw [if_pos hs]
      exact ⟨_, rfl⟩
    · rw [if_neg hs, if_neg (by simp [hreg (not_not.mp hs)])]
      exact ⟨_, rfl⟩
  · rw [if_neg h0]
    simp only
    by_cases hs : sim.state ≠ ofono_sim_state.INSERTED
    · rw [if_pos hs]
      exact ⟨_, rfl⟩
    · rw [if_neg hs, if_neg (by simp [hreg (not_not.mp hs)])]
      exact ⟨_, rfl⟩

/-! ## Lemmas on the dialing restrictions -/

theorem retrieve_imsi_guarded (cb : Callback) (r : ofono_sim × List Call)
    (hflag : r.1.fixed_dialing = true ∨ r.1.barred_dialing = true)
    (hr : Call.driver_read_imsi cb ∉ r.2) :
    Call.driver_read_imsi cb ∉
      (if r.1.fixed_dialing ≠ true ∧ r.1.barred_dialing ≠ true then
        (r.1, r.2 ++ sim_retrieve_imsi r.1)
      else r).2 := by
  rw [if_neg]
  · exact hr
  · intro h
    rcases hflag with h1 | h1
    · exact h.1 h1
    · exact h.2 h1

theorem sim_efbdn_info_read_cb_guarded (sim : ofono_sim) (ok : Bool) (file_status : Nat)
    (cb : Callback) (h : sim.fixed_dialing = true ∨ sim.barred_dialing = true) :
    Call.driver_read_imsi cb ∉ (sim_efbdn_info_read_cb sim ok file_status).2 := by
  unfold sim_efbdn_info_read_cb
  simp only
  apply retrieve_imsi_guarded
  · repeat' (first | exact Or.inr rfl | exact h | split)
  · repeat' (first | (simp [sim_bdn_enabled]; done) | split)

theorem sim_efest_read_cb_guarded (c : Collaborators) (sim : ofono_sim) (ok : Bool)
    (data : List Nat) (cb : Callback)
    (h : sim.fixed_dialing = true ∨ sim.barred_dialing = true) :
    Call.driver_read_imsi cb ∉ (sim_efest_read_cb c sim ok data).2 := by
  unfold sim_efest_read_cb
  simp only
  apply retrieve_imsi_guarded
  · repeat' (first | exact Or.inl rfl | exact Or.inr rfl | exact h | split)
  · repeat' (first | (simp [sim_fdn_enabled, sim_bdn_enabled]; done) | split)

theorem sim_efadn_info_read_cb_guarded (c : Collaborators) (sim : ofono_sim) (ok : Bool)
    (file_status : Nat) (cb : Callback)
    (h : sim.fixed_dialing = true ∨ sim.barred_dialing = true) :
    Call.driver_read_imsi cb ∉ (sim_efadn_info_read_cb c sim ok file_status).2 := by
  have hflag : ∀ r : ofono_sim × List Call,
      r = (if ok = false then (sim, [])
        else if file_status &&& SIM_FILE_STATUS_VALID = 0 then sim_fdn_enabled sim
        else (sim, [])) →
      (r.1.fixed_dialing = true ∨ r.1.barred_dialing = true) ∧
        Call.driver_read_imsi cb ∉ r.2 := by
    intro r hr
    subst hr
    constructor
    · repeat' (first | exact Or.inl rfl | exact h | split)
    · repeat' (first | (simp [sim_fdn_enabled]; done) | split)
  unfold sim_efadn_info_read_cb check_bdn_status
  simp only
  generalize (if ok = false then (sim, [])
    else if file_status &&& SIM_FILE_STATUS_VALID = 0 then sim_fdn_enabled sim
    else (sim, [])) = r at hflag ⊢
  obtain ⟨h1, h2⟩ := hflag r rfl
  have hno : ¬ (r.1.fixed_dialing ≠ true ∧ r.1.barred_dialing ≠ true) := by
    intro h0
    rcases h1 with h1 | h1
    · exact h0.1 h1
    · exact h0.2 h1
  rw [if_neg hno]
  split_ifs <;> simp [h2]

/-! ## Lemmas on EFpl bytes of any length -/

/-- On `2 * n` bytes followed by one byte above 0x7f the loop of
`parse_language_list` reads inside the buffer: the last byte is skipped before
the byte after it is looked at. -/
theorem parse_language_list_pairs_odd_eq (n : Nat) :
    ∀ (pre rest : List Nat) (last : Nat) (ret : List String), rest.length = 2 * n →
      last > 0x7f →
      parse_language_list_pairs (pre ++ (rest ++ [last])) (n + 1) pre.length ret =
        some ((pair_list_codes rest).reverse ++ ret) := by
  induction n with
  | zero =>
    intro pre rest last ret h hl
    have : rest = [] := List.length_eq_zero.mp (by omega)
    subst this
    simp only [parse_language_list_pairs, List.nil_append, getElem?_append_cons_length]
    rw [if_pos hl]
    simp [pair_list_codes]
  | succ n ih =>
    intro pre rest last ret h hl
    match rest, h with
    | a :: b :: rest2, h =>
      have hl2 : rest2.length = 2 * n := by simp at h; omega
      have hpre : pre ++ (a :: b :: rest2 ++ [last]) = (pre ++ [a, b]) ++ (rest2 ++ [last]) := by
        simp
      have hlen : pre.length + 2 = (pre ++ [a, b]).length := by simp
      rw [parse_language_list_pairs]
      simp only [List.cons_append, getElem?_append_cons_length,
        getElem?_append_cons_cons_length]
      by_cases ha : a > 0x7f
      · simp only [ha, if_true]
        rw [← List.cons_append, ← List.cons_append, hpre, hlen, ih _ _ _ _ hl2 hl]
        simp [pair_list_codes, ha]
      · by_cases hb : b > 0x7f
        · simp only [ha, hb, if_true, if_false]
          rw [← List.cons_append, ← List.cons_append, hpre, hlen, ih _ _ _ _ hl2 hl]
          simp [pair_list_codes, hb]
        · simp only [ha, hb, if_false]
          rw [← List.cons_append, ← List.cons_append, hpre, hlen, ih _ _ _ _ hl2 hl]
          simp [pair_list_codes, ha, hb]

/-- A single byte after whole pairs gives no code. -/
theorem pair_list_codes_append_singleton : ∀ (n : Nat) (rest : List Nat) (last : Nat),
    rest.length = 2 * n → pair_list_codes (rest ++ [last]) = pair_list_codes rest
  | 0, rest, last, h => by
    have : rest = [] := List.length_eq_zero.mp (by omega)
    subst this
    rfl
  | n + 1, a :: b :: rest2, last, h => by
    have hl2 : rest2.length = 2 * n := by simp at h; omega
    have ih := pair_list_codes_append_singleton n rest2 last hl2
    show pair_list_codes (a :: b :: (rest2 ++ [last])) = _
    simp only [pair_list_codes, ih]
  | n + 1, [_], _, h => by simp at h; omega
  | n + 1, [], _, h => by simp at h

/-- Whenever `parse_language_list` stays inside a buffer read in full, on whole
pairs or on a last byte above 0x7f, it returns the codes of the pair list. -/
theorem parse_language_list_within (ef : List Nat)
    (h : ef.length % 2 = 0 ∨ ef.getD (ef.length - 1) 0 > 0x7f) :
    parse_language_list ef ef.length = some (pair_list_codes ef) := by
  by_cases he : ef.length % 2 = 0
  · exact parse_language_list_even ef he
  · have hlast : ef.getD (ef.length - 1) 0 > 0x7f := by
      rcases h with h | h
      · exact absurd h he
      · exact h
    have hne : ef ≠ [] := by
      rintro rfl
      simp at he
    have hsplit : ef = ef.dropLast ++ [ef.getD (ef.length - 1) 0] := by
      conv_lhs => rw [← List.dropLast_append_getLast hne]
      congr 2
      rw [List.getLast_eq_getElem, List.getD_eq_getElem?_getD,
        List.getElem?_eq_getElem (by omega)]
      rfl
    generalize ef.getD (ef.length - 1) 0 = last at hlast hsplit
    have hdl : ef.dropLast.length = 2 * (ef.length / 2) := by
      rw [List.length_dropLast]
      omega
    have hn : (ef.length + 1) / 2 = ef.length / 2 + 1 := by omega
    unfold parse_language_list
    rw [hn]
    have hp := parse_language_list_pairs_odd_eq (ef.length / 2) [] ef.dropLast last [] hdl hlast
    simp only [List.nil_append, List.length_nil, List.append_nil] at hp
    rw [← hsplit] at hp
    rw [hp, Option.map_some', List.reverse_reverse]
    congr 1
    conv_rhs => rw [hsplit]
    exact (pair_list_codes_append_singleton _ _ _ hdl).symm

/-- On an EFpl of odd length, at least 2, whose last byte is not above 0x7f,
`sim_efpl_read_cb` reads outside the buffer. -/
theorem sim_efpl_read_cb_overread (c : Collaborators) (sim : ofono_sim) (data : List Nat)
    (h2 : 2 ≤ data.length) (hodd : data.length % 2 = 1)
    (hlast : data.getD (data.length - 1) 0 ≤ 0x7f) :
    sim_efpl_read_cb c sim true data = none := by
  have hp : parse_language_list data data.length = none := by
    have := parse_language_list_odd data hodd
    cases hq : parse_language_list data data.length with
    | none => rfl
    | some l =>
      rw [hq] at this
      generalize data.getD (data.length - 1) 0 = last at this hlast
      have : last > 0x7f := by simpa using this.symm
      omega
  unfold sim_efpl_read_cb
  rw [if_neg (by simp; omega), hp]

/-- The language list `sim_efpl_read_cb` stores, for a session whose EFli
length lies within its buffer and every EFpl content on which
`parse_language_list` stays inside the buffer. -/
theorem sim_efpl_read_cb_language_prefs_within (c : Collaborators) (sim : ofono_sim)
    (data : List Nat) (ok : Bool)
    (hinv : match sim.efli with
      | some buf => sim.efli_length ≤ buf.length
      | none => sim.efli_length = 0)
    (hdef : ok = true → 2 ≤ data.length → data.length % 2 = 1 →
      data.getD (data.length - 1) 0 > 0x7f) :
    (sim_efpl_read_cb c sim ok data).map (fun r => r.1.language_prefs.getD []) =
      some (resolve_languages c (stored_efli sim)
        (if ok = true then pair_list_codes data else [])) := by
  apply sim_efpl_read_cb_language_prefs_of c sim data ok _ hinv
  by_cases hok : ok = true
  · by_cases hd : data.length < 2
    · have hc : pair_list_codes data = [] := by
        match data, hd with
        | [], _ => rfl
        | [_], _ => rfl
        | _ :: _ :: _, hd =>
          simp only [List.length_cons] at hd
          omega
      simp [hok, hd, hc]
    · have hw : data.length % 2 = 0 ∨ data.getD (data.length - 1) 0 > 0x7f := by
        by_cases he : data.length % 2 = 0
        · exact Or.inl he
        · exact Or.inr (hdef hok (by omega) (by omega))
      simp only [hok, Bool.true_eq_false, false_or, hd, if_false, if_true]
      exact parse_language_list_within data hw
  · simp [hok]

/-! ## Lemmas on the letters of a code -/

theorem isalpha_of_isLower_tolower (x : Nat) (hx : x ≤ 0x7f)
    (h : (Char.ofNat (g_ascii_tolower x)).isLower = true) : g_ascii_isalpha x = true := by
  revert h
  interval_cases x <;> decide

theorem g_ascii_strdown_two_lowercase_iff (a b : Nat) (ha : a ≤ 0x7f) (hb : b ≤ 0x7f) :
    two_lowercase_letters (g_ascii_strdown [a, b]) ↔
      (g_ascii_isalpha a = true ∧ g_ascii_isalpha b = true) := by
  constructor
  · intro h
    unfold two_lowercase_letters g_ascii_strdown at h
    by_cases ha0 : a = 0
    · subst ha0
      obtain ⟨h1, -⟩ := h
      simp [String.length] at h1
    · by_cases hb0 : b = 0
      · subst hb0
        obtain ⟨h1, -⟩ := h
        simp [String.length, ha0] at h1
      · obtain ⟨-, h2⟩ := h
        simp only [List.takeWhile_cons, ha0, hb0, ne_eq, not_false_eq_true, decide_True,
          if_true, List.takeWhile_nil, List.map_cons, List.map_nil, List.mem_cons,
          List.mem_singleton, List.not_mem_nil, or_false, forall_eq_or_imp, forall_eq] at h2
        exact ⟨isalpha_of_isLower_tolower a ha h2.1, isalpha_of_isLower_tolower b hb h2.2⟩
  · rintro ⟨h1, h2⟩
    exact g_ascii_strdown_two_lowercase a b h1 h2

/-- The codes of a pair list are two lowercase letters each exactly when the
pairs taken as codes are letters. -/
theorem taken_pairs_alphabetic_iff : ∀ (l : List Nat),
    taken_pairs_alphabetic l = true ↔ ∀ x ∈ pair_list_codes l, two_lowercase_letters x
  | [] => by simp [taken_pairs_alphabetic, pair_list_codes]
  | [_] => by simp [taken_pairs_alphabetic, pair_list_codes]
  | a :: b :: rest => by
    have ih := taken_pairs_alphabetic_iff rest
    simp only [taken_pairs_alphabetic, decide_eq_true_eq, pair_list_codes]
    by_cases hc : a > 0x7f ∨ b > 0x7f
    · rw [if_pos hc, ← ih]
      constructor
      · exact fun h => h.2
      · intro h
        refine ⟨?_, h⟩
        rcases hc with hc | hc
        · exact Or.inl hc
        · exact Or.inr (Or.inl hc)
    · rw [if_neg hc]
      have ha : a ≤ 0x7f := by omega
      have hb : b ≤ 0x7f := by omega
      have hiff := g_ascii_strdown_two_lowercase_iff a b ha hb
      constructor
      · rintro ⟨h1, h2⟩ x hx
        rw [List.mem_cons] at hx
        rcases hx with rfl | hx
        · rcases h1 with h1 | h1 | h1
          · exact absurd (Or.inl h1) hc
          · exact absurd (Or.inr h1) hc
          · exact hiff.mpr h1
        · exact ih.mp h2 x hx
      · intro h
        refine ⟨Or.inr (Or.inr (hiff.mp (h _ (List.mem_cons_self _ _)))), ?_⟩
        exact ih.mpr (fun x hx => h x (List.mem_cons_of_mem _ hx))

/-! ## The claims -/

/-- C1: for every PIN-class or PUK-class kind `k` and every text `s`,
`__ofono_is_valid_sim_pin s k` holds exactly when `s` is made of decimal
digits only and its length lies in the range of `k`: 4 to 8 for pin and pin2,
4 to 16 for the other PIN-class kinds, exactly 8 for a PUK-class kind. -/
theorem valid_sim_pin_iff_digits_in_range (k : ofono_sim_password_type) (s : String)
    (hk : k ∈ pin_class ∨ k ∈ puk_class) :
    __ofono_is_valid_sim_pin s k = true ↔
      (all_digits s ∧ min_length k ≤ s.length ∧ s.length ≤ max_length k) :=
  is_valid_sim_pin_iff_valid_text k s hk

theorem valid_sim_pin_iff_digits_in_range_witness :
    (SIM_PIN ∈ pin_class ∨ SIM_PIN ∈ puk_class) ∧
    (__ofono_is_valid_sim_pin "1234" SIM_PIN = true ↔
      (all_digits "1234" ∧ min_length SIM_PIN ≤ "1234".length ∧
        "1234".length ≤ max_length SIM_PIN)) :=
  ⟨by decide, valid_sim_pin_iff_digits_in_range SIM_PIN "1234" (by decide)⟩

/-- C2 fails as stated: the empty text is made of digits only and has a
length between 0 and 8, and `__ofono_is_valid_sim_pin` rejects it for the kind
none. -/
theorem valid_sim_pin_none_rejects_empty :
    ¬ (__ofono_is_valid_sim_pin "" NONE = true ↔ (all_digits "" ∧ 0 ≤ "".length ∧ "".length ≤ 8)) := by
  decide

/-- C2, amended: for the kind none, `__ofono_is_valid_sim_pin s NONE` holds
exactly when `s` is made of decimal digits only and its length is between 1
and 8. -/
theorem valid_sim_pin_none_iff (s : String) :
    __ofono_is_valid_sim_pin s NONE = true ↔ (all_digits s ∧ 1 ≤ s.length ∧ s.length ≤ 8) := by
  simp only [__ofono_is_valid_sim_pin]
  rw [is_valid_pin_iff]
  constructor
  · intro h
    exact ⟨h.2.1, by omega, h.2.2.2⟩
  · intro h
    exact ⟨by omega, h.1, by omega, h.2.2⟩

/-- C3: `puk2pin k` differs from `INVALID` for each of the seven PUK-class
kinds and is `INVALID` for every other kind (none, the PIN-class kinds,
`INVALID`). -/
theorem puk2pin_invalid_iff_not_puk (k : ofono_sim_password_type) :
    (k ∈ puk_class → puk2pin k ≠ INVALID) ∧ (k ∉ puk_class → puk2pin k = INVALID) := by
  cases k <;> decide

/-- C4, the code at the failing input: `puk2pin` sends phnet-puk to
phnet-puk, which is neither the PIN-class kind paired with it (phnet-pin) nor
a PIN-class kind at all; on the six other PUK-class kinds it returns the
paired PIN-class kind. -/
theorem puk2pin_phnet_puk_not_paired :
    puk2pin PHNET_PUK = PHNET_PUK ∧
    paired_pin PHNET_PUK = some PHNET_PIN ∧
    password_is_pin (puk2pin PHNET_PUK) = false ∧
    (∀ k ∈ puk_class, k ≠ PHNET_PUK →
      some (puk2pin k) = paired_pin k ∧ password_is_pin (puk2pin k) = true) := by
  decide

/-- C5, the code at the failing input: the required kind is phnet-puk, the
request names it, gives a valid PUK (8 digits) and a new PIN valid for the
paired kind phnet-pin (4 digits); `sim_reset_pin` rejects it with invalid
format instead of forwarding it, because `puk2pin` returns phnet-puk and the
new PIN is checked as a PUK.  For every required kind other than phnet-puk
the request is forwarded exactly when the kind is PUK-class, the PUK is valid
for it and the new PIN is valid for the paired PIN-class kind, and is rejected
with invalid format, without a call and with the pending slot empty,
otherwise. -/
theorem sim_reset_pin_phnet_puk_rejected :
    (sim_string_to_passwd "networkpuk" = PHNET_PUK ∧
      PHNET_PUK ∈ puk_class ∧
      valid_text "12345678" PHNET_PUK ∧
      paired_pin PHNET_PUK = some PHNET_PIN ∧
      valid_text "1234" PHNET_PIN ∧
      sim_reset_pin { ofono_sim_create full_driver with pin_type := PHNET_PUK }
          ⟨1, [DBusArg.string "networkpuk", DBusArg.string "12345678", DBusArg.string "1234"]⟩ =
        ⟨{ ofono_sim_create full_driver with pin_type := PHNET_PUK },
          some Reply.error_invalid_format, []⟩) ∧
    (∀ (sim : ofono_sim) (serial : Nat) (typestr puk pin : String),
      sim.driver.reset_passwd = true → sim.pending = none →
      sim_string_to_passwd typestr = sim.pin_type → sim.pin_type ≠ PHNET_PUK →
      ((sim.pin_type ∈ puk_class ∧ valid_text puk sim.pin_type ∧
          ∃ p, paired_pin sim.pin_type = some p ∧ valid_text pin p) →
        sim_reset_pin sim
            ⟨serial, [DBusArg.string typestr, DBusArg.string puk, DBusArg.string pin]⟩ =
          ⟨{ sim with
              pending := some ⟨serial,
                [DBusArg.string typestr, DBusArg.string puk, DBusArg.string pin]⟩ },
            none, [Call.driver_reset_passwd puk pin Callback.sim_enter_pin_cb]⟩) ∧
      (¬ (sim.pin_type ∈ puk_class ∧ valid_text puk sim.pin_type ∧
          ∃ p, paired_pin sim.pin_type = some p ∧ valid_text pin p) →
        sim_reset_pin sim
            ⟨serial, [DBusArg.string typestr, DBusArg.string puk, DBusArg.string pin]⟩ =
          ⟨sim, some Reply.error_invalid_format, []⟩)) := by
  refine ⟨by decide, ?_⟩
  intro sim serial typestr puk pin hcap hpend hty hne
  rw [sim_reset_pin_eq sim serial typestr puk pin hcap hpend hty]
  have hA : ∀ k : ofono_sim_password_type,
      ((k ∈ puk_class ∧ valid_text puk k ∧ ∃ p, paired_pin k = some p ∧ valid_text pin p) ↔
        (k ∈ puk_class ∧ __ofono_is_valid_sim_pin puk k = true ∧
          ∃ p, paired_pin k = some p ∧ __ofono_is_valid_sim_pin pin p = true)) := by
    intro k
    constructor
    · rintro ⟨hk, hv, p, hp, hvp⟩
      exact ⟨hk, (is_valid_sim_pin_iff_valid_text k puk (Or.inr hk)).mpr hv, p, hp,
        (is_valid_sim_pin_iff_valid_text p pin
          (Or.inl (paired_pin_mem_pin_class k p hp))).mpr hvp⟩
    · rintro ⟨hk, hv, p, hp, hvp⟩
      exact ⟨hk, (is_valid_sim_pin_iff_valid_text k puk (Or.inr hk)).mp hv, p, hp,
        (is_valid_sim_pin_iff_valid_text p pin
          (Or.inl (paired_pin_mem_pin_class k p hp))).mp hvp⟩
  rw [hA]
  have hB : ∀ k : ofono_sim_password_type, k ≠ PHNET_PUK →
      ((k ∈ puk_class ∧ __ofono_is_valid_sim_pin puk k = true ∧
          ∃ p, paired_pin k = some p ∧ __ofono_is_valid_sim_pin pin p = true) ↔
        ¬ (k = NONE ∨ __ofono_is_valid_sim_pin puk k = false ∨
          __ofono_is_valid_sim_pin pin (puk2pin k) = false)) := by
    intro k hk
    cases k <;> first
      | exact absurd rfl hk
      | simp [puk_class, puk2pin, paired_pin, __ofono_is_valid_sim_pin]
  rw [hB _ hne]
  constructor
  · intro h
    rw [if_neg h]
  · intro h
    rw [if_pos (not_not.mp h)]

/-- C6: while a request is pending, lock, unlock, change, enter and reset
(each with its driver capability present) and get-icon with a non-zero index
return the busy error, make no call on the driver or the file client, and
leave the session, pending slot included, as it was. -/
theorem pending_request_rejected_busy (c : Collaborators) (sim : ofono_sim)
    (msg : DBusMessage) (hp : sim.pending.isSome = true) :
    (sim.driver.lock = true → ∀ lock : Bool,
      sim_lock_or_unlock sim lock msg = ⟨sim, some Reply.error_busy, []⟩) ∧
    (sim.driver.change_passwd = true →
      sim_change_pin sim msg = ⟨sim, some Reply.error_busy, []⟩) ∧
    (sim.driver.send_passwd = true →
      sim_enter_pin sim msg = ⟨sim, some Reply.error_busy, []⟩) ∧
    (sim.driver.reset_passwd = true →
      sim_reset_pin sim msg = ⟨sim, some Reply.error_busy, []⟩) ∧
    (∀ (serial id : Nat) (rest : List DBusArg), id ≠ 0 →
      sim_get_icon c sim ⟨serial, DBusArg.byte id :: rest⟩ =
        some ⟨sim, some Reply.error_busy, []⟩) := by
  refine ⟨?_, ?_, ?_, ?_, ?_⟩
  · intro h lock
    simp [sim_lock_or_unlock, h, hp]
  · intro h
    simp [sim_change_pin, h, hp]
  · intro h
    simp [sim_enter_pin, h, hp]
  · intro h
    simp [sim_reset_pin, h, hp]
  · intro serial id rest hid
    simp [sim_get_icon, dbus_message_get_args_y, hid, hp]

theorem pending_request_rejected_busy_witness :
    ({ ofono_sim_create full_driver with pending := some ⟨1, []⟩ } : ofono_sim).pending.isSome
        = true ∧
    sim_lock_or_unlock { ofono_sim_create full_driver with pending := some ⟨1, []⟩ } true
        ⟨2, [DBusArg.string "pin", DBusArg.string "1234"]⟩ =
      ⟨{ ofono_sim_create full_driver with pending := some ⟨1, []⟩ },
        some Reply.error_busy, []⟩ ∧
    sim_get_icon accepting_collaborators
        { ofono_sim_create full_driver with pending := some ⟨1, []⟩ } ⟨2, [DBusArg.byte 1]⟩ =
      some ⟨{ ofono_sim_create full_driver with pending := some ⟨1, []⟩ },
        some Reply.error_busy, []⟩ :=
  have h := pending_request_rejected_busy accepting_collaborators
    { ofono_sim_create full_driver with pending := some ⟨1, []⟩ }
    ⟨2, [DBusArg.string "pin", DBusArg.string "1234"]⟩ rfl
  ⟨rfl, h.1 rfl true, h.2.2.2.2 2 1 [] (by decide)⟩

/-- C8: for every PIN-class kind `k`, named by its table name, and every
text `p` valid for `k`, a change request with old = new = `p` (capability
present, nothing pending) returns a success reply at once, makes no call and
leaves the session, with its empty pending slot, as it was. -/
theorem sim_change_pin_same_pin_succeeds (sim : ofono_sim) (serial : Nat)
    (k : ofono_sim_password_type) (typestr p : String)
    (hcap : sim.driver.change_passwd = true) (hpend : sim.pending = none)
    (hk : k ∈ pin_class) (hname : (k, typestr) ∈ passwd_name) (hv : valid_text p k) :
    sim_change_pin sim ⟨serial, [DBusArg.string typestr, DBusArg.string p, DBusArg.string p]⟩ =
      ⟨sim, some Reply.method_return, []⟩ ∧
    (sim_change_pin sim
      ⟨serial, [DBusArg.string typestr, DBusArg.string p, DBusArg.string p]⟩).sim.pending
        = none := by
  have hty := sim_string_to_passwd_of_name k typestr hname
  have hpin := (password_is_pin_iff_pin_class k).mpr hk
  have hval := (is_valid_sim_pin_iff_valid_text k p (Or.inl hk)).mpr hv
  have h : sim_change_pin sim
      ⟨serial, [DBusArg.string typestr, DBusArg.string p, DBusArg.string p]⟩ =
      ⟨sim, some Reply.method_return, []⟩ := by
    simp [sim_change_pin, hcap, hpend, dbus_message_get_args_sss, hty, hpin, hval]
  exact ⟨h, by rw [h]; exact hpend⟩

theorem sim_change_pin_same_pin_succeeds_witness :
    full_driver.change_passwd = true ∧
    (ofono_sim_create full_driver).pending = none ∧
    SIM_PIN ∈ pin_class ∧ (SIM_PIN, "pin") ∈ passwd_name ∧ valid_text "1234" SIM_PIN ∧
    sim_change_pin (ofono_sim_create full_driver)
        ⟨1, [DBusArg.string "pin", DBusArg.string "1234", DBusArg.string "1234"]⟩ =
      ⟨ofono_sim_create full_driver, some Reply.method_return, []⟩ :=
  ⟨rfl, rfl, by decide, by decide, by decide,
    (sim_change_pin_same_pin_succeeds (ofono_sim_create full_driver) 1 SIM_PIN "pin" "1234"
      rfl rfl (by decide) (by decide) (by decide)).1⟩

/-- What `sim_lock_or_unlock` does with a request of two strings when the
capability is present and nothing is pending, in terms of the kind its own
lookup `sim_string_to_passwd` returns for the name. -/
theorem sim_lock_or_unlock_by_lookup (sim : ofono_sim) (lock : Bool) (serial : Nat)
    (typestr pin : String)
    (hcap : sim.driver.lock = true) (hpend : sim.pending = none) :
    ((sim_string_to_passwd typestr ∈ pin_class ∧ sim_string_to_passwd typestr ≠ SIM_PIN2 ∧
        valid_text pin (sim_string_to_passwd typestr)) →
      sim_lock_or_unlock sim lock ⟨serial, [DBusArg.string typestr, DBusArg.string pin]⟩ =
        ⟨{ sim with pending := some ⟨serial, [DBusArg.string typestr, DBusArg.string pin]⟩ },
          none,
          [Call.driver_lock (sim_string_to_passwd typestr) lock pin
            (if lock then Callback.sim_lock_cb else Callback.sim_unlock_cb)]⟩) ∧
    (¬ (sim_string_to_passwd typestr ∈ pin_class ∧ sim_string_to_passwd typestr ≠ SIM_PIN2 ∧
        valid_text pin (sim_string_to_passwd typestr)) →
      sim_lock_or_unlock sim lock ⟨serial, [DBusArg.string typestr, DBusArg.string pin]⟩ =
        ⟨sim, some Reply.error_invalid_format, []⟩ ∧
      (sim_lock_or_unlock sim lock
        ⟨serial, [DBusArg.string typestr, DBusArg.string pin]⟩).sim.pending = none) ∧
    (sim_string_to_passwd typestr = INVALID ↔ ∀ k, (k, typestr) ∉ passwd_name) := by
  refine ⟨?_, ?_, ?_⟩
  · rintro ⟨hk, h2, hv⟩
    have hpin := (password_is_pin_iff_pin_class _).mpr hk
    have hval := (is_valid_sim_pin_iff_valid_text _ pin (Or.inl hk)).mpr hv
    simp [sim_lock_or_unlock, hcap, hpend, dbus_message_get_args_ss, hpin, h2, hval]
  · intro hn
    have h : sim_lock_or_unlock sim lock
        ⟨serial, [DBusArg.string typestr, DBusArg.string pin]⟩ =
        ⟨sim, some Reply.error_invalid_format, []⟩ := by
      by_cases hk : sim_string_to_passwd typestr ∈ pin_class
      · have hpin := (password_is_pin_iff_pin_class _).mpr hk
        by_cases h2 : sim_string_to_passwd typestr = SIM_PIN2
        · simp [sim_lock_or_unlock, hcap, hpend, dbus_message_get_args_ss, h2]
        · have hv : ¬ valid_text pin (sim_string_to_passwd typestr) :=
            fun hv => hn ⟨hk, h2, hv⟩
          have hval : __ofono_is_valid_sim_pin pin (sim_string_to_passwd typestr) = false := by
            rw [← Bool.not_eq_true]
            exact fun h => hv ((is_valid_sim_pin_iff_valid_text _ pin (Or.inl hk)).mp h)
          simp [sim_lock_or_unlock, hcap, hpend, dbus_message_get_args_ss, hpin, h2, hval]
      · have hpin : password_is_pin (sim_string_to_passwd typestr) = false := by
          rw [← Bool.not_eq_true]
          exact fun h => hk ((password_is_pin_iff_pin_class _).mp h)
        simp [sim_lock_or_unlock, hcap, hpend, dbus_message_get_args_ss, hpin]
    exact ⟨h, by rw [h]; exact hpend⟩
  · constructor
    · intro hinv k hmem
      have := sim_string_to_passwd_of_name k typestr hmem
      rw [hinv] at this
      subst this
      revert hmem
      simp [passwd_name]
    · intro hall
      unfold sim_string_to_passwd
      cases hf : passwd_name.find? (fun e => e.2 == typestr) with
      | none => rfl
      | some e =>
        exfalso
        have hmem := List.mem_of_find?_eq_some hf
        have hname := List.find?_some hf
        have he : e.2 = typestr := by simpa using hname
        exact hall e.1 (by rw [← he]; exact hmem)

/-- C9: a lock or unlock request (capability present, nothing pending) whose
kind name is the name the table `passwd_name` gives to the kind `k` is
forwarded to the driver for `k`, and recorded in the pending slot, exactly when
`k` is a PIN-class kind other than pin2 and the password is valid for `k`; for
every other named kind (pin2, a PUK-class kind, none), for an invalid password
and for a name that is not in the table, it is rejected with invalid format,
no call is made and the pending slot stays empty. -/
theorem sim_lock_or_unlock_forwards_iff (sim : ofono_sim) (lock : Bool) (serial : Nat)
    (typestr pin : String)
    (hcap : sim.driver.lock = true) (hpend : sim.pending = none) :
    (∀ k, (k, typestr) ∈ passwd_name →
      ((k ∈ pin_class ∧ k ≠ SIM_PIN2 ∧ valid_text pin k) →
        sim_lock_or_unlock sim lock ⟨serial, [DBusArg.string typestr, DBusArg.string pin]⟩ =
          ⟨{ sim with
              pending := some ⟨serial, [DBusArg.string typestr, DBusArg.string pin]⟩ },
            none,
            [Call.driver_lock k lock pin
              (if lock then Callback.sim_lock_cb else Callback.sim_unlock_cb)]⟩) ∧
      (¬ (k ∈ pin_class ∧ k ≠ SIM_PIN2 ∧ valid_text pin k) →
        sim_lock_or_unlock sim lock ⟨serial, [DBusArg.string typestr, DBusArg.string pin]⟩ =
          ⟨sim, some Reply.error_invalid_format, []⟩ ∧
        (sim_lock_or_unlock sim lock
          ⟨serial, [DBusArg.string typestr, DBusArg.string pin]⟩).sim.pending = none)) ∧
    ((∀ k, (k, typestr) ∉ passwd_name) →
      sim_lock_or_unlock sim lock ⟨serial, [DBusArg.string typestr, DBusArg.string pin]⟩ =
        ⟨sim, some Reply.error_invalid_format, []⟩ ∧
      (sim_lock_or_unlock sim lock
        ⟨serial, [DBusArg.string typestr, DBusArg.string pin]⟩).sim.pending = none) := by
  have hl := sim_lock_or_unlock_by_lookup sim lock serial typestr pin hcap hpend
  constructor
  · intro k hk
    rw [sim_string_to_passwd_of_name k typestr hk] at hl
    exact ⟨hl.1, hl.2.1⟩
  · intro hall
    have hinv := hl.2.2.mpr hall
    apply hl.2.1
    rintro ⟨hk, -, -⟩
    rw [hinv] at hk
    exact absurd hk (by decide)

theorem sim_lock_or_unlock_forwards_iff_witness :
    full_driver.lock = true ∧ (ofono_sim_create full_driver).pending = none ∧
    (SIM_PIN, "pin") ∈ passwd_name ∧ valid_text "1234" SIM_PIN ∧
    sim_lock_or_unlock (ofono_sim_create full_driver) true
        ⟨1, [DBusArg.string "pin", DBusArg.string "1234"]⟩ =
      ⟨{ ofono_sim_create full_driver with
          pending := some ⟨1, [DBusArg.string "pin", DBusArg.string "1234"]⟩ },
        none, [Call.driver_lock SIM_PIN true "1234" Callback.sim_lock_cb]⟩ ∧
    sim_lock_or_unlock (ofono_sim_create full_driver) false
        ⟨1, [DBusArg.string "pin2", DBusArg.string "1234"]⟩ =
      ⟨ofono_sim_create full_driver, some Reply.error_invalid_format, []⟩ ∧
    sim_lock_or_unlock (ofono_sim_create full_driver) true
        ⟨1, [DBusArg.string "puk", DBusArg.string "12345678"]⟩ =
      ⟨ofono_sim_create full_driver, some Reply.error_invalid_format, []⟩ ∧
    sim_lock_or_unlock (ofono_sim_create full_driver) true
        ⟨1, [DBusArg.string "PIN", DBusArg.string "1234"]⟩ =
      ⟨ofono_sim_create full_driver, some Reply.error_invalid_format, []⟩ :=
  ⟨rfl, rfl, by decide, by decide,
    ((sim_lock_or_unlock_forwards_iff (ofono_sim_create full_driver) true 1 "pin" "1234"
      rfl rfl).1 SIM_PIN (by decide)).1 (by decide),
    (((sim_lock_or_unlock_forwards_iff (ofono_sim_create full_driver) false 1 "pin2" "1234"
      rfl rfl).1 SIM_PIN2 (by decide)).2 (by decide)).1,
    (((sim_lock_or_unlock_forwards_iff (ofono_sim_create full_driver) true 1 "puk" "12345678"
      rfl rfl).1 SIM_PUK (by decide)).2 (by decide)).1,
    ((sim_lock_or_unlock_forwards_iff (ofono_sim_create full_driver) true 1 "PIN" "1234"
      rfl rfl).2 (by
        intro k hk
        simp only [passwd_name, List.mem_cons, List.mem_singleton, Prod.mk.injEq,
          List.not_mem_nil, or_false] at hk
        rcases hk with h | h | h | h | h | h | h | h | h | h | h | h | h | h | h | h <;>
          exact absurd h.2 (by decide))).1⟩

/-- C7 fails as stated: with a request pending, a card of one
subscriber-number record of 14 bytes and a set-numbers request carrying the
empty list, `sim_set_property` does not answer busy (it returns no reply yet)
and issues the write that clears record 1. -/
theorem sim_set_property_pending_still_writes :
    ({ ofono_sim_create full_driver with
        pending := some ⟨1, [DBusArg.string "pin", DBusArg.string "1234"]⟩,
        efmsisdn_length := 14, efmsisdn_records := 1 } : ofono_sim).pending.isSome = true ∧
    sim_set_property accepting_collaborators
        { ofono_sim_create full_driver with
          pending := some ⟨1, [DBusArg.string "pin", DBusArg.string "1234"]⟩,
          efmsisdn_length := 14, efmsisdn_records := 1 }
        ⟨2, [DBusArg.string "SubscriberNumbers", DBusArg.variant_string_array []]⟩ =
      some ⟨{ ofono_sim_create full_driver with
          pending := some ⟨1, [DBusArg.string "pin", DBusArg.string "1234"]⟩,
          efmsisdn_length := 14, efmsisdn_records := 1 },
        none,
        [Call.sim_fs_write sim_file_id.SIM_EFMSISDN_FILEID ofono_sim_file_structure.FIXED 1
          [1, 0xff, 0xff, 0xff, 0xff, 0xff, 0xff, 0xff, 0xff, 0xff, 0xff, 0xff, 0xff, 0xff]
          14 Callback.msisdn_set_cb]⟩ := by
  decide

/-- C7, amended: a set-numbers request is treated the same whether or not
another request is pending: the reply and the calls of `sim_set_property` do
not depend on the pending slot, and the session, pending slot included, is
returned as it was.  The request is answered busy exactly when it names
SubscriberNumbers and no record length is known (`efmsisdn_length` is 0), and
then no call is made. -/
theorem sim_set_property_ignores_pending (c : Collaborators) (sim : ofono_sim)
    (msg : DBusMessage) (p : Option DBusMessage) :
    (sim_set_property c { sim with pending := p } msg).map (fun o => (o.reply, o.calls)) =
      (sim_set_property c sim msg).map (fun o => (o.reply, o.calls)) ∧
    (∀ o, sim_set_property c sim msg = some o →
      o.sim = sim ∧
      (o.reply = some Reply.error_busy ↔
        ((∃ rest, msg.args = DBusArg.string "SubscriberNumbers" :: rest) ∧
          sim.efmsisdn_length = 0)) ∧
      (o.reply = some Reply.error_busy → o.calls = [])) := by
  constructor
  · unfold sim_set_property
    simp only [set_own_numbers_pending]
    cases hargs : msg.args with
    | nil => rfl
    | cons a rest =>
      cases a with
      | string name =>
        by_cases hn : (name == "SubscriberNumbers") = true
        · by_cases hl : sim.efmsisdn_length = 0
          · simp [hn, hl]
          · cases rest with
            | nil => simp [hn, hl]
            | cons b rest2 =>
              cases b with
              | variant_string_array items =>
                simp only [hn, hl, if_true, if_false]
                by_cases hv : (items.all c.valid_phone_number_format) = true
                · rw [if_pos hv, if_pos hv]
                  cases set_own_numbers c sim (List.map c.string_to_phone_number items) msg with
                  | none => rfl
                  | some r =>
                    obtain ⟨ok, req, calls⟩ := r
                    cases ok <;> simp
                · rw [if_neg hv, if_neg hv]
                  rfl
              | _ => simp [hn, hl]
        · simp [hn]
      | _ => rfl
  · intro o ho
    unfold sim_set_property at ho
    cases hargs : msg.args with
    | nil =>
      rw [hargs] at ho
      simp at ho
      subst ho
      simp
    | cons a rest =>
      rw [hargs] at ho
      cases a with
      | string name =>
        by_cases hn : (name == "SubscriberNumbers") = true
        · have hname : name = "SubscriberNumbers" := by simpa using hn
          by_cases hl : sim.efmsisdn_length = 0
          · simp [hn, hl] at ho
            subst ho
            simp [hname, hl]
          · cases rest with
            | nil =>
              simp [hn, hl] at ho
              subst ho
              simp [hl]
            | cons b rest2 =>
              cases b with
              | variant_string_array items =>
                simp only [hn, hl, if_true, if_false] at ho
                by_cases hv : (items.all c.valid_phone_number_format) = true
                · rw [if_pos hv] at ho
                  cases hs : set_own_numbers c sim
                      (List.map c.string_to_phone_number items) msg with
                  | none => simp [hs] at ho
                  | some r =>
                    obtain ⟨ok, req, calls⟩ := r
                    cases ok <;> simp [hs] at ho <;> subst ho <;> simp [hl]
                · rw [if_neg hv] at ho
                  simp at ho
                  subst ho
                  simp [hl]
              | _ =>
                simp [hn, hl] at ho
                subst ho
                simp [hl]
        · have hname : name ≠ "SubscriberNumbers" := by simpa using hn
          simp [hn] at ho
          subst ho
          simp [hname]
      | _ =>
        simp at ho
        subst ho
        simp

/-- C10 (missing test of an odd EFpl length): with EFli holding 'en' and a
successful EFpl read of the three bytes 'f','r','e', `sim_efpl_read_cb` reads
outside the EFpl buffer and produces no list; this happens on every EFpl of odd
length, at least 2, whose last byte is not above 0x7f.  On every other input
the merge rule holds, file A being the EFli bytes `sim_efli_read_cb` stored
(the first `length mod 256` bytes of the file read, the length being kept in
an `unsigned char`) and file B the EFpl bytes: if EFli is a pair list whose
first pair is not 0xFFFF, the result is the EFli codes followed by the EFpl
codes not among them; if EFli is a pair list whose first pair is exactly
0xFFFF, the result is the EFpl codes alone; if EFli is in legacy format, the
result is the EFpl codes followed by the legacy-derived EFli codes not among
them. -/
theorem language_resolution_merge_rule (c : Collaborators) (sim : ofono_sim)
    (efli efpl : List Nat) (ok : Bool) :
    ((ok = true → 2 ≤ efpl.length → efpl.length % 2 = 1 →
        efpl.getD (efpl.length - 1) 0 > 0x7f) →
      (pair_list_format (efli.take (efli.length % 2 ^ 8)) = true →
        (efli.take (efli.length % 2 ^ 8)).take 2 ≠ [0xff, 0xff] →
        (sim_efpl_read_cb c (sim_efli_read_cb sim true efli) ok efpl).map
            (fun r => r.1.language_prefs.getD []) =
          some (merge_codes (pair_list_codes (efli.take (efli.length % 2 ^ 8)))
            (if ok = true then pair_list_codes efpl else []))) ∧
      (pair_list_format (efli.take (efli.length % 2 ^ 8)) = true →
        (efli.take (efli.length % 2 ^ 8)).take 2 = [0xff, 0xff] →
        (sim_efpl_read_cb c (sim_efli_read_cb sim true efli) ok efpl).map
            (fun r => r.1.language_prefs.getD []) =
          some (if ok = true then pair_list_codes efpl else [])) ∧
      (pair_list_format (efli.take (efli.length % 2 ^ 8)) = false →
        (sim_efpl_read_cb c (sim_efli_read_cb sim true efli) ok efpl).map
            (fun r => r.1.language_prefs.getD []) =
          some (merge_codes (if ok = true then pair_list_codes efpl else [])
            (legacy_codes c (efli.take (efli.length % 2 ^ 8)))))) ∧
    (2 ≤ efpl.length → efpl.length % 2 = 1 → efpl.getD (efpl.length - 1) 0 ≤ 0x7f →
      sim_efpl_read_cb c (sim_efli_read_cb sim true efli) true efpl = none) := by
  refine ⟨?_, fun h2 hodd hlast => sim_efpl_read_cb_overread c _ efpl h2 hodd hlast⟩
  intro hdef
  have hle : efli.length % 2 ^ 8 ≤ efli.length := Nat.mod_le _ _
  have hstored : stored_efli (sim_efli_read_cb sim true efli) =
      efli.take (efli.length % 2 ^ 8) := by
    by_cases h0 : efli.length = 0
    · have : efli = [] := List.length_eq_zero.mp h0
      subst this
      simp [stored_efli, sim_efli_read_cb]
    · simp [stored_efli, sim_efli_read_cb, h0]
  have hinv : match (sim_efli_read_cb sim true efli).efli with
      | some buf => (sim_efli_read_cb sim true efli).efli_length ≤ buf.length
      | none => (sim_efli_read_cb sim true efli).efli_length = 0 := by
    by_cases h0 : efli.length = 0
    · simp [sim_efli_read_cb, h0]
    · simp only [sim_efli_read_cb, h0, if_false]
      exact hle
  have h := sim_efpl_read_cb_language_prefs_within c (sim_efli_read_cb sim true efli) efpl ok
    hinv hdef
  rw [h, hstored]
  unfold resolve_languages
  refine ⟨?_, ?_, ?_⟩
  · intro hf h2
    rw [if_pos hf, if_neg h2]
  · intro hf h2
    rw [if_pos hf, if_pos h2]
  · intro hf
    rw [if_neg (by rw [hf]; decide)]

theorem language_resolution_merge_rule_witness :
    sim_efpl_read_cb accepting_collaborators
        (sim_efli_read_cb (ofono_sim_create full_driver) true [0x65, 0x6e])
        true [0x66, 0x72, 0x65] = none ∧
    (sim_efpl_read_cb accepting_collaborators
        (sim_efli_read_cb (ofono_sim_create full_driver) true [0x65, 0x6e, 0xff, 0xff])
        true [0x66, 0x72]).map (fun r => r.1.language_prefs.getD []) = some ["en", "fr"] ∧
    (sim_efpl_read_cb accepting_collaborators
        (sim_efli_read_cb (ofono_sim_create full_driver) true [0xff, 0xff, 0x65, 0x6e])
        true [0x64, 0x65]).map (fun r => r.1.language_prefs.getD []) = some ["de"] ∧
    (sim_efpl_read_cb accepting_collaborators
        (sim_efli_read_cb (ofono_sim_create full_driver) true [0x01])
        true [0x46, 0x52]).map (fun r => r.1.language_prefs.getD []) = some ["fr", "en"] ∧
    (sim_efpl_read_cb accepting_collaborators
        (sim_efli_read_cb (ofono_sim_create full_driver) true [0x65, 0x6e])
        true [0x66, 0x72, 0xff]).map (fun r => r.1.language_prefs.getD []) =
      some ["en", "fr"] :=
  ⟨(language_resolution_merge_rule accepting_collaborators (ofono_sim_create full_driver)
      [0x65, 0x6e] [0x66, 0x72, 0x65] true).2 (by decide) (by decide) (by decide),
    (((language_resolution_merge_rule accepting_collaborators (ofono_sim_create full_driver)
      [0x65, 0x6e, 0xff, 0xff] [0x66, 0x72] true).1 (by decide)).1
        (by decide) (by decide)).trans (by decide),
    (((language_resolution_merge_rule accepting_collaborators (ofono_sim_create full_driver)
      [0xff, 0xff, 0x65, 0x6e] [0x64, 0x65] true).1 (by decide)).2.1
        (by decide) (by decide)).trans (by decide),
    (((language_resolution_merge_rule accepting_collaborators (ofono_sim_create full_driver)
      [0x01] [0x46, 0x52] true).1 (by decide)).2.2
        (by decide)).trans (by decide),
    (((language_resolution_merge_rule accepting_collaborators (ofono_sim_create full_driver)
      [0x65, 0x6e] [0x66, 0x72, 0xff] true).1 (by decide)).1
        (by decide) (by decide)).trans (by decide)⟩

/-- C13: on a buffer holding at least `length` bytes, `sim_efli_format`
returns, and it returns true exactly when `length` is even and every two-byte
pair below `length` is either 0xFF 0xFF or two ASCII alphabetic characters. -/
theorem sim_efli_format_true_iff (ef : List Nat) (length : Nat) (hle : length ≤ ef.length) :
    (∃ r, sim_efli_format ef length = some r) ∧
    (sim_efli_format ef length = some true ↔
      (length % 2 = 0 ∧
        ∀ i, 2 * i + 1 < length →
          unused_or_alpha (ef.getD (2 * i) 0) (ef.getD (2 * i + 1) 0))) := by
  have hlen : (ef.take length).length = length := by
    rw [List.length_take]
    omega
  rw [sim_efli_format_take ef length hle]
  refine ⟨⟨_, rfl⟩, ?_⟩
  rw [Option.some.injEq, pair_list_format_iff, hlen]
  constructor
  · rintro ⟨h1, h2⟩
    refine ⟨h1, fun i hi => ?_⟩
    have := h2 i hi
    rwa [getD_take_of_lt _ _ _ (by omega), getD_take_of_lt _ _ _ hi] at this
  · rintro ⟨h1, h2⟩
    refine ⟨h1, fun i hi => ?_⟩
    rw [getD_take_of_lt _ _ _ (by omega), getD_take_of_lt _ _ _ hi]
    exact h2 i hi

theorem sim_efli_format_true_iff_witness :
    sim_efli_format [0x65, 0x6e, 0xff, 0xff] 4 = some true ∧
    sim_efli_format [0x65, 0x6e, 0xff, 0x01] 4 = some false ∧
    sim_efli_format [0x65, 0x6e, 0xff] 3 = some false :=
  ⟨(sim_efli_format_true_iff [0x65, 0x6e, 0xff, 0xff] 4 (by decide)).2.mpr
      ⟨by decide, fun i hi => by
        have : i = 0 ∨ i = 1 := by omega
        rcases this with rfl | rfl <;> decide⟩,
    by decide, by decide⟩

/-- C12 fails as stated: with no EFli and EFpl holding the digits '1','2',
`sim_efpl_read_cb` stores the code "12", which is not alphabetic. -/
theorem language_prefs_non_alphabetic_code :
    (sim_efpl_read_cb accepting_collaborators (ofono_sim_create full_driver)
        true [0x31, 0x32]).map (fun r => r.1.language_prefs) = some (some ["12"]) ∧
    ¬ two_lowercase_letters "12" := by
  decide

/-- C12, amended: for every EFli content and every EFpl content on which
`parse_language_list` stays inside the buffer, `sim_efpl_read_cb` returns, and
every code of the list it stores is exactly two lowercase alphabetic
characters provided the language table holds codes of two lowercase letters
and every EFpl pair taken as a code, that is every two-byte pair with both
bytes at most 0x7f, consists of two ASCII alphabetic characters; pairs with a
byte above 0x7f are skipped.  With no EFli stored the condition on the EFpl
pairs is also necessary. -/
theorem language_prefs_two_lowercase (c : Collaborators) (sim : ofono_sim)
    (data : List Nat) (ok : Bool)
    (hinv : match sim.efli with
      | some buf => sim.efli_length ≤ buf.length
      | none => sim.efli_length = 0)
    (hdef : ok = true → 2 ≤ data.length → data.length % 2 = 1 →
      data.getD (data.length - 1) 0 > 0x7f)
    (htable : ∀ b code, c.iso639_2_from_language b = some code → two_lowercase_letters code) :
    ∃ result,
      (sim_efpl_read_cb c sim ok data).map (fun r => r.1.language_prefs.getD []) =
        some result ∧
      ((ok = true → taken_pairs_alphabetic data = true) →
        ∀ code ∈ result, two_lowercase_letters code) ∧
      (sim.efli = none → (∀ code ∈ result, two_lowercase_letters code) →
        (ok = true → taken_pairs_alphabetic data = true)) := by
  refine ⟨_, sim_efpl_read_cb_language_prefs_within c sim data ok hinv hdef, ?_, ?_⟩
  · intro hpl
    have hB : ∀ code ∈ (if ok = true then pair_list_codes data else []),
        two_lowercase_letters code := by
      intro code hcode
      by_cases hok : ok = true
      · rw [if_pos hok] at hcode
        exact (taken_pairs_alphabetic_iff data).mp (hpl hok) code hcode
      · rw [if_neg hok] at hcode
        exact absurd hcode (List.not_mem_nil _)
    have hL : ∀ code ∈ legacy_codes c (stored_efli sim), two_lowercase_letters code := by
      intro code hcode
      simp only [legacy_codes, List.mem_filterMap] at hcode
      obtain ⟨b, -, hb⟩ := hcode
      exact htable b code hb
    intro code hcode
    unfold resolve_languages at hcode
    by_cases hf : pair_list_format (stored_efli sim) = true
    · rw [if_pos hf] at hcode
      have hA := pair_list_codes_two_lowercase (stored_efli sim) hf
      by_cases h2 : (stored_efli sim).take 2 = [0xff, 0xff]
      · rw [if_pos h2] at hcode
        exact hB code hcode
      · rw [if_neg h2] at hcode
        simp only [merge_codes, List.mem_append, List.mem_filter] at hcode
        rcases hcode with h | ⟨h, -⟩
        · exact hA code h
        · exact hB code h
    · rw [if_neg hf] at hcode
      simp only [merge_codes, List.mem_append, List.mem_filter] at hcode
      rcases hcode with h | ⟨h, -⟩
      · exact hB code h
      · exact hL code h
  · intro hnone hall hok
    have hs : stored_efli sim = [] := by
      unfold stored_efli
      rw [hnone]
    rw [hs, if_pos hok] at hall
    have he : resolve_languages c [] (pair_list_codes data) = pair_list_codes data := by
      simp [resolve_languages, pair_list_format, pair_list_codes, merge_codes]
    rw [he] at hall
    exact (taken_pairs_alphabetic_iff data).mpr hall

theorem language_prefs_two_lowercase_witness :
    taken_pairs_alphabetic [0x80, 0x41, 0x66, 0x72] = true ∧
    ∃ result,
      (sim_efpl_read_cb accepting_collaborators
        (sim_efli_read_cb (ofono_sim_create full_driver) true [0x45, 0x4e, 0xff, 0xff])
        true [0x80, 0x41, 0x66, 0x72]).map (fun r => r.1.language_prefs.getD []) =
          some result ∧
      result = ["en", "fr"] ∧
      ∀ code ∈ result, two_lowercase_letters code :=
  have h := language_prefs_two_lowercase accepting_collaborators
    (sim_efli_read_cb (ofono_sim_create full_driver) true [0x45, 0x4e, 0xff, 0xff])
    [0x80, 0x41, 0x66, 0x72] true (by show (4 : Nat) % 2 ^ 8 ≤ 4; decide) (by decide)
    (by
      intro b code h
      simp only [accepting_collaborators] at h
      split_ifs at h <;> simp at h <;> subst h <;> decide)
  ⟨by decide,
    match h with
    | ⟨result, h1, h2, _⟩ =>
      ⟨result, h1,
        Option.some.inj (h1.symm.trans (by decide)),
        h2 (fun _ => by decide)⟩⟩

/-- C14: `numbers_list_equal` holds exactly when the two lists have the same
length and agree, position by position, on number text and type.  On the
final record of a subscriber-number read, when the newly assembled list equals
the cached one the cached list is left as it is and nothing is notified; when
it differs the cached list is replaced by the new one and exactly one
SubscriberNumbers notification is emitted. -/
theorem sim_msisdn_read_cb_final_record (c : Collaborators) (sim : ofono_sim)
    (length record_length : Nat) (data : List Nat)
    (h14 : 14 ≤ record_length) (hlen : record_length ≤ length) :
    (∀ a b : List ofono_phone_number,
      numbers_list_equal a b = true ↔
        List.Forall₂ (fun x y => x.number = y.number ∧ x.type = y.type) a b) ∧
    (numbers_list_equal (assembled_numbers c sim data record_length) sim.own_numbers = true →
      (sim_msisdn_read_cb c sim true length (length / record_length) data
        record_length).1.own_numbers = sim.own_numbers ∧
      (sim_msisdn_read_cb c sim true length (length / record_length) data
        record_length).2 = []) ∧
    (numbers_list_equal (assembled_numbers c sim data record_length) sim.own_numbers = false →
      (sim_msisdn_read_cb c sim true length (length / record_length) data
        record_length).1.own_numbers = assembled_numbers c sim data record_length ∧
      (sim_msisdn_read_cb c sim true length (length / record_length) data
        record_length).2 =
        [Call.signal_array_property_changed "SubscriberNumbers"
          ((assembled_numbers c sim data record_length).map c.phone_number_to_string)]) := by
  have hg : ¬ (record_length < 14 ∨ length < record_length) := by omega
  refine ⟨fun a b => ?_, ?_, ?_⟩
  · rw [numbers_list_equal_iff_eq, forall₂_number_type_iff_eq]
  · intro h
    unfold assembled_numbers at h
    unfold sim_msisdn_read_cb sim_msisdn_read_cb_check
    cases hp : c.sim_adn_parse data record_length with
    | none =>
      rw [hp] at h
      simp only [] at h
      simp [hg, h]
    | some r =>
      obtain ⟨ph, alpha⟩ := r
      rw [hp] at h
      simp only [List.reverse_cons] at h
      simp [hg, h]
  · intro h
    unfold assembled_numbers at h ⊢
    unfold sim_msisdn_read_cb sim_msisdn_read_cb_check
    cases hp : c.sim_adn_parse data record_length with
    | none =>
      rw [hp] at h
      simp only [] at h
      simp [hg, h, get_own_numbers]
    | some r =>
      obtain ⟨ph, alpha⟩ := r
      rw [hp] at h
      simp only [List.reverse_cons] at h
      simp [hg, h, get_own_numbers]

theorem sim_msisdn_read_cb_final_record_witness :
    (sim_msisdn_read_cb accepting_collaborators
        { ofono_sim_create full_driver with
          own_numbers := [⟨"A", 129⟩, ⟨"B", 129⟩], new_numbers := [⟨"A", 129⟩] }
        true 28 2 [0x42, 0] 14).1.own_numbers = [⟨"A", 129⟩, ⟨"B", 129⟩] ∧
    (sim_msisdn_read_cb accepting_collaborators
        { ofono_sim_create full_driver with
          own_numbers := [⟨"A", 129⟩, ⟨"B", 129⟩], new_numbers := [⟨"A", 129⟩] }
        true 28 2 [0x42, 0] 14).2 = [] ∧
    (sim_msisdn_read_cb accepting_collaborators
        { ofono_sim_create full_driver with
          own_numbers := [⟨"B", 129⟩, ⟨"A", 129⟩], new_numbers := [⟨"A", 129⟩] }
        true 28 2 [0x42, 0] 14).1.own_numbers = [⟨"A", 129⟩, ⟨"B", 129⟩] ∧
    (sim_msisdn_read_cb accepting_collaborators
        { ofono_sim_create full_driver with
          own_numbers := [⟨"B", 129⟩, ⟨"A", 129⟩], new_numbers := [⟨"A", 129⟩] }
        true 28 2 [0x42, 0] 14).2 =
      [Call.signal_array_property_changed "SubscriberNumbers" ["A", "B"]] :=
  have h1 := (sim_msisdn_read_cb_final_record accepting_collaborators
    { ofono_sim_create full_driver with
      own_numbers := [⟨"A", 129⟩, ⟨"B", 129⟩], new_numbers := [⟨"A", 129⟩] }
    28 14 [0x42, 0] (by decide) (by decide)).2.1 (by decide)
  have h2 := (sim_msisdn_read_cb_final_record accepting_collaborators
    { ofono_sim_create full_driver with
      own_numbers := [⟨"B", 129⟩, ⟨"A", 129⟩], new_numbers := [⟨"A", 129⟩] }
    28 14 [0x42, 0] (by decide) (by decide)).2.2 (by decide)
  ⟨h1.1, h1.2, h2.1, h2.2⟩

/-- C15: for a card of `efmsisdn_records` records of `efmsisdn_length` bytes
(at least 14, the length of a number record without identifier) and every list
of supplied numbers that fits the card, `set_own_numbers` returns TRUE after
issuing exactly one write for each record 1, 2, .. in increasing order: write
`i + 1` carries the encoding of the supplied number at position `i` when there
is one, and the cleared record (all bytes 0xFF except a 1 at offset
`efmsisdn_length - 14`) otherwise.  No other write follows. -/
theorem set_own_numbers_one_write_per_record (c : Collaborators) (sim : ofono_sim)
    (numbers : List ofono_phone_number) (msg : DBusMessage)
    (h14 : 14 ≤ sim.efmsisdn_length) (hn : numbers.length ≤ sim.efmsisdn_records) :
    ∃ req tail,
      set_own_numbers c sim numbers msg =
        some (true, req, expected_writes c sim numbers ++ tail) ∧
      (∀ call ∈ tail, ∀ id ty record data length cb,
        call ≠ Call.sim_fs_write id ty record data length cb) ∧
      (expected_writes c sim numbers).length = sim.efmsisdn_records ∧
      ∀ i, i < sim.efmsisdn_records →
        (expected_writes c sim numbers)[i]? =
          some (Call.sim_fs_write sim_file_id.SIM_EFMSISDN_FILEID
            ofono_sim_file_structure.FIXED (i + 1)
            (match numbers[i]? with
              | some number => c.sim_adn_build sim.efmsisdn_length number
              | none => cleared_record sim.efmsisdn_length)
            sim.efmsisdn_length Callback.msisdn_set_cb) := by
  have hlen := expected_writes_length c sim numbers
  have hget : ∀ i, i < sim.efmsisdn_records →
      (expected_writes c sim numbers)[i]? =
        some (Call.sim_fs_write sim_file_id.SIM_EFMSISDN_FILEID
          ofono_sim_file_structure.FIXED (i + 1)
          (match numbers[i]? with
            | some number => c.sim_adn_build sim.efmsisdn_length number
            | none => cleared_record sim.efmsisdn_length)
          sim.efmsisdn_length Callback.msisdn_set_cb) := by
    intro i hi
    simp [expected_writes, record_write, hi]
  rw [set_own_numbers_eq c sim numbers msg h14 hn]
  by_cases hk : (expected_writes c sim numbers).countP (write_queued c) = 0
  · rw [if_pos hk]
    refine ⟨_, _, rfl, ?_, hlen, hget⟩
    intro call hcall
    simp only [msisdn_set_done, sim_own_numbers_update, List.mem_cons, List.mem_singleton,
      List.not_mem_nil, or_false] at hcall
    rcases hcall with rfl | rfl <;> intros <;> simp
  · rw [if_neg hk]
    refine ⟨_, [], by rw [List.append_nil], ?_, hlen, hget⟩
    intro call hcall
    exact absurd hcall (List.not_mem_nil _)

theorem set_own_numbers_one_write_per_record_witness :
    (∃ req tail,
      set_own_numbers accepting_collaborators
          { ofono_sim_create full_driver with efmsisdn_length := 14, efmsisdn_records := 3 }
          [⟨"1", 129⟩, ⟨"2", 129⟩] ⟨1, []⟩ =
        some (true, req,
          expected_writes accepting_collaborators
            { ofono_sim_create full_driver with efmsisdn_length := 14, efmsisdn_records := 3 }
            [⟨"1", 129⟩, ⟨"2", 129⟩] ++ tail)) ∧
    expected_writes accepting_collaborators
        { ofono_sim_create full_driver with efmsisdn_length := 14, efmsisdn_records := 3 }
        [⟨"1", 129⟩, ⟨"2", 129⟩] =
      [ Call.sim_fs_write sim_file_id.SIM_EFMSISDN_FILEID ofono_sim_file_structure.FIXED 1
          (List.replicate 14 0xff) 14 Callback.msisdn_set_cb,
        Call.sim_fs_write sim_file_id.SIM_EFMSISDN_FILEID ofono_sim_file_structure.FIXED 2
          (List.replicate 14 0xff) 14 Callback.msisdn_set_cb,
        Call.sim_fs_write sim_file_id.SIM_EFMSISDN_FILEID ofono_sim_file_structure.FIXED 3
          [1, 0xff, 0xff, 0xff, 0xff, 0xff, 0xff, 0xff, 0xff, 0xff, 0xff, 0xff, 0xff, 0xff]
          14 Callback.msisdn_set_cb ] :=
  have h := set_own_numbers_one_write_per_record accepting_collaborators
    { ofono_sim_create full_driver with efmsisdn_length := 14, efmsisdn_records := 3 }
    [⟨"1", 129⟩, ⟨"2", 129⟩] ⟨1, []⟩ (by decide) (by decide)
  ⟨by
      obtain ⟨req, tail, h1, -⟩ := h
      exact ⟨req, tail, h1⟩,
    by decide⟩

/-- C16: a set-numbers request on a card of record length at least 14,
followed by write responses, one for each of the `k` writes the file client
queued, in whatever order they report success or failure.  All the writes are
issued first, whether or not an earlier one could be queued; nothing is sent
while fewer than `k` responses have come; the `k`-th response sends the one
reply, a success exactly when every write was queued and every response
reported success, and then issues the re-read of the subscriber numbers. -/
theorem set_numbers_reply_after_last_response (c : Collaborators) (sim : ofono_sim)
    (numbers : List ofono_phone_number) (msg : DBusMessage) (oks : List Bool)
    (h14 : 14 ≤ sim.efmsisdn_length) (hn : numbers.length ≤ sim.efmsisdn_records)
    (hk : oks.length ≤ (expected_writes c sim numbers).countP (write_queued c)) :
    set_numbers_with_responses c sim numbers msg oks =
      some (expected_writes c sim numbers ++
        if oks.length = (expected_writes c sim numbers).countP (write_queued c) then
          [ Call.g_dbus_send_message (some msg)
              (if (expected_writes c sim numbers).countP (write_queued c) =
                    sim.efmsisdn_records ∧ oks.all (fun ok => ok) = true
                then Reply.method_return else Reply.error_failed),
            Call.sim_fs_read sim_file_id.SIM_EFMSISDN_FILEID ofono_sim_file_structure.FIXED
              0 0 Callback.sim_msisdn_read_cb ]
        else []) := by
  have hsum := countP_queued_add c (expected_writes c sim numbers)
  rw [expected_writes_length] at hsum
  have hall := countP_not_eq_zero_iff_all oks
  unfold set_numbers_with_responses
  rw [set_own_numbers_eq c sim numbers msg h14 hn]
  by_cases h0 : (expected_writes c sim numbers).countP (write_queued c) = 0
  · have hoks : oks = [] := List.length_eq_zero.mp (by omega)
    subst hoks
    rw [if_pos h0]
    simp only [msisdn_set_responses, List.append_nil, List.length_nil, h0, if_true,
      msisdn_set_done, sim_own_numbers_update, List.all_nil, and_true]
    by_cases hf : sim.efmsisdn_records = 0
    · have : (expected_writes c sim numbers).countP (fun call => !write_queued c call) = 0 := by
        omega
      simp [hf, this]
    · have : ¬ (expected_writes c sim numbers).countP
          (fun call => !write_queued c call) = 0 := by omega
      have hf2 : ¬ 0 = sim.efmsisdn_records := fun e => hf e.symm
      simp [hf2, this]
  · rw [if_neg h0]
    simp only []
    rw [msisdn_set_responses_eq oks _
      (by
        show (0 : Int) < (((expected_writes c sim numbers).countP (write_queued c) : Nat) : Int)
        omega)
      (by
        show (oks.length : Int) ≤
          (((expected_writes c sim numbers).countP (write_queued c) : Nat) : Int)
        omega)]
    by_cases hl : oks.length = (expected_writes c sim numbers).countP (write_queued c)
    · have hl2 : (oks.length : Int) =
          (((expected_writes c sim numbers).countP (write_queued c) : Nat) : Int) := by omega
      rw [if_pos hl2, if_pos hl]
      simp only [msisdn_set_done, sim_own_numbers_update]
      by_cases hs : (expected_writes c sim numbers).countP (write_queued c) =
          sim.efmsisdn_records ∧ oks.all (fun ok => ok) = true
      · have h1 : (expected_writes c sim numbers).countP
            (fun call => !write_queued c call) = 0 := by omega
        have h2 : oks.countP (fun ok => !ok) = 0 := hall.mpr hs.2
        simp [hs, h1, h2]
      · have h3 : ¬ ((((expected_writes c sim numbers).countP
            (fun call => !write_queued c call) : Nat) : Int) +
            ((oks.countP (fun ok => !ok) : Nat) : Int) = 0) := by
          intro h
          apply hs
          refine ⟨by omega, hall.mp (by omega)⟩
        rw [if_neg hs, if_pos h3]
    · have hl2 : ¬ (oks.length : Int) =
          (((expected_writes c sim numbers).countP (write_queued c) : Nat) : Int) := by omega
      rw [if_neg hl2, if_neg hl]

theorem set_numbers_reply_after_last_response_witness :
    set_numbers_with_responses accepting_collaborators
        { ofono_sim_create full_driver with efmsisdn_length := 14, efmsisdn_records := 3 }
        [⟨"1", 129⟩, ⟨"2", 129⟩] ⟨1, []⟩ [true, false] =
      some (expected_writes accepting_collaborators
        { ofono_sim_create full_driver with efmsisdn_length := 14, efmsisdn_records := 3 }
        [⟨"1", 129⟩, ⟨"2", 129⟩]) ∧
    set_numbers_with_responses accepting_collaborators
        { ofono_sim_create full_driver with efmsisdn_length := 14, efmsisdn_records := 3 }
        [⟨"1", 129⟩, ⟨"2", 129⟩] ⟨1, []⟩ [true, false, true] =
      some (expected_writes accepting_collaborators
        { ofono_sim_create full_driver with efmsisdn_length := 14, efmsisdn_records := 3 }
        [⟨"1", 129⟩, ⟨"2", 129⟩] ++
        [ Call.g_dbus_send_message (some ⟨1, []⟩) Reply.error_failed,
          Call.sim_fs_read sim_file_id.SIM_EFMSISDN_FILEID ofono_sim_file_structure.FIXED
            0 0 Callback.sim_msisdn_read_cb ]) ∧
    set_numbers_with_responses accepting_collaborators
        { ofono_sim_create full_driver with efmsisdn_length := 14, efmsisdn_records := 3 }
        [⟨"1", 129⟩, ⟨"2", 129⟩] ⟨1, []⟩ [true, true, true] =
      some (expected_writes accepting_collaborators
        { ofono_sim_create full_driver with efmsisdn_length := 14, efmsisdn_records := 3 }
        [⟨"1", 129⟩, ⟨"2", 129⟩] ++
        [ Call.g_dbus_send_message (some ⟨1, []⟩) Reply.method_return,
          Call.sim_fs_read sim_file_id.SIM_EFMSISDN_FILEID ofono_sim_file_structure.FIXED
            0 0 Callback.sim_msisdn_read_cb ]) :=
  ⟨(set_numbers_reply_after_last_response accepting_collaborators
      { ofono_sim_create full_driver with efmsisdn_length := 14, efmsisdn_records := 3 }
      [⟨"1", 129⟩, ⟨"2", 129⟩] ⟨1, []⟩ [true, false]
      (by decide) (by decide) (by decide)).trans (by decide),
    (set_numbers_reply_after_last_response accepting_collaborators
      { ofono_sim_create full_driver with efmsisdn_length := 14, efmsisdn_records := 3 }
      [⟨"1", 129⟩, ⟨"2", 129⟩] ⟨1, []⟩ [true, false, true]
      (by decide) (by decide) (by decide)).trans (by decide),
    (set_numbers_reply_after_last_response accepting_collaborators
      { ofono_sim_create full_driver with efmsisdn_length := 14, efmsisdn_records := 3 }
      [⟨"1", 129⟩, ⟨"2", 129⟩] ⟨1, []⟩ [true, true, true]
      (by decide) (by decide) (by decide)).trans (by decide)⟩

/-- C17: one read of the service directory delivering the records of the file
in order, on a session whose list is empty.  The list `sim_sdn_read_cb`
assembles holds, in record order, exactly the parsable records whose
identifier (the alphanumeric identifier, or the formatted number when that is
empty or absent) does not equal the identifier of an earlier kept record: a
later record with the same identifier is dropped, the identifiers of the list
are pairwise distinct, and the list is notified once, with the last record. -/
theorem sim_sdn_read_cb_keeps_first_identifiers (c : Collaborators) (sim : ofono_sim)
    (length record_length : Nat) (records : List (List Nat))
    (h14 : 14 ≤ record_length) (hlen : record_length ≤ length)
    (hrec : records.length = length / record_length) (hs : sim.service_numbers = []) :
    (sdn_read c length record_length sim 1 records).1.service_numbers =
      keep_first_identifiers [] (records.filterMap (sdn_entry c record_length)) ∧
    (sdn_read c length record_length sim 1 records).2 =
      (if keep_first_identifiers [] (records.filterMap (sdn_entry c record_length)) = []
        then []
        else [Call.signal_dict_property_changed "ServiceNumbers"
          (get_service_numbers c
            (keep_first_identifiers [] (records.filterMap (sdn_entry c record_length))))]) ∧
    ((keep_first_identifiers [] (records.filterMap (sdn_entry c record_length))).map
      (fun e => e.id)).Nodup ∧
    (keep_first_identifiers [] (records.filterMap (sdn_entry c record_length))).Sublist
      (records.filterMap (sdn_entry c record_length)) ∧
    (∀ e ∈ records.filterMap (sdn_entry c record_length),
      ∃ k ∈ keep_first_identifiers [] (records.filterMap (sdn_entry c record_length)),
        k.id = e.id) := by
  have hpos : 0 < length / record_length := Nat.div_pos hlen (by omega)
  have hne : records ≠ [] := by
    intro h
    rw [h] at hrec
    simp at hrec
    omega
  have h := sdn_read_eq c length record_length h14 hlen records sim [] 1 hne
    (by omega) (by simpa using hs)
  rw [h, foldl_sdn_step_eq]
  refine ⟨?_, ?_, keep_first_identifiers_nodup _ [] (by simp), ?_, ?_⟩
  · unfold sim_sdn_read_cb_check
    by_cases he : keep_first_identifiers [] (records.filterMap (sdn_entry c record_length)) = []
    · simp [he]
    · simp [he]
  · unfold sim_sdn_read_cb_check
    by_cases he : keep_first_identifiers [] (records.filterMap (sdn_entry c record_length)) = []
    · simp [he]
    · simp [he]
  · obtain ⟨added, h1, h2⟩ := keep_first_identifiers_sublist
      (records.filterMap (sdn_entry c record_length)) []
    rw [h1]
    simpa using h2
  · intro e he
    exact keep_first_identifiers_cover _ [] e (by simpa using he)

theorem sim_sdn_read_cb_keeps_first_identifiers_witness :
    (sdn_read accepting_collaborators 42 14 (ofono_sim_create full_driver) 1
        [[0x31, 0x41], [0x32, 0x41], [0x33, 0]]).1.service_numbers =
      [⟨"A", ⟨"1", 129⟩⟩, ⟨"3", ⟨"3", 129⟩⟩] ∧
    (sdn_read accepting_collaborators 42 14 (ofono_sim_create full_driver) 1
        [[0x31, 0x41], [0x32, 0x41], [0x33, 0]]).2 =
      [Call.signal_dict_property_changed "ServiceNumbers" ["A", "1", "3", "3"]] :=
  have h := sim_sdn_read_cb_keeps_first_identifiers accepting_collaborators
    (ofono_sim_create full_driver) 42 14 [[0x31, 0x41], [0x32, 0x41], [0x33, 0]]
    (by decide) (by decide) (by decide) rfl
  ⟨h.1.trans (by decide), h.2.1.trans (by decide)⟩

/-- C19: the session state changes only by insertion, readiness and removal.
An insertion notification moves NOT_PRESENT to INSERTED and does nothing in
the two other states; a removal notification moves INSERTED and READY to
NOT_PRESENT and does nothing in NOT_PRESENT; `sim_set_ready`, on a registered
session, moves INSERTED to READY and does nothing in the two other states; and
every handler of a presence notification or of a completion leaves the state
as it was or makes one of these changes, so READY is never entered from
NOT_PRESENT and never left for INSERTED. -/
theorem session_state_transitions (c : Collaborators) (sim : ofono_sim) :
    (sim.state = ofono_sim_state.NOT_PRESENT →
      (ofono_sim_inserted_notify sim true).1.state = ofono_sim_state.INSERTED) ∧
    (sim.state ≠ ofono_sim_state.NOT_PRESENT →
      ofono_sim_inserted_notify sim true = (sim, [])) ∧
    (sim.state ≠ ofono_sim_state.NOT_PRESENT →
      (ofono_sim_inserted_notify sim false).1.state = ofono_sim_state.NOT_PRESENT) ∧
    (sim.state = ofono_sim_state.NOT_PRESENT →
      ofono_sim_inserted_notify sim false = (sim, [])) ∧
    (sim.state = ofono_sim_state.INSERTED → sim.atom_registered = true →
      (sim_set_ready sim).map (fun r => r.1) =
        some { sim with state := ofono_sim_state.READY }) ∧
    (sim.state ≠ ofono_sim_state.INSERTED → sim_set_ready sim = some (sim, [])) ∧
    (∀ e r, handle c sim e = some r →
      (r.1.state = sim.state ∨ (sim.state, r.1.state) ∈ allowed_transitions) ∧
      (sim.state = ofono_sim_state.NOT_PRESENT → r.1.state ≠ ofono_sim_state.READY) ∧
      (sim.state = ofono_sim_state.READY → r.1.state ≠ ofono_sim_state.INSERTED)) := by
  refine ⟨?_, ?_, ?_, ?_, ?_, ?_, ?_⟩
  · intro h
    rw [ofono_sim_inserted_notify_state]
    simp [h]
  · intro h
    unfold ofono_sim_inserted_notify
    simp [h]
  · intro h
    rw [ofono_sim_inserted_notify_state]
    simp [h]
  · intro h
    unfold ofono_sim_inserted_notify
    simp [h]
  · intro h hreg
    unfold sim_set_ready
    simp [h, hreg]
  · intro h
    unfold sim_set_ready
    simp [h]
  · intro e r h
    have hs := handle_state c sim e r h
    refine ⟨hs, ?_, ?_⟩
    · intro h0 h1
      rw [h0, h1] at hs
      simp [allowed_transitions] at hs
    · intro h0 h1
      rw [h0, h1] at hs
      simp [allowed_transitions] at hs

/-- C20 (defect of `sim_free_state`): a removal notification on a registered
session that holds a card leaves the state NOT_PRESENT and gives the identity,
the network codes, the service-table buffers, the dialing flags, the number
lists, the language preferences and the icon table their values of a fresh
session, but it leaves the phase, the CPHS phase and service table, the ready
flag of the service directory, the required password kind, the locked-PIN set
and the retry table as they were.  On a session brought to READY, the phase,
the CPHS phase, the CPHS service table and the ready flag differ after the
removal from those of a fresh session. -/
theorem removal_keeps_phase_and_ready_flag :
    (∀ sim : ofono_sim, sim.atom_registered = true →
      sim.state ≠ ofono_sim_state.NOT_PRESENT →
      ((ofono_sim_inserted_notify sim false).1.state = ofono_sim_state.NOT_PRESENT ∧
        (ofono_sim_inserted_notify sim false).1.iccid = (ofono_sim_create sim.driver).iccid ∧
        (ofono_sim_inserted_notify sim false).1.imsi = (ofono_sim_create sim.driver).imsi ∧
        (ofono_sim_inserted_notify sim false).1.mcc = (ofono_sim_create sim.driver).mcc ∧
        (ofono_sim_inserted_notify sim false).1.mnc = (ofono_sim_create sim.driver).mnc ∧
        (ofono_sim_inserted_notify sim false).1.mnc_length =
          (ofono_sim_create sim.driver).mnc_length ∧
        (ofono_sim_inserted_notify sim false).1.efust = (ofono_sim_create sim.driver).efust ∧
        (ofono_sim_inserted_notify sim false).1.efest = (ofono_sim_create sim.driver).efest ∧
        (ofono_sim_inserted_notify sim false).1.efsst = (ofono_sim_create sim.driver).efsst ∧
        (ofono_sim_inserted_notify sim false).1.fixed_dialing =
          (ofono_sim_create sim.driver).fixed_dialing ∧
        (ofono_sim_inserted_notify sim false).1.barred_dialing =
          (ofono_sim_create sim.driver).barred_dialing ∧
        (ofono_sim_inserted_notify sim false).1.own_numbers =
          (ofono_sim_create sim.driver).own_numbers ∧
        (ofono_sim_inserted_notify sim false).1.service_numbers =
          (ofono_sim_create sim.driver).service_numbers ∧
        (ofono_sim_inserted_notify sim false).1.language_prefs =
          (ofono_sim_create sim.driver).language_prefs ∧
        (ofono_sim_inserted_notify sim false).1.efimg = (ofono_sim_create sim.driver).efimg) ∧
      ((ofono_sim_inserted_notify sim false).1.phase = sim.phase ∧
        (ofono_sim_inserted_notify sim false).1.cphs_phase = sim.cphs_phase ∧
        (ofono_sim_inserted_notify sim false).1.cphs_service_table = sim.cphs_service_table ∧
        (ofono_sim_inserted_notify sim false).1.sdn_ready = sim.sdn_ready ∧
        (ofono_sim_inserted_notify sim false).1.pin_type = sim.pin_type ∧
        (ofono_sim_inserted_notify sim false).1.locked_pins = sim.locked_pins ∧
        (ofono_sim_inserted_notify sim false).1.pin_retries = sim.pin_retries)) ∧
    (∃ r, run accepting_collaborators ⟨ofono_sim_create driver_without_passwd_query, []⟩
        ready_session_events = some r ∧
      r.sim.atom_registered = true ∧ r.sim.state = ofono_sim_state.READY ∧
      (ofono_sim_inserted_notify r.sim false).1.state = ofono_sim_state.NOT_PRESENT ∧
      (ofono_sim_inserted_notify r.sim false).1.phase = ofono_sim_phase.PHASE_3G ∧
      (ofono_sim_create r.sim.driver).phase = ofono_sim_phase.PHASE_UNKNOWN ∧
      (ofono_sim_inserted_notify r.sim false).1.cphs_phase =
        ofono_sim_cphs_phase.CPHS_PHASE_2G ∧
      (ofono_sim_create r.sim.driver).cphs_phase = ofono_sim_cphs_phase.CPHS_PHASE_NONE ∧
      (ofono_sim_inserted_notify r.sim false).1.cphs_service_table = [0x0f, 0x3c] ∧
      (ofono_sim_create r.sim.driver).cphs_service_table = [0, 0] ∧
      (ofono_sim_inserted_notify r.sim false).1.sdn_ready = true ∧
      (ofono_sim_create r.sim.driver).sdn_ready = false) := by
  constructor
  · intro sim hreg hs
    have h : ofono_sim_inserted_notify sim false =
        (sim_free_state { sim with state := ofono_sim_state.NOT_PRESENT },
          sim_inserted_update { sim with state := ofono_sim_state.NOT_PRESENT } ++
            [Call.notify_state_watches ofono_sim_state.NOT_PRESENT] ++
            sim_ready ofono_sim_state.NOT_PRESENT) := by
      unfold ofono_sim_inserted_notify
      simp [hs, hreg]
    rw [h]
    exact ⟨⟨rfl, rfl, rfl, rfl, rfl, rfl, rfl, rfl, rfl, rfl, rfl, rfl, rfl, rfl, rfl⟩,
      rfl, rfl, rfl, rfl, rfl, rfl, rfl⟩
  · refine ⟨_, rfl, ?_⟩
    decide

/-- C18 (defect of `sim_free_state`): the service directory is exposed before
the final record of the read for the inserted card.  A first card whose
directory has one record is brought to READY and removed, which empties the
list and leaves `sdn_ready` set; a second card is brought to READY and the
first of the two records of its directory is processed: the read still awaits
its second record, and `sim_get_properties` carries ServiceNumbers with that
one entry.  On a session whose `sdn_ready` is clear, a record that is not the
final one leaves it clear and notifies nothing. -/
theorem service_numbers_exposed_before_final_record :
    (∃ r, run accepting_collaborators ⟨ofono_sim_create driver_without_passwd_query, []⟩
        second_card_events = some r ∧
      r.sim.state = ofono_sim_state.READY ∧
      Callback.sim_sdn_read_cb ∈ r.outstanding ∧
      (sim_get_properties accepting_collaborators r.sim).map
          (fun l => l.lookup "ServiceNumbers") =
        some (some (Property.string_dict ["B", "2"]))) ∧
    (∀ sim : ofono_sim, (sim_free_state sim).sdn_ready = sim.sdn_ready) ∧
    (∀ (c : Collaborators) (sim : ofono_sim) (length record record_length : Nat)
      (data : List Nat), sim.sdn_ready = false → record ≠ length / record_length →
      (sim_sdn_read_cb c sim true length record data record_length).1.sdn_ready = false ∧
      (sim_sdn_read_cb c sim true length record data record_length).2 = []) := by
  refine ⟨⟨_, rfl, ?_⟩, fun _ => rfl, ?_⟩
  · decide
  · intro c sim length record record_length data hready hrec
    unfold sim_sdn_read_cb
    simp only [Bool.true_eq_false, if_false, hrec, ne_eq, not_false_eq_true, if_true]
    split_ifs
    · exact ⟨hready, rfl⟩
    · constructor
      · split
        · exact hready
        · simp only
          split_ifs <;> exact hready
      · rfl

/-- C23: a get-icon request whose index is 0 is rejected at once with the
invalid-arguments error, whatever the session holds (a pending request, no
icon table): no call is made on any collaborator, so no file is read and the
image cache is not consulted, and the session, its pending slot included, is
left as it was. -/
theorem sim_get_icon_index_zero_rejected (c : Collaborators) (sim : ofono_sim)
    (msg : DBusMessage) (h : dbus_message_get_args_y msg = some 0) :
    sim_get_icon c sim msg = some ⟨sim, some Reply.error_invalid_args, []⟩ := by
  unfold sim_get_icon
  rw [h]
  rfl

theorem sim_get_icon_index_zero_rejected_witness :
    dbus_message_get_args_y ⟨7, [DBusArg.byte 0]⟩ = some 0 ∧
    sim_get_icon accepting_collaborators
        { ofono_sim_create full_driver with efimg := some (List.replicate 9 0), efimg_length := 9 }
        ⟨7, [DBusArg.byte 0]⟩ =
      some ⟨{ ofono_sim_create full_driver with
          efimg := some (List.replicate 9 0), efimg_length := 9 },
        some Reply.error_invalid_args, []⟩ :=
  ⟨rfl, sim_get_icon_index_zero_rejected accepting_collaborators
    { ofono_sim_create full_driver with efimg := some (List.replicate 9 0), efimg_length := 9 }
    ⟨7, [DBusArg.byte 0]⟩ rfl⟩

/-- C25 fails as stated: a phase read that delivers the single byte 4, which
is no phase value, is malformed in its content, yet `sim_efphase_read_cb` does
not set the phase to 3G and issues no read of a service table: it returns with
the session unchanged. -/
theorem sim_efphase_read_cb_unknown_phase_byte :
    sim_efphase_read_cb (ofono_sim_create full_driver) true [4] =
      (ofono_sim_create full_driver, []) ∧
    (ofono_sim_create full_driver).phase = ofono_sim_phase.PHASE_UNKNOWN := by
  decide

/-- C25, amended: `sim_efphase_read_cb` on a failed read, and on a read that
did not deliver exactly one byte, sets the phase to 3G and issues the read of
the USIM service table EFust and nothing else; on the single byte 0, 2 or 3 it
sets the phase to 1G, 2G or 2G+ and issues the read of the SIM service table
EFsst and nothing else; on a single byte with any other value it changes
nothing and issues no read. -/
theorem sim_efphase_read_cb_phase_and_read (sim : ofono_sim) (data : List Nat) :
    sim_efphase_read_cb sim false data =
      ({ sim with phase := ofono_sim_phase.PHASE_3G },
        [Call.sim_fs_read sim_file_id.SIM_EFUST_FILEID ofono_sim_file_structure.TRANSPARENT 0 0
          Callback.sim_efust_read_cb]) ∧
    (data.length ≠ 1 →
      sim_efphase_read_cb sim true data =
        ({ sim with phase := ofono_sim_phase.PHASE_3G },
          [Call.sim_fs_read sim_file_id.SIM_EFUST_FILEID ofono_sim_file_structure.TRANSPARENT
            0 0 Callback.sim_efust_read_cb])) ∧
    sim_efphase_read_cb sim true [0] =
      ({ sim with phase := ofono_sim_phase.PHASE_1G },
        [Call.sim_fs_read sim_file_id.SIM_EFSST_FILEID ofono_sim_file_structure.TRANSPARENT 0 0
          Callback.sim_efsst_read_cb]) ∧
    sim_efphase_read_cb sim true [2] =
      ({ sim with phase := ofono_sim_phase.PHASE_2G },
        [Call.sim_fs_read sim_file_id.SIM_EFSST_FILEID ofono_sim_file_structure.TRANSPARENT 0 0
          Callback.sim_efsst_read_cb]) ∧
    sim_efphase_read_cb sim true [3] =
      ({ sim with phase := ofono_sim_phase.PHASE_2G_PLUS },
        [Call.sim_fs_read sim_file_id.SIM_EFSST_FILEID ofono_sim_file_structure.TRANSPARENT 0 0
          Callback.sim_efsst_read_cb]) ∧
    (∀ b : Nat, b ≠ 0 → b ≠ 2 → b ≠ 3 → sim_efphase_read_cb sim true [b] = (sim, [])) := by
  refine ⟨?_, ?_, rfl, rfl, rfl, ?_⟩
  · unfold sim_efphase_read_cb
    simp
  · intro h
    unfold sim_efphase_read_cb
    simp [h]
  · intro b h0 h2 h3
    rcases b with _ | _ | _ | _ | n
    · exact absurd rfl h0
    · rfl
    · exact absurd rfl h2
    · exact absurd rfl h3
    · rfl

/-- C22 fails as stated: on a card whose SIM service table marks fixed dialing
active, `sim_efsst_read_cb` asks for the file information of EFadn; when that
read succeeds with the validity flag set, `fixed_dialing` stays false and the
IMSI is retrieved, and when it succeeds with the flag clear, `fixed_dialing`
becomes true and the IMSI is not retrieved. -/
theorem fixed_dialing_set_by_cleared_flag :
    sim_efsst_read_cb accepting_collaborators (ofono_sim_create full_driver) true [0x01, 0x00] =
      ({ ofono_sim_create full_driver with efsst := some [0x01, 0x00], efsst_length := 2 },
        [Call.sim_fs_read_info sim_file_id.SIM_EFADN_FILEID ofono_sim_file_structure.FIXED
          Callback.sim_efadn_info_read_cb]) ∧
    sim_efadn_info_read_cb accepting_collaborators
        { ofono_sim_create full_driver with efsst := some [0x01, 0x00], efsst_length := 2 }
        true 0x01 =
      ({ ofono_sim_create full_driver with efsst := some [0x01, 0x00], efsst_length := 2 },
        [Call.driver_read_imsi Callback.sim_imsi_cb]) ∧
    sim_efadn_info_read_cb accepting_collaborators
        { ofono_sim_create full_driver with efsst := some [0x01, 0x00], efsst_length := 2 }
        true 0x00 =
      ({ ofono_sim_create full_driver with
          efsst := some [0x01, 0x00], efsst_length := 2, fixed_dialing := true },
        [Call.signal_boolean_property_changed "FixedDialing" true]) := by
  decide

/-- C22, amended: on the legacy path, when the read of the SIM service table
succeeds with at least two bytes and the table marks fixed dialing active,
`sim_efsst_read_cb` stores the table and asks for the file information of
EFadn, and nothing else.  When that read succeeds with the validity flag of
the status byte clear, `fixed_dialing` becomes true, FixedDialing is notified
and the IMSI is not retrieved: the only further call is the file-information
read of EFbdn, made when the table marks barred dialing active.  When the flag
is set, or the read fails, the session is left as it was and bring-up goes on:
to the file-information read of EFbdn when the table marks barred dialing
active, and otherwise to the retrieval of the IMSI, provided neither
restriction flag is set and the driver can read the IMSI. -/
theorem sim_efadn_info_read_cb_fixed_dialing (c : Collaborators) (sim : ofono_sim)
    (data : List Nat) (file_status : Nat) (hlen : 2 ≤ data.length)
    (hfdn : c.sim_sst_is_active (some data) (data.length % 2 ^ 8) sim_sst_service.FDN = true) :
    sim_efsst_read_cb c sim true data =
      ({ sim with efsst := some data, efsst_length := data.length % 2 ^ 8 },
        [Call.sim_fs_read_info sim_file_id.SIM_EFADN_FILEID ofono_sim_file_structure.FIXED
          Callback.sim_efadn_info_read_cb]) ∧
    (file_status &&& SIM_FILE_STATUS_VALID = 0 →
      sim_efadn_info_read_cb c
          { sim with efsst := some data, efsst_length := data.length % 2 ^ 8 } true file_status =
        ({ sim with
            efsst := some data, efsst_length := data.length % 2 ^ 8, fixed_dialing := true },
          Call.signal_boolean_property_changed "FixedDialing" true ::
            if c.sim_sst_is_active (some data) (data.length % 2 ^ 8) sim_sst_service.BDN = true
            then
              [Call.sim_fs_read_info sim_file_id.SIM_EFBDN_FILEID ofono_sim_file_structure.FIXED
                Callback.sim_efbdn_info_read_cb]
            else [])) ∧
    (file_status &&& SIM_FILE_STATUS_VALID ≠ 0 →
      sim_efadn_info_read_cb c
          { sim with efsst := some data, efsst_length := data.length % 2 ^ 8 } true file_status =
        ({ sim with efsst := some data, efsst_length := data.length % 2 ^ 8 },
          if c.sim_sst_is_active (some data) (data.length % 2 ^ 8) sim_sst_service.BDN = true
          then
            [Call.sim_fs_read_info sim_file_id.SIM_EFBDN_FILEID ofono_sim_file_structure.FIXED
              Callback.sim_efbdn_info_read_cb]
          else if sim.fixed_dialing = false ∧ sim.barred_dialing = false ∧
              sim.driver.read_imsi = true then
            [Call.driver_read_imsi Callback.sim_imsi_cb]
          else [])) ∧
    sim_efadn_info_read_cb c
        { sim with efsst := some data, efsst_length := data.length % 2 ^ 8 } false file_status =
      ({ sim with efsst := some data, efsst_length := data.length % 2 ^ 8 },
        if c.sim_sst_is_active (some data) (data.length % 2 ^ 8) sim_sst_service.BDN = true
        then
          [Call.sim_fs_read_info sim_file_id.SIM_EFBDN_FILEID ofono_sim_file_structure.FIXED
            Callback.sim_efbdn_info_read_cb]
        else if sim.fixed_dialing = false ∧ sim.barred_dialing = false ∧
            sim.driver.read_imsi = true then
          [Call.driver_read_imsi Callback.sim_imsi_cb]
        else []) := by
  have h1 : sim_efsst_read_cb c sim true data =
      ({ sim with efsst := some data, efsst_length := data.length % 2 ^ 8 },
        [Call.sim_fs_read_info sim_file_id.SIM_EFADN_FILEID ofono_sim_file_structure.FIXED
          Callback.sim_efadn_info_read_cb]) := by
    unfold sim_efsst_read_cb
    rw [if_neg (by decide), if_neg (by omega)]
    simp only
    rw [if_pos hfdn]
  have hkeep : ∀ ok : Bool, (ok = true → file_status &&& SIM_FILE_STATUS_VALID ≠ 0) →
      sim_efadn_info_read_cb c
          { sim with efsst := some data, efsst_length := data.length % 2 ^ 8 } ok file_status =
        ({ sim with efsst := some data, efsst_length := data.length % 2 ^ 8 },
          if c.sim_sst_is_active (some data) (data.length % 2 ^ 8) sim_sst_service.BDN = true
          then
            [Call.sim_fs_read_info sim_file_id.SIM_EFBDN_FILEID ofono_sim_file_structure.FIXED
              Callback.sim_efbdn_info_read_cb]
          else if sim.fixed_dialing = false ∧ sim.barred_dialing = false ∧
              sim.driver.read_imsi = true then
            [Call.driver_read_imsi Callback.sim_imsi_cb]
          else []) := by
    intro ok hok
    unfold sim_efadn_info_read_cb check_bdn_status sim_retrieve_imsi
    have hr : (if ok = false then
          (({ sim with efsst := some data, efsst_length := data.length % 2 ^ 8 } : ofono_sim),
            ([] : List Call))
        else if file_status &&& SIM_FILE_STATUS_VALID = 0 then
          sim_fdn_enabled { sim with efsst := some data, efsst_length := data.length % 2 ^ 8 }
        else ({ sim with efsst := some data, efsst_length := data.length % 2 ^ 8 }, [])) =
        ({ sim with efsst := some data, efsst_length := data.length % 2 ^ 8 }, []) := by
      by_cases h : ok = false
      · rw [if_pos h]
      · rw [if_neg h, if_neg (hok (by simpa using h))]
    rw [hr]
    simp only
    generalize c.sim_sst_is_active (some data) (data.length % 2 ^ 8) sim_sst_service.BDN = bdn
    cases bdn <;> cases hfd : sim.fixed_dialing <;> cases hbd : sim.barred_dialing <;>
      cases hri : sim.driver.read_imsi <;> simp [hfd, hbd, hri]
  refine ⟨h1, ?_, ?_, ?_⟩
  · intro hflag
    unfold sim_efadn_info_read_cb check_bdn_status sim_fdn_enabled
    simp only [Bool.true_eq_false, if_false, hflag, if_true]
    generalize c.sim_sst_is_active (some data) (data.length % 2 ^ 8) sim_sst_service.BDN = bdn
    cases bdn <;> simp
  · intro hflag
    exact hkeep true (fun _ => hflag)
  · exact hkeep false (fun h => absurd h (by decide))

theorem sim_efadn_info_read_cb_fixed_dialing_witness :
    sim_efadn_info_read_cb accepting_collaborators
        { ofono_sim_create full_driver with efsst := some [0x01, 0x00], efsst_length := 2 }
        true 0x04 =
      ({ ofono_sim_create full_driver with
          efsst := some [0x01, 0x00], efsst_length := 2, fixed_dialing := true },
        [Call.signal_boolean_property_changed "FixedDialing" true]) ∧
    sim_efadn_info_read_cb accepting_collaborators
        { ofono_sim_create full_driver with efsst := some [0x03, 0x00], efsst_length := 2 }
        true 0x05 =
      ({ ofono_sim_create full_driver with efsst := some [0x03, 0x00], efsst_length := 2 },
        [Call.sim_fs_read_info sim_file_id.SIM_EFBDN_FILEID ofono_sim_file_structure.FIXED
          Callback.sim_efbdn_info_read_cb]) ∧
    sim_efadn_info_read_cb accepting_collaborators
        { ofono_sim_create full_driver with efsst := some [0x01, 0x00], efsst_length := 2 }
        false 0x00 =
      ({ ofono_sim_create full_driver with efsst := some [0x01, 0x00], efsst_length := 2 },
        [Call.driver_read_imsi Callback.sim_imsi_cb]) :=
  ⟨((sim_efadn_info_read_cb_fixed_dialing accepting_collaborators (ofono_sim_create full_driver)
      [0x01, 0x00] 0x04 (by decide) (by decide)).2.1 (by decide)).trans (by decide),
    ((sim_efadn_info_read_cb_fixed_dialing accepting_collaborators (ofono_sim_create full_driver)
      [0x03, 0x00] 0x05 (by decide) (by decide)).2.2.1 (by decide)).trans (by decide),
    ((sim_efadn_info_read_cb_fixed_dialing accepting_collaborators (ofono_sim_create full_driver)
      [0x01, 0x00] 0x00 (by decide) (by decide)).2.2.2).trans (by decide)⟩

/-- C27 (defect of `puk2pin`): when a successful query reports the kind
`PHNET_PUK` and another kind is recorded, `sim_pin_query_cb` stores the locked
flag at index 12 of the table `locked_pins`, which has 9 entries: `puk2pin`
maps `PHNET_PUK` to itself and not to `PHNET_PIN`.  For every other kind with a
name the store stays inside the table: a PIN-class kind marks its own entry, a
PUK-class kind other than `PHNET_PUK` the entry of its paired PIN-class kind,
and `NONE` the entry 0. -/
theorem sim_pin_query_cb_phnet_puk_outside_table :
    password_index (puk2pin PHNET_PUK) = 12 ∧
    (ofono_sim_create full_driver).locked_pins.length = 9 ∧
    sim_pin_query_cb (ofono_sim_create full_driver) true PHNET_PUK = none ∧
    (∀ sim : ofono_sim, sim.locked_pins.length = 9 → sim.pin_type ≠ PHNET_PUK →
      sim_pin_query_cb sim true PHNET_PUK = none) ∧
    (∀ (sim : ofono_sim) (k : ofono_sim_password_type), sim.locked_pins.length = 9 →
      sim.pin_type ≠ k → k ∈ pin_class →
      password_index k < 9 ∧
      (sim_pin_query_cb sim true k).map (fun r => r.1.locked_pins) =
        some (sim.locked_pins.set (password_index k) true)) ∧
    (∀ (sim : ofono_sim) (k : ofono_sim_password_type), sim.locked_pins.length = 9 →
      sim.pin_type ≠ k → k ∈ puk_class → k ≠ PHNET_PUK →
      ∃ p, paired_pin k = some p ∧ password_index p < 9 ∧
        (sim_pin_query_cb sim true k).map (fun r => r.1.locked_pins) =
          some (sim.locked_pins.set (password_index p) true)) ∧
    (∀ sim : ofono_sim, sim.locked_pins.length = 9 → sim.pin_type ≠ NONE →
      (sim_pin_query_cb sim true NONE).map (fun r => r.1.locked_pins) =
        some (sim.locked_pins.set 0 true)) := by
  refine ⟨rfl, rfl, by decide, ?_, ?_, ?_, ?_⟩
  · intro sim hlen hk
    unfold sim_pin_query_cb
    simp [hk, sim_passwd_name, passwd_name, password_is_pin, puk2pin, set_locked_pin,
      password_index, hlen]
  · intro sim k hlen hk hmem
    simp only [pin_class, List.mem_cons, List.mem_singleton, List.not_mem_nil, or_false] at hmem
    unfold sim_pin_query_cb
    rcases hmem with rfl | rfl | rfl | rfl | rfl | rfl | rfl | rfl <;>
      simp [hk, sim_passwd_name, passwd_name, password_is_pin, set_locked_pin, password_index,
        hlen]
  · intro sim k hlen hk hmem hne
    simp only [puk_class, List.mem_cons, List.mem_singleton, List.not_mem_nil, or_false] at hmem
    unfold sim_pin_query_cb
    rcases hmem with rfl | rfl | rfl | rfl | rfl | rfl | rfl
    · exact ⟨SIM_PIN, rfl, by decide, by
        simp [hk, sim_passwd_name, passwd_name, password_is_pin, puk2pin, set_locked_pin,
          password_index, hlen]⟩
    · exact ⟨SIM_PIN2, rfl, by decide, by
        simp [hk, sim_passwd_name, passwd_name, password_is_pin, puk2pin, set_locked_pin,
          password_index, hlen]⟩
    · exact ⟨PHFSIM_PIN, rfl, by decide, by
        simp [hk, sim_passwd_name, passwd_name, password_is_pin, puk2pin, set_locked_pin,
          password_index, hlen]⟩
    · exact absurd rfl hne
    · exact ⟨PHNETSUB_PIN, rfl, by decide, by
        simp [hk, sim_passwd_name, passwd_name, password_is_pin, puk2pin, set_locked_pin,
          password_index, hlen]⟩
    · exact ⟨PHSP_PIN, rfl, by decide, by
        simp [hk, sim_passwd_name, passwd_name, password_is_pin, puk2pin, set_locked_pin,
          password_index, hlen]⟩
    · exact ⟨PHCORP_PIN, rfl, by decide, by
        simp [hk, sim_passwd_name, passwd_name, password_is_pin, puk2pin, set_locked_pin,
          password_index, hlen]⟩
  · intro sim hlen hk
    unfold sim_pin_query_cb
    simp [hk, sim_passwd_name, passwd_name, set_locked_pin, password_index, hlen]

/-- C28 (missing test of an odd length): on the three bytes 'e','n','f' of a
successful EFpl read, `parse_language_list` takes the last byte as the first
of a pair and reads index 3, outside the buffer, and so does
`sim_efpl_read_cb`.  In general, on a buffer of odd length the function reads
outside the buffer exactly when the last byte is not above 0x7f; on a buffer
of even length it reads inside the buffer and returns the codes. -/
theorem parse_language_list_reads_past_odd_buffer :
    parse_language_list [0x65, 0x6e, 0x66] 3 = none ∧
    sim_efpl_read_cb accepting_collaborators (ofono_sim_create full_driver) true
      [0x65, 0x6e, 0x66] = none ∧
    (∀ ef : List Nat, ef.length % 2 = 1 →
      (parse_language_list ef ef.length = none ↔ ef.getD (ef.length - 1) 0 ≤ 0x7f)) ∧
    (∀ ef : List Nat, ef.length % 2 = 0 →
      parse_language_list ef ef.length = some (pair_list_codes ef)) := by
  refine ⟨by decide, by decide, ?_, parse_language_list_even⟩
  intro ef h
  have := parse_language_list_odd ef h
  generalize ef.getD (ef.length - 1) 0 = last at this ⊢
  cases hp : parse_language_list ef ef.length with
  | none =>
    rw [hp] at this
    have hl : ¬ last > 0x7f := by simpa using this.symm
    simp only [true_iff]
    omega
  | some l =>
    rw [hp] at this
    have hl : last > 0x7f := by simpa using this.symm
    constructor
    · intro h0
      cases h0
    · intro h0
      omega

/-- C29 (division before the test of the record length): on a completion with
`ok` set and a record length of 0, `sim_efimg_read_cb` divides `length` by 0;
the test that rejects record lengths below 10 comes after the division.  With
a record length above 0, on the records 1 .. `length / record_length` of a
read, the function returns and every slot it writes lies inside the table,
both when it finds no table and allocates one and when it finds the table an
earlier record of the read allocated. -/
theorem sim_efimg_read_cb_divides_before_check :
    (∀ (sim : ofono_sim) (length record : Nat) (data : List Nat),
      sim_efimg_read_cb sim true length record data 0 = none) ∧
    (∀ (sim : ofono_sim) (length record record_length : Nat) (data : List Nat),
      0 < record_length → sim.efimg = none → 1 ≤ record → record ≤ length / record_length →
      data.length = record_length →
      ∃ r, sim_efimg_read_cb sim true length record data record_length = some r ∧
        (r = sim ∨
          (r.efimg.map List.length = some (length / record_length * 9) ∧
            (record - 1) * 9 + 8 < length / record_length * 9))) ∧
    (∀ (sim : ofono_sim) (length record record_length : Nat) (data buf : List Nat),
      0 < record_length → sim.efimg = some buf → buf.length = length / record_length * 9 →
      1 ≤ record → record ≤ length / record_length → data.length = record_length →
      ∃ r, sim_efimg_read_cb sim true length record data record_length = some r ∧
        (r = sim ∨
          (r.efimg.map List.length = some (length / record_length * 9) ∧
            (record - 1) * 9 + 8 < length / record_length * 9))) := by
  refine ⟨?_, ?_, ?_⟩
  · intro sim length record data
    rfl
  · intro sim length record record_length data hpos hnone h1 hrec hdata
    unfold sim_efimg_read_cb
    rw [if_neg (by decide), if_neg (by omega)]
    simp only [hnone]
    by_cases hlen : record_length < 10 ∨ (record_length % 9 ≠ 2 ∧ record_length % 9 ≠ 1)
    · rw [if_pos hlen]
      exact ⟨sim, rfl, Or.inl rfl⟩
    · rw [if_neg hlen]
      have h10 : 10 ≤ record_length := by omega
      have hn : length / record_length * 9 ≠ 0 := by omega
      rw [if_neg hn]
      simp only
      have hin : ¬ (record = 0 ∨
          (List.replicate (length / record_length * 9) 0).length < (record - 1) * 9 + 9 ∨
          data.length < 10) := by
        rw [List.length_replicate]
        omega
      rw [if_neg hin]
      refine ⟨_, rfl, Or.inr ⟨?_, by omega⟩⟩
      simp only [Option.map_some', List.length_append, List.length_take, List.length_drop,
        List.length_replicate]
      congr 1
      omega
  · intro sim length record record_length data buf hpos hsome hbuf h1 hrec hdata
    unfold sim_efimg_read_cb
    rw [if_neg (by decide), if_neg (by omega)]
    simp only [hsome]
    by_cases hlen : record_length < 10 ∨ (record_length % 9 ≠ 2 ∧ record_length % 9 ≠ 1)
    · rw [if_pos hlen]
      exact ⟨sim, rfl, Or.inl rfl⟩
    · rw [if_neg hlen]
      have hin : ¬ (record = 0 ∨ buf.length < (record - 1) * 9 + 9 ∨ data.length < 10) := by
        omega
      rw [if_neg hin]
      refine ⟨_, rfl, Or.inr ⟨?_, by omega⟩⟩
      simp only [Option.map_some', List.length_append, List.length_take, List.length_drop]
      congr 1
      omega

/-- C30 (return code of `ofono_sim_read_bytes` not looked at): a get-icon
request for an icon whose descriptor gives an image data length of 0 is
accepted and stored in the pending slot, but `ofono_sim_read_bytes` issues no
read for 0 bytes and `sim_get_image` sends no reply: on return the request is
neither answered nor awaiting a completion.  The pending slot stays set, and
the next get-icon request is rejected as busy. -/
theorem sim_get_icon_zero_length_stays_pending :
    sim_get_icon accepting_collaborators
        { ofono_sim_create full_driver with efimg := some (List.replicate 9 0), efimg_length := 9 }
        ⟨7, [DBusArg.byte 1]⟩ =
      some ⟨{ ofono_sim_create full_driver with
          efimg := some (List.replicate 9 0), efimg_length := 9,
          pending := some ⟨7, [DBusArg.byte 1]⟩ },
        none, [Call.sim_fs_get_cached_image 0]⟩ ∧
    sim_get_icon accepting_collaborators
        { ofono_sim_create full_driver with
          efimg := some (List.replicate 9 0), efimg_length := 9,
          pending := some ⟨7, [DBusArg.byte 1]⟩ }
        ⟨8, [DBusArg.byte 1]⟩ =
      some ⟨{ ofono_sim_create full_driver with
          efimg := some (List.replicate 9 0), efimg_length := 9,
          pending := some ⟨7, [DBusArg.byte 1]⟩ },
        some Reply.error_busy, []⟩ ∧
    (∀ (c : Collaborators) (id : sim_file_id) (offset : Nat) (cb : Callback),
      ofono_sim_read_bytes c id offset 0 cb = (-1, [])) ∧
    (∀ (c : Collaborators) (sim : ofono_sim) (msg : DBusMessage) (o : Outcome),
      sim_get_icon c sim msg = some o → o.reply = none →
      (o.sim.pending = none ∧
        ∃ reply, Call.g_dbus_send_message (some msg) reply ∈ o.calls) ∨
      (o.sim.pending = some msg ∧
        ∃ id offset num_bytes, num_bytes ≠ 0 ∧
          Call.sim_fs_read id ofono_sim_file_structure.TRANSPARENT offset num_bytes
            Callback.sim_iidf_read_cb ∈ o.calls) ∨
      (o.sim.pending = some msg ∧
        ∃ id, o.calls = [Call.sim_fs_get_cached_image id])) := by
  refine ⟨by decide, by decide, fun _ _ _ _ => rfl, ?_⟩
  intro c sim msg o h hreply
  unfold sim_get_icon at h
  split at h
  · cases h
    cases hreply
  · split_ifs at h
    · cases h
      cases hreply
    · cases h
      cases hreply
    · cases h
      cases hreply
    · simp only [Option.map_eq_some'] at h
      obtain ⟨r, hr, rfl⟩ := h
      show (r.1.pending = none ∧ ∃ reply, Call.g_dbus_send_message (some msg) reply ∈ r.2) ∨
        (r.1.pending = some msg ∧
          ∃ id offset num_bytes, num_bytes ≠ 0 ∧
            Call.sim_fs_read id ofono_sim_file_structure.TRANSPARENT offset num_bytes
              Callback.sim_iidf_read_cb ∈ r.2) ∨
        (r.1.pending = some msg ∧ ∃ id, r.2 = [Call.sim_fs_get_cached_image id])
      unfold sim_get_image at hr
      split at hr
      · cases hr
        exact Or.inl ⟨rfl, by simp [sim_get_image_cb, __ofono_dbus_pending_reply]⟩
      · split_ifs at hr
        · cases hr
          exact Or.inl ⟨rfl, by simp [sim_get_image_cb, __ofono_dbus_pending_reply]⟩
        · simp only [Option.bind_eq_bind, Option.bind_eq_some, Option.some.injEq] at hr
          obtain ⟨buf, -, b3, -, b4, -, b5, -, b6, -, b7, -, b8, -, rfl⟩ := hr
          right
          unfold ofono_sim_read_bytes
          by_cases hz : (b7 <<< 8 ||| b8) % 2 ^ 16 = 0
          · rw [if_pos hz]
            exact Or.inr ⟨rfl, _, rfl⟩
          · rw [if_neg hz]
            exact Or.inl ⟨rfl, _, _, _, hz,
              List.mem_cons_of_mem _ (List.mem_singleton.mpr rfl)⟩

/-- C26: `sim_ad_read_cb` stores the low nibble of the fourth byte in
`mnc_length` exactly when the read succeeded, delivered at least 4 bytes and
the nibble is 2 or 3, and otherwise leaves the whole session as it was.  In
every state a run of the session reaches, `mnc_length` is 0, 2 or 3.  On an
IMSI of at least 3 characters `sim_imsi_cb` returns; with `mnc_length` at 0 it
leaves `mcc` and `mnc` as they were, and otherwise `mcc` is the first 3
characters of the IMSI and `mnc` the next `mnc_length` characters. -/
theorem sim_ad_read_cb_mnc_length (c : Collaborators) (sim : ofono_sim) :
    (∀ (ok : Bool) (data : List Nat),
      sim_ad_read_cb sim ok data =
        if ok = true ∧ 4 ≤ data.length ∧ (data.getD 3 0 % 16 = 2 ∨ data.getD 3 0 % 16 = 3) then
          { sim with mnc_length := data.getD 3 0 % 16 }
        else sim) ∧
    (∀ (driver : ofono_sim_driver) (events : List Event) (r : Run),
      run c ⟨ofono_sim_create driver, []⟩ events = some r →
      r.sim.mnc_length = 0 ∨ r.sim.mnc_length = 2 ∨ r.sim.mnc_length = 3) ∧
    (∀ imsi : String, sim.mnc_length ≤ 3 → 3 ≤ imsi.length →
      (sim.state = ofono_sim_state.INSERTED → sim.atom_registered = true) →
      ∃ r, sim_imsi_cb sim true imsi = some r ∧
        (sim.mnc_length = 0 → r.1.mcc = sim.mcc ∧ r.1.mnc = sim.mnc) ∧
        (sim.mnc_length ≠ 0 →
          r.1.mcc = String.mk (imsi.data.take 3) ∧
          r.1.mnc = String.mk ((imsi.data.drop 3).take sim.mnc_length))) := by
  refine ⟨?_, ?_, ?_⟩
  · intro ok data
    unfold sim_ad_read_cb
    by_cases hok : ok = false
    · rw [if_pos hok, if_neg (by simp [hok])]
    · rw [if_neg hok]
      have hok : ok = true := by simpa using hok
      by_cases hlen : data.length < 4
      · rw [if_pos hlen, if_neg (by omega)]
      · rw [if_neg hlen]
        have h3 : data[3]? = some (data.getD 3 0) := by
          rw [List.getD_eq_getElem?_getD, List.getElem?_eq_getElem (by omega)]
          rfl
        rw [h3]
        generalize data.getD 3 0 = b3
        simp only
        by_cases hn : b3 % 16 < 2 ∨ b3 % 16 > 3
        · rw [if_pos hn, if_neg (by omega)]
        · rw [if_neg hn, if_pos ⟨hok, by omega, by omega⟩]
  · intro driver events r h
    refine run_invariant c
      (fun s => s.mnc_length = 0 ∨ s.mnc_length = 2 ∨ s.mnc_length = 3) ?_ events
      ⟨ofono_sim_create driver, []⟩ r (Or.inl rfl) h
    intro s e x hs hx
    rcases handle_mnc_length c s e x hx with h1 | h1
    · rw [h1]
      exact hs
    · exact h1
  · intro imsi hmnc himsi hreg
    obtain ⟨r, hr⟩ := sim_imsi_cb_returns sim imsi hmnc himsi hreg
    exact ⟨r, hr, sim_imsi_cb_codes sim imsi r hr⟩

/-- C21 (IMSI retrieval not guarded after the service-table reads): a run
reaches READY with `fixed_dialing` set.  A card is removed while the file
information of EFadn is awaited and a second card is inserted; the late
completion sets `fixed_dialing`, and the failed EFust read of the second card
requests the IMSI all the same, since `sim_efust_read_cb` and
`sim_efsst_read_cb` call `sim_retrieve_imsi` without looking at the two flags,
which the three other bring-up steps test first.  The successful retrieval
then moves the session to READY.  The rest of the claim holds: the state
becomes READY only in the handler of a successful IMSI retrieval, which sets
`imsi`, and a failed retrieval changes nothing. -/
theorem ready_reached_with_fixed_dialing :
    (∃ r, run accepting_collaborators ⟨ofono_sim_create driver_without_passwd_query, []⟩
        late_fixed_dialing_events = some r ∧
      r.sim.state = ofono_sim_state.INSERTED ∧ r.sim.fixed_dialing = true ∧
      r.outstanding = [Callback.sim_imsi_cb]) ∧
    (∃ r, run accepting_collaborators ⟨ofono_sim_create driver_without_passwd_query, []⟩
        (late_fixed_dialing_events ++ [Event.imsi true "001010123456789"]) = some r ∧
      r.sim.state = ofono_sim_state.READY ∧ r.sim.fixed_dialing = true ∧
      r.sim.imsi = some "001010123456789") ∧
    (∀ (c : Collaborators) (sim : ofono_sim), sim.driver.read_imsi = true →
      (sim_efust_read_cb c sim false []).2 = [Call.driver_read_imsi Callback.sim_imsi_cb] ∧
      (sim_efsst_read_cb c sim false []).2 = [Call.driver_read_imsi Callback.sim_imsi_cb]) ∧
    (∀ (c : Collaborators) (sim : ofono_sim) (ok : Bool) (file_status : Nat)
      (data : List Nat) (cb : Callback),
      sim.fixed_dialing = true ∨ sim.barred_dialing = true →
      Call.driver_read_imsi cb ∉ (sim_efbdn_info_read_cb sim ok file_status).2 ∧
      Call.driver_read_imsi cb ∉ (sim_efadn_info_read_cb c sim ok file_status).2 ∧
      Call.driver_read_imsi cb ∉ (sim_efest_read_cb c sim ok data).2) ∧
    (∀ (c : Collaborators) (sim : ofono_sim) (e : Event) (r : ofono_sim × List Call),
      handle c sim e = some r → sim.state ≠ ofono_sim_state.READY →
      r.1.state = ofono_sim_state.READY →
      ∃ imsi, e = Event.imsi true imsi ∧ r.1.imsi = some imsi) ∧
    (∀ (sim : ofono_sim) (imsi : String), sim_imsi_cb sim false imsi = some (sim, [])) := by
  refine ⟨⟨_, rfl, by decide⟩, ⟨_, rfl, by decide⟩, ?_, ?_, ?_, fun _ _ => rfl⟩
  · intro c sim h
    unfold sim_efust_read_cb sim_efsst_read_cb sim_retrieve_imsi
    simp [h]
  · intro c sim ok file_status data cb h
    exact ⟨sim_efbdn_info_read_cb_guarded sim ok file_status cb h,
      sim_efadn_info_read_cb_guarded c sim ok file_status cb h,
      sim_efest_read_cb_guarded c sim ok data cb h⟩
  · intro c sim e r h hs hr
    rcases handle_state_cases c sim e r h with h1 | ⟨_, _, _, h1⟩ | ⟨imsi, h1, _, _, h2⟩
    · rw [h1] at hr
      exact absurd hr hs
    · exact absurd hr h1
    · exact ⟨imsi, h1, h2⟩

/-- C24 fails as stated: on a session in state NOT_PRESENT the completion of a
successful IMSI retrieval stores the IMSI and notifies it, and the completion
of a failed phase read sets the phase to 3G and issues a read; in both the
state stays NOT_PRESENT. -/
theorem late_completion_stores_fields :
    (ofono_sim_create full_driver).state = ofono_sim_state.NOT_PRESENT ∧
    handle accepting_collaborators (ofono_sim_create full_driver)
        (Event.imsi true "001010123456789") =
      some ({ ofono_sim_create full_driver with imsi := some "001010123456789" },
        [Call.signal_property_changed "SubscriberIdentity" "001010123456789"]) ∧
    handle accepting_collaborators (ofono_sim_create full_driver) (Event.efphase_read false []) =
      some ({ ofono_sim_create full_driver with phase := ofono_sim_phase.PHASE_3G },
        [Call.sim_fs_read sim_file_id.SIM_EFUST_FILEID ofono_sim_file_structure.TRANSPARENT 0 0
          Callback.sim_efust_read_cb]) := by
  decide

/-- C24, amended: a bring-up completion delivered while the state is
NOT_PRESENT leaves the state NOT_PRESENT.  The handlers do not look at the
state, so the other fields are left as they were only where the handler stores
nothing: on a failed read of the card serial number, of EFli, of the
administrative data or of a service table, a failed file-information read, a
failed query of the password state and a failed retrieval of the IMSI, each of
which returns with the session unchanged. -/
theorem late_completion_keeps_not_present (c : Collaborators) (sim : ofono_sim) (e : Event)
    (hs : sim.state = ofono_sim_state.NOT_PRESENT) (he : bring_up_completion e = true) :
    (∀ r, handle c sim e = some r → r.1.state = ofono_sim_state.NOT_PRESENT) ∧
    (failed_without_store e = true → ∃ calls, handle c sim e = some (sim, calls)) := by
  constructor
  · intro r h
    rcases handle_state_cases c sim e r h with h1 | ⟨_, h1, _⟩ | ⟨_, _, h1, _⟩
    · rw [h1, hs]
    · rw [h1] at he
      cases he
    · rw [hs] at h1
      cases h1
  · intro hf
    cases e with
    | iccid_read ok data =>
      cases ok
      · exact ⟨_, rfl⟩
      · cases hf
    | efli_read ok data =>
      cases ok
      · exact ⟨_, rfl⟩
      · cases hf
    | pin_query ok pin_type =>
      cases ok
      · exact ⟨_, rfl⟩
      · cases hf
    | ad_read ok data =>
      cases ok
      · exact ⟨_, rfl⟩
      · cases hf
    | efsst_read ok data =>
      cases ok
      · exact ⟨_, rfl⟩
      · cases hf
    | efust_read ok data =>
      cases ok
      · exact ⟨_, rfl⟩
      · cases hf
    | efest_read ok data =>
      cases ok
      · refine ⟨(sim_efest_read_cb c sim false data).2, ?_⟩
        simp only [handle, sim_efest_read_cb]
        split_ifs <;> rfl
      · cases hf
    | efadn_info_read ok file_status =>
      cases ok
      · refine ⟨(sim_efadn_info_read_cb c sim false file_status).2, ?_⟩
        simp only [handle, sim_efadn_info_read_cb]
        split_ifs <;> rfl
      · cases hf
    | efbdn_info_read ok file_status =>
      cases ok
      · refine ⟨(sim_efbdn_info_read_cb sim false file_status).2, ?_⟩
        simp only [handle, sim_efbdn_info_read_cb]
        split_ifs <;> rfl
      · cases hf
    | imsi ok imsi =>
      cases ok
      · exact ⟨_, rfl⟩
      · cases hf
    | _ => cases hf

theorem late_completion_keeps_not_present_witness :
    (ofono_sim_create full_driver).state = ofono_sim_state.NOT_PRESENT ∧
    bring_up_completion (Event.efsst_read false []) = true ∧
    (∀ r, handle accepting_collaborators (ofono_sim_create full_driver)
        (Event.efsst_read false []) = some r → r.1.state = ofono_sim_state.NOT_PRESENT) ∧
    ∃ calls, handle accepting_collaborators (ofono_sim_create full_driver)
      (Event.efsst_read false []) = some (ofono_sim_create full_driver, calls) :=
  ⟨rfl, rfl,
    (late_completion_keeps_not_present accepting_collaborators (ofono_sim_create full_driver)
      (Event.efsst_read false []) rfl rfl).1,
    (late_completion_keeps_not_present accepting_collaborators (ofono_sim_create full_driver)
      (Event.efsst_read false []) rfl rfl).2 rfl⟩

end OfonoSim
